import Mathlib

/-!
Cuboid decomposition and geometry statistics of OpenLB (olb-1.7)
================================================================

A shallow embedding of `src/geometry/cuboid3D.hh` and of
`src/geometry/superGeometryStatistics2D.hh`.

Conventions of the embedding

* The template parameter `T` of the C++ classes is a type parameter.  Statements
  "over exact arithmetic" are proved for every linear ordered field `T` with a
  floor function; concrete evaluations use `ℚ`.
* The C++ type `int` is `Int`.  Signed overflow is undefined behaviour in C++,
  so there is no wrapped value to model; `/` on `int` is truncated division
  `Int.tdiv`.  The exception is the product of the three extents in
  `getPhysVolume`, which leaves the range of a 32 bit `int` for cuboids of
  realistic size: there every `int` product is reduced to its 32 bit two's
  complement value by `wrapInt`.
* `std::size_t` is `Nat` reduced modulo `2^64` after every operation.
* `std::vector<Cuboid3D<T>>` is `List (Cuboid3D T)`, `push_back` appends at the end.
* A counted loop `for (int i=0; i<n; i++)` whose body changes neither `i` nor
  `n` is `forRange n body`; local variables that live across iterations are
  fields of an explicit loop state.
-/

set_option autoImplicit false

namespace olb

/-! ## Machine integers -/

/-- The value `std::numeric_limits<size_t>::max()` on a 64 bit platform. -/
def sizeMax : Nat := 2 ^ 64 - 1

/-- The conversion `static_cast<size_t>(i)` of an `int`: reduction modulo `2^64`. -/
def toSizeT (i : Int) : Nat := (i % (2 ^ 64 : Int)).toNat

/-- Multiplication of two `size_t` values. -/
def sizeMul (a b : Nat) : Nat := (a * b) % 2 ^ 64

/-- Addition of two `size_t` values. -/
def sizeAdd (a b : Nat) : Nat := (a + b) % 2 ^ 64

/-- The accumulation `total += v` of a list of `size_t` values, starting from `0`. -/
def sizeSum (l : List Nat) : Nat := l.foldl sizeAdd 0

/-- The counted loop `for (int i=0; i<n; i++) body`, threading the state `s`. -/
def forRange {σ : Type} (n : Int) (body : Int → σ → σ) (s : σ) : σ :=
  (List.range n.toNat).foldl (fun st (i : Nat) => body (i : Int) st) s

/-! ## Class `Cuboid3D` -/

/-- The data members of `Cuboid3D<T>` (cuboid3D.h): global position of the
lower left corner, node spacing, number of nodes per direction, and weight. -/
structure Cuboid3D (T : Type) where
  globPosX : T
  globPosY : T
  globPosZ : T
  delta : T
  nX : Int
  nY : Int
  nZ : Int
  weight : Nat

namespace Cuboid3D

variable {T : Type}

/-- The constructor `Cuboid3D(globPosX, globPosY, globPosZ, delta, nX, nY, nZ)`:
the weight is initialised with `size_t` max, then `init` stores the arguments. -/
def new (globPosX globPosY globPosZ delta : T) (nX nY nZ : Int) : Cuboid3D T :=
  { globPosX := globPosX, globPosY := globPosY, globPosZ := globPosZ,
    delta := delta, nX := nX, nY := nY, nZ := nZ, weight := sizeMax }

/-- The member `getLatticeVolume`:
`static_cast<size_t>(_nY)*static_cast<size_t>(_nX)*static_cast<size_t>(_nZ)`. -/
def getLatticeVolume (c : Cuboid3D T) : Nat :=
  sizeMul (sizeMul (toSizeT c.nY) (toSizeT c.nX)) (toSizeT c.nZ)

/-- The local variables of `divide(nX, nY, nZ, childrenC)` that live across
loop iterations, together with the output vector. -/
structure DivideState (T : Type) where
  xN_child : Int
  yN_child : Int
  zN_child : Int
  globPosX_child : T
  globPosY_child : T
  globPosZ_child : T
  childrenC : List (Cuboid3D T)

variable [LinearOrderedField T]

/-- The body of the innermost loop (over `iZ`) of `divide(nX, nY, nZ, childrenC)`. -/
def divideBodyZ (c : Cuboid3D T) (nX nY nZ iX iY iZ : Int) (s : DivideState T) :
    DivideState T :=
  let xN_child := (c.nX + nX - iX - 1).tdiv nX
  let yN_child := (c.nY + nY - iY - 1).tdiv nY
  let zN_child := (c.nZ + nZ - iZ - 1).tdiv nZ
  let child := Cuboid3D.new s.globPosX_child s.globPosY_child s.globPosZ_child
    c.delta xN_child yN_child zN_child
  { xN_child := xN_child, yN_child := yN_child, zN_child := zN_child,
    globPosX_child := s.globPosX_child, globPosY_child := s.globPosY_child,
    globPosZ_child := s.globPosZ_child + (zN_child : T) * c.delta,
    childrenC := s.childrenC ++ [child] }

/-- The body of the middle loop (over `iY`): the `iZ` loop, then the reset of
`globPosZ_child` and the advance of `globPosY_child`. -/
def divideBodyY (c : Cuboid3D T) (nX nY nZ iX iY : Int) (s : DivideState T) :
    DivideState T :=
  let s1 := forRange nZ (fun iZ st => divideBodyZ c nX nY nZ iX iY iZ st) s
  { s1 with globPosZ_child := c.globPosZ,
            globPosY_child := s1.globPosY_child + (s1.yN_child : T) * c.delta }

/-- The body of the outer loop (over `iX`): the `iY` loop, then the reset of
`globPosY_child` and the advance of `globPosX_child`. -/
def divideBodyX (c : Cuboid3D T) (nX nY nZ iX : Int) (s : DivideState T) :
    DivideState T :=
  let s1 := forRange nY (fun iY st => divideBodyY c nX nY nZ iX iY st) s
  { s1 with globPosY_child := c.globPosY,
            globPosX_child := s1.globPosX_child + (s1.xN_child : T) * c.delta }

/-- The member `divide(int nX, int nY, int nZ, std::vector<Cuboid3D<T>>& childrenC)`;
the result is the vector `childrenC` after the call. -/
def divide (c : Cuboid3D T) (nX nY nZ : Int) (childrenC : List (Cuboid3D T)) :
    List (Cuboid3D T) :=
  let s0 : DivideState T :=
    { xN_child := 0, yN_child := 0, zN_child := 0,
      globPosX_child := c.globPosX, globPosY_child := c.globPosY,
      globPosZ_child := c.globPosZ, childrenC := childrenC }
  (forRange nX (fun iX st => divideBodyX c nX nY nZ iX st) s0).childrenC

/-! ### Coordinate maps and point / intersection tests -/

variable [FloorRing T]

/-- The member `getPhysR(T physR[3], const int latticeR[3])`. -/
def getPhysR (c : Cuboid3D T) (latticeR : Int × Int × Int) : T × T × T :=
  (c.globPosX + (latticeR.1 : T) * c.delta,
   c.globPosY + (latticeR.2.1 : T) * c.delta,
   c.globPosZ + (latticeR.2.2 : T) * c.delta)

/-- The member `getLatticeR(int latticeR[3], const T physR[3])`:
`(int)util::floor((physR[i] - _globPos)/_delta + .5)` on each axis. -/
def getLatticeR (c : Cuboid3D T) (physR : T × T × T) : Int × Int × Int :=
  (⌊(physR.1 - c.globPosX) / c.delta + 1 / 2⌋,
   ⌊(physR.2.1 - c.globPosY) / c.delta + 1 / 2⌋,
   ⌊(physR.2.2 - c.globPosZ) / c.delta + 1 / 2⌋)

/-- The member `checkPoint(T globX, T globY, T globZ, int overlap)`. -/
def checkPoint (c : Cuboid3D T) (globX globY globZ : T) (overlap : Int) : Bool :=
  decide (c.globPosX ≤ globX + (overlap : T) * c.delta + c.delta / 2) &&
  decide (c.globPosX + ((c.nX + overlap : Int) : T) * c.delta > globX + c.delta / 2) &&
  decide (c.globPosY ≤ globY + (overlap : T) * c.delta + c.delta / 2) &&
  decide (c.globPosY + ((c.nY + overlap : Int) : T) * c.delta > globY + c.delta / 2) &&
  decide (c.globPosZ ≤ globZ + (overlap : T) * c.delta + c.delta / 2) &&
  decide (c.globPosZ + ((c.nZ + overlap : Int) : T) * c.delta > globZ + c.delta / 2)

/-- The member `checkInters(T globX0, T globX1, T globY0, T globY1, T globZ0,
T globZ1, int overlap)`; `util::max` and `util::min` are the binary maximum and
minimum. -/
def checkInters (c : Cuboid3D T) (globX0 globX1 globY0 globY1 globZ0 globZ1 : T)
    (overlap : Int) : Bool :=
  let locX0d := max (c.globPosX - (overlap : T) * c.delta) globX0
  let locY0d := max (c.globPosY - (overlap : T) * c.delta) globY0
  let locZ0d := max (c.globPosZ - (overlap : T) * c.delta) globZ0
  let locX1d := min (c.globPosX + ((c.nX + overlap - 1 : Int) : T) * c.delta) globX1
  let locY1d := min (c.globPosY + ((c.nY + overlap - 1 : Int) : T) * c.delta) globY1
  let locZ1d := min (c.globPosZ + ((c.nZ + overlap - 1 : Int) : T) * c.delta) globZ1
  decide (locX1d ≥ locX0d) && decide (locY1d ≥ locY0d) && decide (locZ1d ≥ locZ0d)

/-- The member `checkInters(Cuboid3D<T>& child)`. -/
def checkIntersCuboid (c child : Cuboid3D T) : Bool :=
  c.checkInters
    child.globPosX (child.globPosX + child.delta * ((child.nX - 1 : Int) : T))
    child.globPosY (child.globPosY + child.delta * ((child.nY - 1 : Int) : T))
    child.globPosZ (child.globPosZ + child.delta * ((child.nZ - 1 : Int) : T))
    0

/-! ### Fractional subdivision -/

/-- The conversion `(int)x` of a value of type `T`: truncation towards zero. -/
def truncToInt (x : T) : Int := if 0 ≤ x then ⌊x⌋ else ⌈x⌉

/-- The class `Vector<A,3>` with its components. -/
structure Vector3 (A : Type) where
  x : A
  y : A
  z : A

/-- The constructor of `Vector<A,3>` from a function of the component index. -/
def Vector3.ofFn {A : Type} (f : Int → A) : Vector3 A := ⟨f 0, f 1, f 2⟩

/-- The component access `v[i]` for `i` in `0..2`. -/
def Vector3.get {A : Type} (v : Vector3 A) (i : Int) : A :=
  if i = 0 then v.x else if i = 1 then v.y else v.z

/-- The scalar product `v*w` of two `Vector<int,3>`. -/
def Vector3.dot (v w : Vector3 Int) : Int := v.x * w.x + v.y * w.y + v.z * w.z

/-- The member `getExtent`. -/
def getExtent (c : Cuboid3D T) : Vector3 Int := ⟨c.nX, c.nY, c.nZ⟩

/-- The member `getOrigin`. -/
def getOrigin (c : Cuboid3D T) : Vector3 T := ⟨c.globPosX, c.globPosY, c.globPosZ⟩

/-- The constructor `Cuboid3D(Vector<T,3> origin, T delta, Vector<int,3> extend)`. -/
def ofVectors (origin : Vector3 T) (delta : T) (extend : Vector3 Int) : Cuboid3D T :=
  { globPosX := origin.x, globPosY := origin.y, globPosZ := origin.z, delta := delta,
    nX := extend.x, nY := extend.y, nZ := extend.z, weight := sizeMax }

/-- The first loop of `divideFractional`: for every fraction `f` the width
`f * (getExtent()*base)`, converted to `int` by `toInt`, is appended to
`fractionWidths` and added to `totalWidth`.  The state is
`(fractionWidths, totalWidth)`. -/
def fractionWidthsLoop (toInt : T → Int) (len : Int) (fractions : List T) :
    List Int × Int :=
  fractions.foldl
    (fun st f =>
      let w := toInt (f * (len : T))
      (st.1 ++ [w], st.2 + w))
    ([], 0)

/-- The statement `fractionWidths.back() += v`; `none` on an empty vector, where
`back()` has no defined behaviour. -/
def addToBack (widths : List Int) (v : Int) : Option (List Int) :=
  match widths.getLast? with
  | none => none
  | some w => some (widths.dropLast ++ [w + v])

/-- The body of the second loop of `divideFractional`: the child for one width
is built at the current origin and pushed, then `origin += width*delta`.  The
vectors `delta`, `base` and `extent` are the ones set up before the loop.  The
state is `(origin, childrenC)`. -/
def fractionalStep (c : Cuboid3D T) (iD : Int) (st : Vector3 T × List (Cuboid3D T))
    (width : Int) : Vector3 T × List (Cuboid3D T) :=
  let delta : Vector3 T := Vector3.ofFn (fun i => if i = iD then c.delta else 0)
  let base : Vector3 Int := Vector3.ofFn (fun i => if i = iD then 1 else 0)
  let extent : Vector3 Int := Vector3.ofFn (fun i => if i = iD then 0 else c.getExtent.get i)
  let child := ofVectors st.1 c.delta
    ⟨extent.x + width * base.x, extent.y + width * base.y, extent.z + width * base.z⟩
  (⟨st.1.x + (width : T) * delta.x, st.1.y + (width : T) * delta.y,
    st.1.z + (width : T) * delta.z⟩, st.2 ++ [child])

/-- The second loop of `divideFractional`: one child per width, the origin
advancing by `width*delta` along axis `iD`. -/
def fractionalChildren (c : Cuboid3D T) (iD : Int) (widths : List Int)
    (childrenC : List (Cuboid3D T)) : List (Cuboid3D T) :=
  (widths.foldl (fractionalStep c iD) (c.getOrigin, childrenC)).2

/-- The member `divideFractional(int iD, std::vector<T> fractions,
std::vector<Cuboid3D<T>>& childrenC)`, with the conversion of `T` to `int`
used by `emplace_back` as a parameter.  The result is `childrenC` after the call. -/
def divideFractionalWith (toInt : T → Int) (c : Cuboid3D T) (iD : Int) (fractions : List T)
    (childrenC : List (Cuboid3D T)) : Option (List (Cuboid3D T)) :=
  let base : Vector3 Int := Vector3.ofFn (fun i => if i = iD then 1 else 0)
  let st := fractionWidthsLoop toInt (c.getExtent.dot base) fractions
  match addToBack st.1 (c.getExtent.dot base - st.2) with
  | none => none
  | some widths => some (fractionalChildren c iD widths childrenC)

/-- The member `divideFractional` with the conversion of the language,
truncation towards zero. -/
def divideFractional (c : Cuboid3D T) (iD : Int) (fractions : List T)
    (childrenC : List (Cuboid3D T)) : Option (List (Cuboid3D T)) :=
  divideFractionalWith truncToInt c iD fractions childrenC

end Cuboid3D

/-! ## Subdivision into a given number of cuboids: `divide(p, childrenC)` -/

/-- A loop `for (int i=start; cond(i); i++) body` whose condition is not a plain
bound.  `fuel` bounds the number of evaluations of the condition; the result is
`none` when the fuel is used up before the condition fails. -/
def forLoop {σ : Type} (fuel : Nat) (cond : Int → Bool) (body : Int → σ → Option σ)
    (i : Int) (s : σ) : Option σ :=
  match fuel with
  | 0 => none
  | f + 1 => if cond i then (body i s).bind (fun s1 => forLoop f cond body (i + 1) s1) else some s

/-- The members of `Cuboid2D<T>` read by `Cuboid3D<T>::divide(p, childrenC)`
through `getNx()`, `getNy()`, `get_globPosX()` and `get_globPosY()`. -/
structure Cuboid2D (T : Type) where
  globPosX : T
  globPosY : T
  delta : T
  nX : Int
  nY : Int

/-- The local variables of the factorisation search of `divide(p, childrenC)`;
`R` is the type in which the symmetry ratio is computed and compared. -/
structure DivideSearch (R : Type) where
  nX : Int
  bestIx : Int
  nY : Int
  bestIy : Int
  nZ : Int
  bestIz : Int
  bestRatio : R

namespace Cuboid3D

variable {T : Type} [LinearOrderedField T] [FloorRing T]

/-- The symmetry ratio of `divide(p, childrenC)` for sub-extents `a = _nX/iX`,
`b = _nY/iY`, `c = _nZ/iZ`, computed in `T`:
`(a/b-1)*(a/b-1) + (b/c-1)*(b/c-1) + (c/a-1)*(c/a-1)`.  A quotient by zero is
`0` in a field of Lean and an infinity or NaN in floating point, so the search
below takes the ratio and its comparison as parameters and the properties of
`divide(p, childrenC)` are proved for every choice of them. -/
def symmetryRatio (a b c : Int) : T :=
  ((a : T) / (b : T) - 1) * ((a : T) / (b : T) - 1)
    + ((b : T) / (c : T) - 1) * ((b : T) / (c : T) - 1)
    + ((c : T) / (a : T) - 1) * ((c : T) / (a : T) - 1)

/-- The body of the innermost search loop of `divide(p, childrenC)`. -/
def divideSearchStep {R : Type} (ratio : Int → Int → Int → R) (less : R → R → Bool)
    (c : Cuboid3D T) (p iX iY iZ : Int) (s : DivideSearch R) : DivideSearch R :=
  if (iX + 1) * iY * iZ > p ∧ iX * (iY + 1) * iZ > p then
    let r := ratio (c.nX.tdiv iX) (c.nY.tdiv iY) (c.nZ.tdiv iZ)
    if less r s.bestRatio then
      { bestRatio := r, bestIx := iX, bestIy := iY, bestIz := iZ,
        nX := c.nX.tdiv iX, nY := c.nY.tdiv iY, nZ := c.nZ.tdiv iZ }
    else s
  else s

/-- The factorisation search of `divide(p, childrenC)`: the initialisation with
`(1, 1, p)` and the three nested loops.  The arithmetic of the ratio is a
parameter: `ratio a b c` is the value computed from the three sub-extents and
`less` the comparison `ratio<bestRatio`. -/
def divideSearch {R : Type} (ratio : Int → Int → Int → R) (less : R → R → Bool)
    (c : Cuboid3D T) (p : Int) : Option (DivideSearch R) :=
  let iXX : Int := 1
  let iYY : Int := 1
  let iZZ : Int := p
  let s0 : DivideSearch R :=
    { nX := c.nX.tdiv iXX, bestIx := iXX, nY := c.nY.tdiv iYY, bestIy := iYY,
      nZ := c.nZ.tdiv iZZ, bestIz := iZZ,
      bestRatio := ratio (c.nX.tdiv iXX) (c.nY.tdiv iYY) (c.nZ.tdiv iZZ) }
  let fuel := p.toNat + 1
  forLoop fuel (fun iX => decide (iX ≤ p))
    (fun iX s1 =>
      forLoop fuel (fun iY => decide (iY * iX ≤ p))
        (fun iY s2 =>
          forLoop fuel (fun iZ => decide (iZ * iY * iX ≤ p))
            (fun iZ s3 => some (divideSearchStep ratio less c p iX iY iZ s3))
            (p.tdiv (iX * iY)) s2)
        1 s1)
    1 s0

/-- The slab loop used by the two branches of `divide(p, childrenC)` that add in
the y direction:
`for (iY<m) { yN_child = (total+m-iY-1)/m; for (iC<helpG.getNc()) push child;
globPosY_child += yN_child*_delta; }`.
The helper cuboids give the x and z extent and position of each child.
The state is `(globPosY_child, childrenC)`. -/
def slabsY (c : Cuboid3D T) (helpG : List (Cuboid2D T)) (total m : Int)
    (st : T × List (Cuboid3D T)) : T × List (Cuboid3D T) :=
  forRange m
    (fun iY st1 =>
      let yN_child := (total + m - iY - 1).tdiv m
      let children := helpG.foldl
        (fun acc h => acc ++ [Cuboid3D.new h.globPosX st1.1 h.globPosY c.delta h.nX yN_child h.nY])
        st1.2
      (st1.1 + (yN_child : T) * c.delta, children))
    st

/-- The slab loop of the branch of `divide(p, childrenC)` that adds in the x
direction; the helper cuboids give the z and y extent and position.
The state is `(globPosX_child, childrenC)`. -/
def slabsX (c : Cuboid3D T) (helpG : List (Cuboid2D T)) (total m : Int)
    (st : T × List (Cuboid3D T)) : T × List (Cuboid3D T) :=
  forRange m
    (fun iX st1 =>
      let xN_child := (total + m - iX - 1).tdiv m
      let children := helpG.foldl
        (fun acc h => acc ++ [Cuboid3D.new st1.1 h.globPosY h.globPosX c.delta xN_child h.nY h.nX])
        st1.2
      (st1.1 + (xN_child : T) * c.delta, children))
    st

/-- The part of `divide(p, childrenC)` after the search: `rest == 0` calls
`divide(bestIx, bestIy, bestIz, childrenC)`, otherwise one of the three
remainder branches splits in two or in four groups of slabs.
`helper x y delta n0 n1 k` stands for the cuboids of
`CuboidGeometry2D<T>(x, y, delta, n0, n1, k)`, a class that is not part of the
sources at hand.  The width `(int)(_nY * (T)(...)/(T)p)` of the first group of
a split in four is computed in exact arithmetic and truncated. -/
def divideRemainder {R : Type}
    (helper : T → T → T → Int → Int → Int → List (Cuboid2D T))
    (c : Cuboid3D T) (p : Int) (s : DivideSearch R) (childrenC : List (Cuboid3D T)) :
    List (Cuboid3D T) :=
  let rest := p - s.bestIx * s.bestIy * s.bestIz
  if rest = 0 then
    c.divide s.bestIx s.bestIy s.bestIz childrenC
  else if s.nZ > s.nY ∧ s.nZ > s.nX then
    let restY := rest.tmod s.bestIy
    if restY = 0 then
      let restX := rest.tdiv s.bestIy
      let helpG := helper c.globPosX c.globPosZ c.delta c.nX c.nZ (s.bestIx * s.bestIz + restX)
      (slabsY c helpG c.nY s.bestIy (c.globPosY, childrenC)).2
    else
      let restX := rest.tdiv s.bestIy + 1
      let splited_nY := truncToInt
        ((c.nY : T) * (((s.bestIx * s.bestIz + restX) * restY : Int) : T) / (p : T))
      let helpG0 := helper c.globPosX c.globPosZ c.delta c.nX c.nZ (s.bestIx * s.bestIz + restX)
      let st1 := slabsY c helpG0 splited_nY restY (c.globPosY, childrenC)
      let splited_nY1 := c.nY - splited_nY
      let restX1 := rest.tdiv s.bestIy
      let helpG1 := helper c.globPosX c.globPosZ c.delta c.nX c.nZ (s.bestIx * s.bestIz + restX1)
      (slabsY c helpG1 splited_nY1 (s.bestIy - restY) st1).2
  else if s.nX > s.nY ∧ s.nX > s.nZ then
    let restY := rest.tmod s.bestIy
    if restY = 0 then
      let restZ := rest.tdiv s.bestIy
      let helpG := helper c.globPosX c.globPosZ c.delta c.nX c.nZ (s.bestIx * s.bestIz + restZ)
      (slabsY c helpG c.nY s.bestIy (c.globPosY, childrenC)).2
    else
      let restZ := rest.tdiv s.bestIy + 1
      let splited_nY := truncToInt
        ((c.nY : T) * (((s.bestIx * s.bestIz + restZ) * restY : Int) : T) / (p : T))
      let helpG0 := helper c.globPosX c.globPosZ c.delta c.nX c.nZ (s.bestIx * s.bestIz + restZ)
      let st1 := slabsY c helpG0 splited_nY restY (c.globPosY, childrenC)
      let splited_nY1 := c.nY - splited_nY
      let restZ1 := rest.tdiv s.bestIy
      let helpG1 := helper c.globPosX c.globPosZ c.delta c.nX c.nZ (s.bestIx * s.bestIz + restZ1)
      (slabsY c helpG1 splited_nY1 (s.bestIy - restY) st1).2
  else
    let restX := rest.tmod s.bestIx
    if restX = 0 then
      let restZ := rest.tdiv s.bestIx
      let helpG := helper c.globPosZ c.globPosY c.delta c.nZ c.nY (s.bestIz * s.bestIy + restZ)
      (slabsX c helpG c.nX s.bestIx (c.globPosX, childrenC)).2
    else
      let restZ := rest.tdiv s.bestIx + 1
      let splited_nX := truncToInt
        ((c.nX : T) * (((s.bestIz * s.bestIy + restZ) * restX : Int) : T) / (p : T))
      let helpG0 := helper c.globPosZ c.globPosY c.delta c.nZ c.nY (s.bestIz * s.bestIy + restZ)
      let st1 := slabsX c helpG0 splited_nX restX (c.globPosX, childrenC)
      let splited_nX1 := c.nX - splited_nX
      let restZ1 := rest.tdiv s.bestIx
      let helpG1 := helper c.globPosZ c.globPosY c.delta c.nZ c.nY (s.bestIz * s.bestIy + restZ1)
      (slabsX c helpG1 splited_nX1 (s.bestIx - restX) st1).2

/-- The member `divide(int p, std::vector<Cuboid3D<T>>& childrenC)`.  The result
is `childrenC` after the call; it is `none` when `OLB_PRECONDITION(p>0)` fails
or a search loop does not finish within its fuel. -/
def divideP {R : Type}
    (helper : T → T → T → Int → Int → Int → List (Cuboid2D T))
    (ratio : Int → Int → Int → R) (less : R → R → Bool)
    (c : Cuboid3D T) (p : Int) (childrenC : List (Cuboid3D T)) :
    Option (List (Cuboid3D T)) :=
  if p > 0 then
    (divideSearch ratio less c p).map (fun s => divideRemainder helper c p s childrenC)
  else none

end Cuboid3D

/-! ## Class `SuperGeometryStatistics2D` (serial build, `PARALLEL_MODE_MPI` undefined) -/

/-- The container `std::map<int, A>`: an association list kept sorted by key. -/
abbrev IntMap (A : Type) := List (Int × A)

namespace IntMap

variable {A : Type}

/-- The lookup `m.find(k)`, as an optional value. -/
def find? : IntMap A → Int → Option A
  | [], _ => none
  | (k1, v) :: t, k => if k = k1 then some v else find? t k

/-- The member `m.count(k)`. -/
def count (m : IntMap A) (k : Int) : Nat := if (m.find? k).isSome then 1 else 0

/-- The assignment `m[k] = v`. -/
def insert : IntMap A → Int → A → IntMap A
  | [], k, v => [(k, v)]
  | (k1, v1) :: t, k, v =>
    if k < k1 then (k, v) :: (k1, v1) :: t
    else if k = k1 then (k, v) :: t
    else (k1, v1) :: insert t k v

end IntMap

/-- The state of a `BlockGeometryStatistics2D<T>` as far as the super
statistics reads it: the status flag and the cached maps.  The fields `scan2n`,
`scan2min`, `scan2max` hold what a full scan of the materials of the block
geometry yields at present. -/
structure BlockGeometryStatistics2D (T : Type) where
  statisticsUpdateNeeded : Bool
  material2n : IntMap Int
  material2min : IntMap (List T)
  material2max : IntMap (List T)
  scan2n : IntMap Int
  scan2min : IntMap (List T)
  scan2max : IntMap (List T)

namespace BlockGeometryStatistics2D

variable {T : Type}

/-- The member `getStatisticsStatus`. -/
def getStatisticsStatus (b : BlockGeometryStatistics2D T) : Bool := b.statisticsUpdateNeeded

/-- Modelled from the spec: `BlockGeometryStatistics2D<T>::update` is not part of
the sources at hand.  Following "update() is idempotent and a no-op if already
Clean; transitions Dirty to Clean by recomputing Block-level per-material
counts/bounds by a full scan". -/
def update (b : BlockGeometryStatistics2D T) : BlockGeometryStatistics2D T :=
  if b.statisticsUpdateNeeded then
    { b with statisticsUpdateNeeded := false, material2n := b.scan2n,
             material2min := b.scan2min, material2max := b.scan2max }
  else b

/-- The member `getMaterial2n`. -/
def getMaterial2n (b : BlockGeometryStatistics2D T) : IntMap Int := b.material2n

/-- Modelled from the spec: the block-level `getNvoxel(material) const` is not
part of the sources at hand; a material never observed has the count `0`. -/
def getNvoxel (b : BlockGeometryStatistics2D T) (material : Int) : Int :=
  (b.material2n.find? material).getD 0

/-- Modelled from the spec: the block-level `getMinPhysR(material) const` is not
part of the sources at hand; a missing key yields the zero vector. -/
def getMinPhysR [Zero T] (b : BlockGeometryStatistics2D T) (material : Int) : List T :=
  (b.material2min.find? material).getD [0, 0]

/-- Modelled from the spec: the block-level `getMaxPhysR(material) const` is not
part of the sources at hand; a missing key yields the zero vector. -/
def getMaxPhysR [Zero T] (b : BlockGeometryStatistics2D T) (material : Int) : List T :=
  (b.material2max.find? material).getD [0, 0]

end BlockGeometryStatistics2D

/-- The state of a `SuperGeometryStatistics2D<T>`: the statistics of the local
blocks reached through `_superGeometry->getBlockGeometry(iCloc).getStatistics()`
for `iCloc < getLoadBalancer().size()`, and the data members of the class. -/
structure SuperGeometryStatistics2D (T : Type) where
  blocks : List (BlockGeometryStatistics2D T)
  statisticsUpdateNeeded : Bool
  nMaterials : Int
  material2n : IntMap Int
  material2min : IntMap (List T)
  material2max : IntMap (List T)

namespace SuperGeometryStatistics2D

variable {T : Type}

/-- The constructor `SuperGeometryStatistics2D(SuperGeometry<T,2>* superGeometry)`:
the flag is set, the maps are empty (`_nMaterials` is taken as `0`). -/
def new (blocks : List (BlockGeometryStatistics2D T)) : SuperGeometryStatistics2D T :=
  { blocks := blocks, statisticsUpdateNeeded := true, nMaterials := 0,
    material2n := [], material2min := [], material2max := [] }

/-- The copy constructor: only `_superGeometry` is taken from `rhs`. -/
def copy (rhs : SuperGeometryStatistics2D T) : SuperGeometryStatistics2D T :=
  new rhs.blocks

/-- The copy assignment `operator=`: `_superGeometry` is taken from `rhs`, the
flag is set, the cached maps of the target stay as they are. -/
def assign (self rhs : SuperGeometryStatistics2D T) : SuperGeometryStatistics2D T :=
  { self with blocks := rhs.blocks, statisticsUpdateNeeded := true }

/-- The member `getStatisticsStatus`. -/
def getStatisticsStatus (s : SuperGeometryStatistics2D T) : Bool := s.statisticsUpdateNeeded

/-- The first loop of `update`: every block whose statistics is flagged is
updated and counted in `updateReallyNeeded`.  The state is
`(blocks already visited, updateReallyNeeded)`. -/
def updateBlocks (blocks : List (BlockGeometryStatistics2D T)) :
    List (BlockGeometryStatistics2D T) × Int :=
  blocks.foldl
    (fun st b =>
      if b.getStatisticsStatus then (st.1 ++ [b.update], st.2 + 1)
      else (st.1 ++ [b], st.2))
    ([], 0)

/-- The block of `update` that fills `tmpMaterials` (a `std::set<int>`, kept
here as a map to `Unit`) and returns its size. -/
def countMaterials (blocks : List (BlockGeometryStatistics2D T)) : Int :=
  let tmpMaterials : IntMap Unit :=
    blocks.foldl
      (fun acc b => b.getMaterial2n.foldl (fun acc1 e => IntMap.insert acc1 e.1 ()) acc)
      []
  (tmpMaterials.length : Int)

/-- The element access `v[iDim]` of a `std::vector<T>`. -/
def vecGet [Zero T] (v : List T) (iDim : Nat) : T := v.getD iDim 0

/-- The three cached maps `_material2n`, `_material2min`, `_material2max`. -/
structure Caches (T : Type) where
  material2n : IntMap Int
  material2min : IntMap (List T)
  material2max : IntMap (List T)

variable [LinearOrderedField T]

/-- The loop `for (iDim<2)` of `update` on `_material2min[material]`. -/
def lowerMin (cur minPhysR : List T) : List T :=
  (List.range 2).foldl
    (fun v iDim => if vecGet v iDim > vecGet minPhysR iDim then v.set iDim (vecGet minPhysR iDim) else v)
    cur

/-- The loop `for (iDim<2)` of `update` on `_material2max[material]`. -/
def raiseMax (cur maxPhysR : List T) : List T :=
  (List.range 2).foldl
    (fun v iDim => if vecGet v iDim < vecGet maxPhysR iDim then v.set iDim (vecGet maxPhysR iDim) else v)
    cur

/-- The body of the loop over the entries `(material, n)` of the map
`material2n` of one block in `update`. -/
def accumulateEntry (b : BlockGeometryStatistics2D T) (st : Caches T) (e : Int × Int) :
    Caches T :=
  if e.2 ≠ 0 then
    let minPhysR := b.getMinPhysR e.1
    let maxPhysR := b.getMaxPhysR e.1
    if st.material2n.count e.1 = 0 then
      { material2n := st.material2n.insert e.1 e.2,
        material2min := st.material2min.insert e.1 minPhysR,
        material2max := st.material2max.insert e.1 maxPhysR }
    else
      { material2n := st.material2n.insert e.1 ((st.material2n.find? e.1).getD 0 + e.2),
        material2min :=
          st.material2min.insert e.1 (lowerMin ((st.material2min.find? e.1).getD []) minPhysR),
        material2max :=
          st.material2max.insert e.1 (raiseMax ((st.material2max.find? e.1).getD []) maxPhysR) }
  else st

/-- The loop of `update` over the local blocks that stores the number and the
minimal and maximal position of every material. -/
def accumulateBlocks (blocks : List (BlockGeometryStatistics2D T)) (st : Caches T) :
    Caches T :=
  blocks.foldl (fun st1 b => b.getMaterial2n.foldl (accumulateEntry b) st1) st

/-- The member `update(bool verbose)` in a serial build. -/
def update (s : SuperGeometryStatistics2D T) : SuperGeometryStatistics2D T :=
  if s.statisticsUpdateNeeded then
    let r := updateBlocks s.blocks
    if r.2 = 0 then
      { s with blocks := r.1, statisticsUpdateNeeded := false }
    else
      let nMaterials := countMaterials r.1
      let st := accumulateBlocks r.1
        { material2n := [], material2min := s.material2min, material2max := s.material2max }
      { blocks := r.1, statisticsUpdateNeeded := false, nMaterials := nMaterials,
        material2n := st.material2n, material2min := st.material2min,
        material2max := st.material2max }
  else s

/-- The member `getNvoxel(int material) const`: `_material2n.at(material)`, and
`0` when `std::out_of_range` is caught. -/
def getNvoxel (s : SuperGeometryStatistics2D T) (material : Int) : Int :=
  match s.material2n.find? material with
  | some n => n
  | none => 0

/-- The member `getMinPhysR(int material) const`. -/
def getMinPhysR (s : SuperGeometryStatistics2D T) (material : Int) : List T :=
  match s.material2min.find? material with
  | some v => v
  | none => [0, 0]

/-- The member `getMaxPhysR(int material) const`. -/
def getMaxPhysR (s : SuperGeometryStatistics2D T) (material : Int) : List T :=
  match s.material2max.find? material with
  | some v => v
  | none => [0, 0]

end SuperGeometryStatistics2D

/-! ## Vocabulary of the statements

The definitions below are not translations of code: they name the quantities in
which the properties of the subdivision are stated. -/

namespace Cuboid3D

variable {T : Type} [LinearOrderedField T]

/-- The extent `(N+n-i-1)/n` that `divide(nX, nY, nZ, childrenC)` gives to the
child with index `i` on an axis of parent extent `N` split in `n` parts. -/
def childExtent (N n i : Int) : Int := (N + n - i - 1).tdiv n

/-- The sum `a(i)` of the extents of the children `0..i-1` on an axis. -/
def childOffset (N n : Int) (i : Nat) : Int :=
  ((List.range i).map (fun j : Nat => childExtent N n (j : Int))).sum

/-- The child with indices `(iX, iY, iZ)` as the specification describes it:
spacing of the parent, origin shifted by `delta * a(i)` on each axis, extents
`childExtent`. -/
def divideChildAt (c : Cuboid3D T) (nX nY nZ : Int) (iX iY iZ : Nat) : Cuboid3D T :=
  Cuboid3D.new
    (c.globPosX + c.delta * (childOffset c.nX nX iX : T))
    (c.globPosY + c.delta * (childOffset c.nY nY iY : T))
    (c.globPosZ + c.delta * (childOffset c.nZ nZ iZ : T))
    c.delta (childExtent c.nX nX iX) (childExtent c.nY nY iY) (childExtent c.nZ nZ iZ)

/-- The children in the order of the specification: `iX` outermost, `iZ` innermost. -/
def divideChildren (c : Cuboid3D T) (nX nY nZ : Int) : List (Cuboid3D T) :=
  (List.range nX.toNat).flatMap (fun iX =>
    (List.range nY.toNat).flatMap (fun iY =>
      (List.range nZ.toNat).map (fun iZ => divideChildAt c nX nY nZ iX iY iZ)))

/-- The entry of a vector filled by `divide(nX, nY, nZ, childrenC)` that belongs
to the indices `(iX, iY, iZ)`: position `(iX*nY+iY)*nZ+iZ` behind the `skip`
entries present before the call. -/
def childAt (children : List (Cuboid3D T)) (skip : Nat) (nY nZ : Int) (iX iY iZ : Nat) :
    Option (Cuboid3D T) :=
  children[skip + ((iX * nY.toNat + iY) * nZ.toNat + iZ)]?

/-- The lattice index ranges `[a(i), a(i)+extent(i))`, `i < n`, partition the
index range `[0, N)` of the parent: the extents are non-negative, the ranges
start at `0`, each starts where the previous one ends, the last ends at `N`,
two different ranges do not meet, and every index of `[0, N)` lies in exactly
one of them. -/
def AxisPartition (N n : Int) : Prop :=
  (∀ i : Nat, (i : Int) < n → 0 ≤ childExtent N n i) ∧
  childOffset N n 0 = 0 ∧
  (∀ i : Nat, childOffset N n (i + 1) = childOffset N n i + childExtent N n i) ∧
  childOffset N n n.toNat = N ∧
  (∀ i j : Nat, i < j → (j : Int) < n →
    childOffset N n i + childExtent N n i ≤ childOffset N n j) ∧
  (∀ k : Int, 0 ≤ k → k < N →
    ∃! i : Nat, (i : Int) < n ∧ childOffset N n i ≤ k ∧ k < childOffset N n i + childExtent N n i)

/-- The test of `checkPoint` with overlap `0` on one axis, for a cuboid that
starts at `g + δ*a` and has `e` nodes; `y` is the coordinate of the point plus
half a cell. -/
def inAxis (g δ y : T) (a e : Int) : Bool :=
  decide (g + δ * (a : T) ≤ y) && decide (g + δ * (a : T) + (e : T) * δ > y)

/-- The product `_nY*_nX*_nZ` of the extents as an integer, before the
conversion to `size_t`. -/
def latticeVolumeInt (c : Cuboid3D T) : Int := c.nY * c.nX * c.nZ

/-- What the factorisation search of `divide(p, childrenC)` guarantees about the
factors it selects: each one is at least `1` and their product is at most `p`. -/
def SearchInv {R : Type} (p : Int) (s : DivideSearch R) : Prop :=
  1 ≤ s.bestIx ∧ 1 ≤ s.bestIy ∧ 1 ≤ s.bestIz ∧ s.bestIx * s.bestIy * s.bestIz ≤ p

/-- The hypothesis on the 2D helper decomposition: for a rectangle of
`n0 x n1` nodes and a count `k ≥ 1` it yields exactly `k` cuboids, with
non-negative extents, whose areas add up to `n0 * n1`.  Every decomposition that
tiles the rectangle with `k` cuboids satisfies this. -/
def HelperTiles (helper : T → T → T → Int → Int → Int → List (Cuboid2D T)) : Prop :=
  ∀ (x y d : T) (n0 n1 k : Int), 0 ≤ n0 → 0 ≤ n1 → 1 ≤ k →
    ((helper x y d n0 n1 k).length : Int) = k ∧
    (∀ h ∈ helper x y d n0 n1 k, 0 ≤ h.nX ∧ 0 ≤ h.nY) ∧
    ((helper x y d n0 n1 k).map (fun h => h.nX * h.nY)).sum = n0 * n1

/-- The vector `res` is `out` followed by `p` new cuboids whose integer volumes
are non-negative and add up to the integer volume of `c`. -/
def DivideResult (c : Cuboid3D T) (p : Int) (out res : List (Cuboid3D T)) : Prop :=
  ∃ children : List (Cuboid3D T), res = out ++ children ∧
    (children.length : Int) = p ∧
    (children.map latticeVolumeInt).sum = c.nY * c.nX * c.nZ ∧
    ∀ ch ∈ children, 0 ≤ latticeVolumeInt ch

/-- A helper decomposition that satisfies `HelperTiles`: `k` strips side by
side along the first axis.  It serves to instantiate the helper in concrete
evaluations; it is not the decomposition of `CuboidGeometry2D`. -/
def stripHelper (x y d : T) (n0 n1 k : Int) : List (Cuboid2D T) :=
  (List.range k.toNat).map (fun i : Nat =>
    { globPosX := x + d * (childOffset n0 k i : T), globPosY := y, delta := d,
      nX := childExtent n0 k (i : Int), nY := n1 })

end Cuboid3D

/-! ## Concrete inputs -/

/-- A parent cuboid with `5 x 3 x 4` nodes and spacing `1/2`. -/
def exampleParent : Cuboid3D ℚ := Cuboid3D.new 0 0 0 (1 / 2) 5 3 4

/-- The `75 x 50` domain of the contact angle example as a cuboid with `nZ = 1`. -/
def exampleDomain : Cuboid3D ℚ := Cuboid3D.new 0 0 0 1 75 50 1

/-- A cuboid with `10 x 3 x 1` nodes and spacing `1`. -/
def exampleBar : Cuboid3D ℚ := Cuboid3D.new 0 0 0 1 10 3 1

/-- The statistics of a block with five voxels of material `1`, flagged for
an update as it is after the materials were set. -/
def exampleBlock : BlockGeometryStatistics2D ℚ :=
  { statisticsUpdateNeeded := true, material2n := [], material2min := [], material2max := [],
    scan2n := [(1, 5)], scan2min := [(1, [0, 0])], scan2max := [(1, [4, 0])] }

end olb

namespace olb

/-! ## Further members of `Cuboid3D` -/

/-- The outcome of a call that may throw: it returned, or it left by throwing
`std::invalid_argument`. -/
inductive Thrown where
  | none
  | invalid_argument
  deriving DecidableEq

namespace Cuboid3D

variable {T : Type}

/-- The member `getWeight`: the lattice volume while `_weight` holds the value
`size_t` max, else `_weight`. -/
def getWeight (c : Cuboid3D T) : Nat :=
  if c.weight = sizeMax then c.getLatticeVolume else c.weight

/-- The member `setWeight(size_t fullCells)`. -/
def setWeight (c : Cuboid3D T) (fullCells : Nat) : Cuboid3D T :=
  { c with weight := fullCells }

variable [LinearOrderedField T]

/-- The member `resize(iX, iY, iZ, nX, nY, nZ)`. -/
def resize (c : Cuboid3D T) (iX iY iZ nX nY nZ : Int) : Cuboid3D T :=
  { c with globPosX := c.globPosX + (iX : T) * c.delta,
           globPosY := c.globPosY + (iY : T) * c.delta,
           globPosZ := c.globPosZ + (iZ : T) * c.delta,
           nX := nX, nY := nY, nZ := nZ }

/-- The member `refine(int factor)`: the outcome of the call and the cuboid
after it.  The product `factor*factor*factor` is an `int` that is converted to
`size_t` for `_weight *= ...`. -/
def refine (c : Cuboid3D T) (factor : Int) : Thrown × Cuboid3D T :=
  if factor < 1 then
    (Thrown.invalid_argument, c)
  else if factor > 1 then
    (Thrown.none,
      { c with delta := c.delta / (factor : T),
               nX := c.nX * factor, nY := c.nY * factor, nZ := c.nZ * factor,
               weight := sizeMul c.weight (toSizeT (factor * factor * factor)) })
  else
    (Thrown.none, c)

end Cuboid3D

/-! ## Further members of `SuperGeometryStatistics2D` -/

namespace SuperGeometryStatistics2D

variable {T : Type} [LinearOrderedField T]

/-- The number of calls `blockGeometry.getStatistics().update(false)` that
`update(bool verbose)` makes: they are made in the first loop, one with every
increment of `updateReallyNeeded`, and only when `_statisticsUpdateNeeded` is set. -/
def blockUpdatesTriggered (s : SuperGeometryStatistics2D T) : Int :=
  if s.statisticsUpdateNeeded then (updateBlocks s.blocks).2 else 0

/-- The member `getPhysExtend(int material) const`: a call `at(material)` on a
map without the key throws `std::out_of_range`, which the handler turns into
the empty vector. -/
def getPhysExtend (s : SuperGeometryStatistics2D T) (material : Int) : List T :=
  match s.material2max.find? material, s.material2min.find? material with
  | some mx, some mn =>
    (List.range 2).foldl (fun extend iDim => extend ++ [vecGet mx iDim - vecGet mn iDim]) []
  | _, _ => []

/-- The member `getPhysRadius(int material) const`. -/
def getPhysRadius (s : SuperGeometryStatistics2D T) (material : Int) : List T :=
  (List.range 2).foldl
    (fun radius iDim =>
      radius ++ [(vecGet (s.getMaxPhysR material) iDim - vecGet (s.getMinPhysR material) iDim) / 2])
    []

/-- The member `getCenterPhysR(int material) const`. -/
def getCenterPhysR (s : SuperGeometryStatistics2D T) (material : Int) : List T :=
  (List.range 2).foldl
    (fun center iDim =>
      center ++ [vecGet (s.getMinPhysR material) iDim + vecGet (s.getPhysRadius material) iDim])
    []

/-- The result of `computeNormal(int material) const` together with a record of
which of its two guarded divisions were executed. -/
structure NormalTrace (T : Type) where
  normal : List T
  dividedByCount : Bool
  dividedByNorm : Bool

/-- The first loop of `computeNormal(int material) const`: the normals of the
blocks that hold the material, weighted by their voxel counts, are added up.
`blockNormal b material` stands for the block-level `computeNormal(material)`,
which is not part of the sources at hand. -/
def sumBlockNormals (blockNormal : BlockGeometryStatistics2D T → Int → List T)
    (blocks : List (BlockGeometryStatistics2D T)) (material : Int) : List T :=
  blocks.foldl
    (fun normal b =>
      (List.range 2).foldl
        (fun v iDim =>
          if b.getNvoxel material ≠ 0 then
            v.set iDim (vecGet v iDim
              + vecGet (blockNormal b material) iDim * (b.getNvoxel material : T))
          else v)
        normal)
    [0, 0]

/-- The member `computeNormal(int material) const` in a serial build, with the
record of the divisions.  `sqrt` stands for `util::sqrt`, which is not part of
the sources at hand.  `OLB_ASSERT` is a debug check and has no effect on the
result. -/
def computeNormalTrace (sqrt : T → T)
    (blockNormal : BlockGeometryStatistics2D T → Int → List T)
    (s : SuperGeometryStatistics2D T) (material : Int) : NormalTrace T :=
  let normal1 := sumBlockNormals blockNormal s.blocks material
  let nVoxel := s.getNvoxel material
  let normal2 :=
    if nVoxel ≠ 0 then
      (List.range 2).foldl (fun v iDim => v.set iDim (vecGet v iDim / (nVoxel : T))) normal1
    else normal1
  let norm := sqrt (vecGet normal2 0 * vecGet normal2 0 + vecGet normal2 1 * vecGet normal2 1)
  let normal3 :=
    if norm > 0 then
      (normal2.set 0 (vecGet normal2 0 / norm)).set 1 (vecGet normal2 1 / norm)
    else normal2
  { normal := normal3, dividedByCount := decide (nVoxel ≠ 0),
    dividedByNorm := decide (norm > 0) }

/-- The member `computeNormal(int material) const`. -/
def computeNormal (sqrt : T → T)
    (blockNormal : BlockGeometryStatistics2D T → Int → List T)
    (s : SuperGeometryStatistics2D T) (material : Int) : List T :=
  (computeNormalTrace sqrt blockNormal s material).normal

/-- The body of the inner loop of `computeDiscreteNormal`.  The state is
`(smallestAngle, discreteNormal)`. -/
def discreteNormalStep (sqrt : T → T) (normal : List T) (maxNorm : T)
    (st : T × List Int) (iX iY : Int) : T × List Int :=
  let norm := sqrt ((iX * iX + iY * iY : Int) : T)
  if norm > 0 ∧ norm < maxNorm then
    let angle := ((iX : T) * vecGet normal 0 + (iY : T) * vecGet normal 1) / norm
    if angle ≥ st.1 then (angle, (st.2.set 0 iX).set 1 iY) else st
  else st

/-- The two loops of `computeDiscreteNormal` over `iX` and `iY` from `-1` to `1`,
for a given vector `normal`. -/
def scanDiscreteNormal (sqrt : T → T) (normal : List T) (maxNorm : T) : T × List Int :=
  ([-1, 0, 1] : List Int).foldl
    (fun st iX =>
      ([-1, 0, 1] : List Int).foldl (fun st1 iY => discreteNormalStep sqrt normal maxNorm st1 iX iY)
        st)
    (0, [0, 0])

/-- The member `computeDiscreteNormal(int material, T maxNorm) const`. -/
def computeDiscreteNormal (sqrt : T → T)
    (blockNormal : BlockGeometryStatistics2D T → Int → List T)
    (s : SuperGeometryStatistics2D T) (material : Int) (maxNorm : T) : List Int :=
  (scanDiscreteNormal sqrt (computeNormal sqrt blockNormal s material) maxNorm).2

end SuperGeometryStatistics2D

end olb

namespace olb

/-! ## Vocabulary of the statements, continued -/

namespace SuperGeometryStatistics2D

variable {T : Type} [LinearOrderedField T]

/-- The offsets visited by the two loops of `computeDiscreteNormal`, in the
order of the scan: `iX` from `-1` to `1` in the outer loop, `iY` from `-1` to
`1` in the inner loop. -/
def scanOffsets : List (Int × Int) :=
  [(-1, -1), (-1, 0), (-1, 1), (0, -1), (0, 0), (0, 1), (1, -1), (1, 0), (1, 1)]

/-- The Euclidean norm `sqrt(iX*iX+iY*iY)` of an offset. -/
def offsetNorm (sqrt : T → T) (o : Int × Int) : T :=
  sqrt ((o.1 * o.1 + o.2 * o.2 : Int) : T)

/-- An offset is admissible when its norm is positive and below `maxNorm`. -/
def Admissible (sqrt : T → T) (maxNorm : T) (o : Int × Int) : Prop :=
  offsetNorm sqrt o > 0 ∧ offsetNorm sqrt o < maxNorm

/-- The cosine `(o . normal)/|o|` between an offset and the vector `normal`. -/
def cosine (sqrt : T → T) (normal : List T) (o : Int × Int) : T :=
  ((o.1 : T) * vecGet normal 0 + (o.2 : T) * vecGet normal 1) / offsetNorm sqrt o

/-- The vector `d` is the first offset in the scan order among the admissible
offsets that attain the maximal cosine with `normal`. -/
def IsFirstMaximiser (sqrt : T → T) (normal : List T) (maxNorm : T) (d : List Int) : Prop :=
  ∃ (pre post : List (Int × Int)) (o : Int × Int),
    scanOffsets = pre ++ o :: post ∧ d = [o.1, o.2] ∧ Admissible sqrt maxNorm o ∧
    (∀ o1 ∈ scanOffsets, Admissible sqrt maxNorm o1 →
      cosine sqrt normal o1 ≤ cosine sqrt normal o) ∧
    (∀ o1 ∈ pre, Admissible sqrt maxNorm o1 → cosine sqrt normal o1 < cosine sqrt normal o)

/-- The vector `d` is the last offset in the scan order among the admissible
offsets that attain the maximal cosine with `normal`. -/
def IsLastMaximiser (sqrt : T → T) (normal : List T) (maxNorm : T) (d : List Int) : Prop :=
  ∃ (pre post : List (Int × Int)) (o : Int × Int),
    scanOffsets = pre ++ o :: post ∧ d = [o.1, o.2] ∧ Admissible sqrt maxNorm o ∧
    (∀ o1 ∈ scanOffsets, Admissible sqrt maxNorm o1 →
      cosine sqrt normal o1 ≤ cosine sqrt normal o) ∧
    (∀ o1 ∈ post, Admissible sqrt maxNorm o1 → cosine sqrt normal o1 < cosine sqrt normal o)

end SuperGeometryStatistics2D

namespace Cuboid3D

variable {T : Type} [LinearOrderedField T]

/-- The children of a fractional subdivision as the specification describes
them: one cuboid per width, each with the spacing of the parent, the extents of
the parent except for the width along axis `iD`, and an origin that starts at
`origin` and advances by `width * delta` along axis `iD`. -/
def fractionalList (c : Cuboid3D T) (iD : Int) : Vector3 T → List Int → List (Cuboid3D T)
  | _, [] => []
  | origin, w :: t =>
    { globPosX := origin.x, globPosY := origin.y, globPosZ := origin.z, delta := c.delta,
      nX := if iD = 0 then w else c.nX,
      nY := if iD = 1 then w else c.nY,
      nZ := if iD = 2 then w else c.nZ,
      weight := sizeMax }
    :: fractionalList c iD
        ⟨origin.x + (if iD = 0 then (w : T) * c.delta else 0),
         origin.y + (if iD = 1 then (w : T) * c.delta else 0),
         origin.z + (if iD = 2 then (w : T) * c.delta else 0)⟩ t

end Cuboid3D

/-! ## Concrete inputs, continued -/

/-- A cuboid with `2 x 2 x 2` nodes and spacing `1`, built by the constructor:
`setWeight` was never called on it. -/
def exampleCube : Cuboid3D ℚ := Cuboid3D.new 0 0 0 1 2 2 2

end olb

namespace olb
namespace SuperGeometryStatistics2D

variable {T : Type}

/-- The entries of the three cached maps for one material. -/
def slot (st : Caches T) (material : Int) : Option Int × Option (List T) × Option (List T) :=
  (st.material2n.find? material, st.material2min.find? material,
    st.material2max.find? material)

/-- A second block: three voxels of material `1` between `(5, 0)` and `(7, 0)`,
flagged for an update. -/
def exampleBlockB : BlockGeometryStatistics2D ℚ :=
  { statisticsUpdateNeeded := true, material2n := [], material2min := [], material2max := [],
    scan2n := [(1, 3)], scan2min := [(1, [5, 0])], scan2max := [(1, [7, 0])] }

/-- A super statistics whose flag is clear while its only block, `exampleBlock`,
is flagged for an update; the caches are empty. -/
def exampleUnflagged : SuperGeometryStatistics2D ℚ :=
  { blocks := [exampleBlock], statisticsUpdateNeeded := false, nMaterials := 0,
    material2n := [], material2min := [], material2max := [] }

end SuperGeometryStatistics2D
end olb

namespace olb

/-! ## Serialization, refinement and local index ranges of `Cuboid3D` -/

/-- A loop `for (int i=start; cond(i); i--) body`.  `fuel` bounds the number of
evaluations of the condition; the result is `none` when the fuel is used up
before the condition fails. -/
def forLoopDown {σ : Type} (fuel : Nat) (cond : Int → Bool) (body : Int → σ → Option σ)
    (i : Int) (s : σ) : Option σ :=
  match fuel with
  | 0 => none
  | f + 1 =>
    if cond i then (body i s).bind (fun s1 => forLoopDown f cond body (i - 1) s1) else some s

/-- The value of an `int` expression whose mathematical value is `i` on a
32 bit two's complement machine: `i` reduced modulo `2^32` into the range
`-2^31 .. 2^31 - 1`. -/
def wrapInt (i : Int) : Int := (i + 2 ^ 31) % 2 ^ 32 - 2 ^ 31

/-- The product `a*b` of two `int` values. -/
def intMul (a b : Int) : Int := wrapInt (a * b)

/-- The data members of `Cuboid3D<T>` that `getBlock` hands out; a value of this
type stands for the address of the member. -/
inductive CuboidField where
  | globPosX
  | globPosY
  | globPosZ
  | delta
  | nX
  | nY
  | nZ
  | weight
  deriving DecidableEq

/-- The variables `sizeBlock`, `currentBlock` and `dataPtr` of `getBlock`;
`dataPtr = none` is the null pointer. -/
structure BlockCursor where
  sizeBlock : Nat
  currentBlock : Nat
  dataPtr : Option CuboidField
  deriving DecidableEq

/-- Modelled from the spec: `registerVar(iBlock, sizeBlock, currentBlock, dataPtr, data)`
of the class `Serializable` is not part of the sources at hand.  Following "it
serves the field whose running index equals i and advances the running index
by one"; `sizeOf` gives the size in bytes of a member. -/
def registerVar (sizeOf : CuboidField → Nat) (iBlock : Nat) (st : BlockCursor)
    (data : CuboidField) : BlockCursor :=
  if iBlock = st.currentBlock then
    { sizeBlock := sizeOf data, currentBlock := st.currentBlock + 1, dataPtr := some data }
  else
    { st with currentBlock := st.currentBlock + 1 }

/-- The values that `checkInters` with local-index outputs returns and stores
in `locX0, locX1, locY0, locY1, locZ0, locZ1`. -/
structure IntersLoc where
  result : Bool
  locX0 : Int
  locX1 : Int
  locY0 : Int
  locY1 : Int
  locZ0 : Int
  locZ1 : Int
  deriving DecidableEq

namespace Cuboid3D

variable {T : Type}

/-- The member `getNblock`. -/
def getNblock (_c : Cuboid3D T) : Nat := 9

/-- The member `getBlock(iBlock, sizeBlock, loadingMode)`: the variables after
the eight calls of `registerVar`; the returned pointer is the field `dataPtr`,
the argument `sizeBlock` after the call is the field `sizeBlock`. -/
def getBlock (_c : Cuboid3D T) (sizeOf : CuboidField → Nat) (iBlock sizeBlock : Nat) :
    BlockCursor :=
  let s0 : BlockCursor := { sizeBlock := sizeBlock, currentBlock := 0, dataPtr := none }
  let s1 := registerVar sizeOf iBlock s0 CuboidField.globPosX
  let s2 := registerVar sizeOf iBlock s1 CuboidField.globPosY
  let s3 := registerVar sizeOf iBlock s2 CuboidField.globPosZ
  let s4 := registerVar sizeOf iBlock s3 CuboidField.delta
  let s5 := registerVar sizeOf iBlock s4 CuboidField.nX
  let s6 := registerVar sizeOf iBlock s5 CuboidField.nY
  let s7 := registerVar sizeOf iBlock s6 CuboidField.nZ
  registerVar sizeOf iBlock s7 CuboidField.weight

/-- The member `getLatticePerimeter`. -/
def getLatticePerimeter (c : Cuboid3D T) : Int :=
  2 * ((c.nX - 1) * (c.nY - 1) + (c.nY - 1) * (c.nZ - 1) + (c.nZ - 1) * (c.nX - 1))

variable [LinearOrderedField T]

/-- The member `getPhysVolume`: `_nY*_nX*_nZ*_delta*_delta*_delta`.  The
expression is evaluated from the left: `_nY*_nX` and the product with `_nZ` are
formed in 32 bit `int` (`intMul`), the result is converted to `T` for the
products with `_delta`. -/
def getPhysVolume (c : Cuboid3D T) : T :=
  ((intMul (intMul c.nY c.nX) c.nZ : Int) : T) * c.delta * c.delta * c.delta

variable [FloorRing T]

/-- The member `checkPoint(globX, globY, globZ, locX, locY, locZ, overlap)` for
`overlap == 0`, that is its second and third branch: the returned value and the
values of `locX, locY, locZ` after the call. -/
def checkPointLocZero (c : Cuboid3D T) (globX globY globZ : T) (loc : Int × Int × Int) :
    Bool × (Int × Int × Int) :=
  if !c.checkPoint globX globY globZ 0 then
    (false, loc)
  else
    (true, (⌊(globX - c.globPosX) / c.delta + 1 / 2⌋,
            ⌊(globY - c.globPosY) / c.delta + 1 / 2⌋,
            ⌊(globZ - c.globPosZ) / c.delta + 1 / 2⌋))

/-- The member `checkPoint(globX, globY, globZ, locX, locY, locZ, overlap)`: the
returned value and the values of `locX, locY, locZ` after the call.  For
`overlap != 0` the member is called on the inflated cuboid `tmp` with the
default argument `overlap = 0`. -/
def checkPointLoc (c : Cuboid3D T) (globX globY globZ : T) (loc : Int × Int × Int)
    (overlap : Int) : Bool × (Int × Int × Int) :=
  if overlap ≠ 0 then
    (Cuboid3D.new (c.globPosX - (overlap : T) * c.delta) (c.globPosY - (overlap : T) * c.delta)
      (c.globPosZ - (overlap : T) * c.delta) c.delta
      (c.nX + overlap * 2) (c.nY + overlap * 2) (c.nZ + overlap * 2)).checkPointLocZero
        globX globY globZ loc
  else
    c.checkPointLocZero globX globY globZ loc

/-- The statements `loc0 = 0; for (int i=0; pos + i*_delta < glob0; i++) { loc0 = i+1; }`
of `checkInters`; the result is `loc0` after the loop. -/
def searchLow (fuel : Nat) (pos delta glob0 : T) : Option Int :=
  forLoop fuel (fun i => decide (pos + (i : T) * delta < glob0)) (fun i _ => some (i + 1)) 0 0

/-- The statements `loc1 = n-1; for (int i=n-1; pos + i*_delta > glob1; i--) { loc1 = i-1; }`
of `checkInters`; the result is `loc1` after the loop. -/
def searchHigh (fuel : Nat) (pos delta glob1 : T) (n : Int) : Option Int :=
  forLoopDown fuel (fun i => decide (pos + (i : T) * delta > glob1)) (fun i _ => some (i - 1))
    (n - 1) (n - 1)

/-- The member `checkInters(globX0, ..., globZ1, locX0, ..., locZ1, overlap)` for
`overlap == 0`, that is its second and third branch.  All six outputs are
assigned on both branches.  The result is `none` when a loop does not finish
within the fuel. -/
def checkIntersLocZero (fuel : Nat) (c : Cuboid3D T)
    (globX0 globX1 globY0 globY1 globZ0 globZ1 : T) : Option IntersLoc :=
  if !c.checkInters globX0 globX1 globY0 globY1 globZ0 globZ1 0 then
    some { result := false, locX0 := 1, locX1 := 0, locY0 := 1, locY1 := 0,
           locZ0 := 1, locZ1 := 0 }
  else
    (searchLow fuel c.globPosX c.delta globX0).bind fun locX0 =>
    (searchHigh fuel c.globPosX c.delta globX1 c.nX).bind fun locX1 =>
    (searchLow fuel c.globPosY c.delta globY0).bind fun locY0 =>
    (searchHigh fuel c.globPosY c.delta globY1 c.nY).bind fun locY1 =>
    (searchLow fuel c.globPosZ c.delta globZ0).bind fun locZ0 =>
    (searchHigh fuel c.globPosZ c.delta globZ1 c.nZ).bind fun locZ1 =>
    some { result := true, locX0 := locX0, locX1 := locX1, locY0 := locY0, locY1 := locY1,
           locZ0 := locZ0, locZ1 := locZ1 }

/-- The member `checkInters(globX0, ..., globZ1, locX0, ..., locZ1, overlap)`.  For
`overlap != 0` the member is called on the inflated cuboid `tmp` with the
default argument `overlap = 0`. -/
def checkIntersLoc (fuel : Nat) (c : Cuboid3D T)
    (globX0 globX1 globY0 globY1 globZ0 globZ1 : T) (overlap : Int) : Option IntersLoc :=
  if overlap ≠ 0 then
    checkIntersLocZero fuel
      (Cuboid3D.new (c.globPosX - (overlap : T) * c.delta)
        (c.globPosY - (overlap : T) * c.delta) (c.globPosZ - (overlap : T) * c.delta) c.delta
        (c.nX + overlap * 2) (c.nY + overlap * 2) (c.nZ + overlap * 2))
      globX0 globX1 globY0 globY1 globZ0 globZ1
  else
    checkIntersLocZero fuel c globX0 globX1 globY0 globY1 globZ0 globZ1

end Cuboid3D

/-! ## `SuperGeometryStatistics2D`: total count and the MPI build of `update` -/

/-- Modelled from the spec: `singleton::mpi().reduceAndBcast(value, MPI_SUM)` of
the MPI manager is not part of the sources at hand.  All ranks take part with
one value each; every rank receives the sum of the values of all ranks. -/
def reduceAndBcastSum (values : List Int) : List Int :=
  values.map (fun _ => values.sum)

/-- A rank in the course of `update` in an MPI build: its statistics, and
whether it has reached the reductions of the counts that follow the test
`updateReallyNeeded==0`. -/
structure RankProgress (T : Type) where
  stats : SuperGeometryStatistics2D T
  reachesReduction : Bool

namespace SuperGeometryStatistics2D

variable {T : Type}

/-- The member `getNvoxel() const` without argument. -/
def getNvoxelTotal (s : SuperGeometryStatistics2D T) : Int :=
  s.material2n.foldl
    (fun total material => if material.1 ≠ 0 then total + material.2 else total) 0

/-- The first block under `PARALLEL_MODE_MPI` of `update` on the ranks of a
communicator, which all call `update`: `updateReallyNeededGlobal` is `1` on a
rank whose flag is set and `0` else, it is summed over the ranks, and a rank
that receives a positive sum sets its flag. -/
def unionFlags (ranks : List (SuperGeometryStatistics2D T)) :
    List (SuperGeometryStatistics2D T) :=
  let updateReallyNeededGlobal : List Int :=
    reduceAndBcastSum (ranks.map (fun s => if s.statisticsUpdateNeeded then 1 else 0))
  List.zipWith
    (fun s g => if g > 0 then { s with statisticsUpdateNeeded := true } else s)
    ranks updateReallyNeededGlobal

/-- The member `update` in an MPI build up to the reductions of the counts, on
the ranks of a communicator which all call `update`: the union of the flags,
on the ranks whose flag is set the first loop over the blocks and the
collective sum of `updateReallyNeeded`, and the return of the ranks that
receive the sum `0`.  The collective inside the branch completes only when
every rank takes part in it; the result is `none` when some ranks are in the
branch and others are not. -/
def updateMpiHead (ranks : List (SuperGeometryStatistics2D T)) :
    Option (List (RankProgress T)) :=
  let ranks1 := unionFlags ranks
  if ranks1.all (fun s => !s.statisticsUpdateNeeded) then
    some (ranks1.map (fun s => { stats := s, reachesReduction := false }))
  else if ranks1.all (fun s => s.statisticsUpdateNeeded) then
    let locals := ranks1.map (fun s => updateBlocks s.blocks)
    let updateReallyNeeded := reduceAndBcastSum (locals.map (fun r => r.2))
    some (List.zipWith
      (fun (sr : SuperGeometryStatistics2D T × (List (BlockGeometryStatistics2D T) × Int))
          (g : Int) =>
        if g = 0 then
          { stats := { sr.1 with blocks := sr.2.1, statisticsUpdateNeeded := false },
            reachesReduction := false }
        else
          { stats := { sr.1 with blocks := sr.2.1 }, reachesReduction := true })
      (List.zip ranks1 locals) updateReallyNeeded)
  else none

end SuperGeometryStatistics2D

/-! ## Class `SuperVTMwriter2D` -/

namespace SuperVTMwriter2D

/-- The way a call of `write` ends. -/
inductive Outcome where
  | returned
  | runtime_error
  deriving DecidableEq

/-- What `write(int iT)` reads of a functor `SuperF2D<T,W>`: an identifier, and
of its super structure the number of cuboids `getCuboidGeometry().getNc()`, the
size of the load balancer and its map `glob`. -/
structure SuperF2D where
  id : Nat
  nC : Int
  loadSize : Int
  glob : Int → Int

/-- The effects of `write(int iT)`: the text sent to `clout`, the calls of
`communicate()`, and the calls that write to the PVD, VTM and VTI files. -/
inductive Action where
  | clout (text : String)
  | communicate (functor : Nat)
  | dataPVDmaster (iT : Int)
  | preambleVTM (iT : Int)
  | dataVTM (iC : Int)
  | closeVTM (iT : Int)
  | preambleVTI (iC : Int)
  | dataArray (iC : Int) (functor : Nat)
  | dataArrayBinary (iC : Int) (functor : Nat)
  | closePiece (iC : Int)
  | closeVTI (iC : Int)
  deriving DecidableEq

/-- Whether an effect writes to a PVD, VTM or VTI file. -/
def Action.isFileOutput : Action → Bool
  | Action.clout _ => false
  | Action.communicate _ => false
  | _ => true

/-- The data members of `SuperVTMwriter2D` read by `write(int iT)`. -/
structure Writer where
  binary : Bool
  pointerVec : List SuperF2D

/-- The member `write(int iT)` on the process `rank` (`0` in a serial build):
the way the call ends and the effects in the order of their execution. -/
def write (w : Writer) (rank : Int) (iT : Int) : Outcome × List Action :=
  if w.pointerVec.isEmpty then
    (Outcome.returned, [Action.clout "Error: Did you add a Functor ?"])
  else
    let communicated := w.pointerVec.map (fun f => Action.communicate f.id)
    match w.pointerVec.head? with
    | none => (Outcome.runtime_error, communicated)
    | some first =>
      let master :=
        if rank = 0 then
          [Action.dataPVDmaster iT, Action.preambleVTM iT]
            ++ forRange first.nC (fun iC acc => acc ++ [Action.dataVTM iC]) []
            ++ [Action.closeVTM iT]
        else []
      let pieces :=
        forRange first.loadSize
          (fun iCloc acc =>
            acc ++ [Action.preambleVTI (first.glob iCloc)]
              ++ w.pointerVec.map (fun f =>
                  if w.binary then Action.dataArrayBinary (first.glob iCloc) f.id
                  else Action.dataArray (first.glob iCloc) f.id)
              ++ [Action.closePiece (first.glob iCloc), Action.closeVTI (first.glob iCloc)])
          []
      (Outcome.returned, communicated ++ master ++ pieces)

end SuperVTMwriter2D

/-! ## Vocabulary and inputs of further properties -/

namespace Cuboid3D

variable {T : Type} [LinearOrderedField T]

/-- The position of node `i` on an axis that starts at `pos` with spacing `delta`. -/
def nodeAt (pos delta : T) (i : Int) : T := pos + (i : T) * delta

/-- The index `loc0` is the least index `i >= 0` whose node is `>= glob0`. -/
def IsLowIndex (pos delta glob0 : T) (loc0 : Int) : Prop :=
  0 ≤ loc0 ∧ glob0 ≤ nodeAt pos delta loc0 ∧
    ∀ i : Int, 0 ≤ i → glob0 ≤ nodeAt pos delta i → loc0 ≤ i

/-- The index `loc1` is the greatest index `i <= last` whose node is `<= glob1`. -/
def IsHighIndex (pos delta glob1 : T) (last loc1 : Int) : Prop :=
  loc1 ≤ last ∧ nodeAt pos delta loc1 ≤ glob1 ∧
    ∀ i : Int, i ≤ last → nodeAt pos delta i ≤ glob1 → i ≤ loc1

/-- Some node with an index in `0 .. last` lies in the interval `[glob0, glob1]`. -/
def HasNodeIn (pos delta glob0 glob1 : T) (last : Int) : Prop :=
  ∃ i : Int, 0 ≤ i ∧ i ≤ last ∧ glob0 ≤ nodeAt pos delta i ∧ nodeAt pos delta i ≤ glob1

/-- The outputs `loc0, loc1` of one axis with `n` nodes: both lie in `0 .. n-1`,
`loc0` is the least index `i >= 0` whose node is `>= glob0` and `loc1` the
greatest index `i <= n-1` whose node is `<= glob1`. -/
def AxisRange (pos delta glob0 glob1 : T) (n loc0 loc1 : Int) : Prop :=
  (0 ≤ loc0 ∧ loc0 ≤ n - 1) ∧ (0 ≤ loc1 ∧ loc1 ≤ n - 1) ∧
    IsLowIndex pos delta glob0 loc0 ∧ IsHighIndex pos delta glob1 (n - 1) loc1

/-- The number of lattice nodes `(i, j, k)` of `[0,nX) x [0,nY) x [0,nZ)` with at
least one index equal to `0` or to its maximum, counted one by one. -/
def surfaceNodeCount (nX nY nZ : Int) : Nat :=
  ((List.range nX.toNat).flatMap (fun i => (List.range nY.toNat).flatMap (fun j =>
      (List.range nZ.toNat).map (fun k => (i, j, k))))).countP
    (fun p => decide (p.1 = 0 ∨ (p.1 : Int) = nX - 1 ∨ p.2.1 = 0 ∨ (p.2.1 : Int) = nY - 1
      ∨ p.2.2 = 0 ∨ (p.2.2 : Int) = nZ - 1))

/-- The value `i` lies in the range of a 32 bit `int`. -/
def InIntRange (i : Int) : Prop := -(2 ^ 31) ≤ i ∧ i < 2 ^ 31

/-- A cuboid of `700 x 700 x 700` nodes with spacing `1` at the origin. -/
def exampleLarge : Cuboid3D ℚ := Cuboid3D.new 0 0 0 1 700 700 700

/-- A cuboid of `3 x 3 x 3` nodes with spacing `1` at the origin. -/
def exampleTriple : Cuboid3D ℚ := Cuboid3D.new 0 0 0 1 3 3 3

end Cuboid3D

namespace SuperGeometryStatistics2D

/-- The block `exampleBlock` after a first update and after its five voxels were
given the material `2` instead of `1`: the cached maps are those of the first
update, the statistics is flagged, a scan finds material `2` only. -/
def exampleBlockRetagged : BlockGeometryStatistics2D ℚ :=
  { statisticsUpdateNeeded := true,
    material2n := [(1, 5)], material2min := [(1, [0, 0])], material2max := [(1, [4, 0])],
    scan2n := [(2, 5)], scan2min := [(2, [0, 0])], scan2max := [(2, [4, 0])] }

/-- The super statistics of `exampleBlock` after a first `update()` and the
change of the materials from `1` to `2`: the flag is raised again and the block
is `exampleBlockRetagged`. -/
def exampleRetagged : SuperGeometryStatistics2D ℚ :=
  { (SuperGeometryStatistics2D.new [exampleBlock]).update with
    blocks := [exampleBlockRetagged], statisticsUpdateNeeded := true }

/-- A cache with the materials `0`, `1` and `2`. -/
def exampleCounts : SuperGeometryStatistics2D ℚ :=
  { blocks := [], statisticsUpdateNeeded := false, nMaterials := 3,
    material2n := [(0, 7), (1, 5), (2, 3)], material2min := [], material2max := [] }

end SuperGeometryStatistics2D

namespace SuperVTMwriter2D

/-- A writer to which no functor has been added. -/
def exampleEmptyWriter : Writer := { binary := false, pointerVec := [] }

end SuperVTMwriter2D

end olb

/-! # Properties -/

namespace olb
namespace Cuboid3D



theorem childExtent_eq_ediv (N n i : Int) (hN : 0 ≤ N) (hn : 1 ≤ n) (hi : i < n) :
    childExtent N n i = (N + n - i - 1) / n := by
  unfold childExtent
  exact Int.tdiv_eq_ediv (by omega) (by omega)

theorem childExtent_eq (N n i : Int) (hN : 0 ≤ N) (hn : 1 ≤ n) (hi0 : 0 ≤ i) (hi : i < n) :
    childExtent N n i = N / n + (if i < N % n then 1 else 0) := by
  rw [childExtent_eq_ediv N n i hN hn hi]
  have hpos : 0 < n := by omega
  have hr0 : 0 ≤ N % n := Int.emod_nonneg N (by omega)
  have hr1 : N % n < n := Int.emod_lt_of_pos N hpos
  have hdecomp : N % n + n * (N / n) = N := Int.emod_add_ediv N n
  by_cases h : i < N % n
  · rw [if_pos h]
    have key := (Int.ediv_emod_unique (a := N + n - i - 1) (r := N % n - i - 1)
      (q := N / n + 1) hpos).2 ⟨by rw [mul_add]; omega, by omega, by omega⟩
    exact key.1
  · rw [if_neg h]
    have key := (Int.ediv_emod_unique (a := N + n - i - 1) (r := N % n + n - i - 1)
      (q := N / n) hpos).2 ⟨by omega, by omega, by omega⟩
    simpa using key.1

theorem childOffset_succ (N n : Int) (i : Nat) :
    childOffset N n (i + 1) = childOffset N n i + childExtent N n i := by
  unfold childOffset
  rw [List.sum_range_succ]

theorem childOffset_zero (N n : Int) : childOffset N n 0 = 0 := by
  simp [childOffset]

theorem childOffset_eq (N n : Int) (hN : 0 ≤ N) (hn : 1 ≤ n) (i : Nat) (hi : (i : Int) ≤ n) :
    childOffset N n i = i * (N / n) + min (i : Int) (N % n) := by
  induction i with
  | zero =>
    have hr0 : 0 ≤ N % n := Int.emod_nonneg N (by omega)
    simp [childOffset_zero, hr0]
  | succ k ih =>
    rw [childOffset_succ, ih (by omega), childExtent_eq N n k hN hn (by omega) (by omega)]
    push_cast
    by_cases h : (k : Int) < N % n
    · rw [if_pos h, min_eq_left (by omega), min_eq_left (by omega)]; ring
    · rw [if_neg h, min_eq_right (by omega), min_eq_right (by omega)]; ring

theorem childOffset_total (N n : Int) (hN : 0 ≤ N) (hn : 1 ≤ n) :
    childOffset N n n.toNat = N := by
  have hcast : ((n.toNat : Nat) : Int) = n := Int.toNat_of_nonneg (by omega)
  rw [childOffset_eq N n hN hn n.toNat (by omega), hcast]
  have hr1 : N % n < n := Int.emod_lt_of_pos N (by omega)
  rw [min_eq_right (by omega)]
  have := Int.emod_add_ediv N n
  linarith

end Cuboid3D
end olb


namespace olb
namespace Cuboid3D
variable {T : Type} [LinearOrderedField T]



theorem divide_loopZ (c : Cuboid3D T) (nX nY nZ iX iY : Int) (s : DivideState T) (k : Nat) :
    ∃ r, (List.range k).foldl (fun st (i : Nat) => divideBodyZ c nX nY nZ iX iY (i : Int) st) s = r ∧
    r.globPosX_child = s.globPosX_child ∧ r.globPosY_child = s.globPosY_child ∧
    r.globPosZ_child = s.globPosZ_child + c.delta * (childOffset c.nZ nZ k : T) ∧
    (0 < k → r.xN_child = childExtent c.nX nX iX ∧ r.yN_child = childExtent c.nY nY iY) ∧
    r.childrenC = s.childrenC ++ (List.range k).map (fun iZ =>
      Cuboid3D.new s.globPosX_child s.globPosY_child
        (s.globPosZ_child + c.delta * (childOffset c.nZ nZ iZ : T)) c.delta
        (childExtent c.nX nX iX) (childExtent c.nY nY iY) (childExtent c.nZ nZ iZ)) := by
  induction k with
  | zero => exact ⟨s, rfl, by simp [childOffset_zero]⟩
  | succ k ih =>
    obtain ⟨r, hr, h1, h2, h3, -, h5⟩ := ih
    refine ⟨divideBodyZ c nX nY nZ iX iY (k : Int) r, ?_, ?_, ?_, ?_, ?_, ?_⟩
    · rw [List.range_succ, List.foldl_append, hr]; rfl
    · simpa [divideBodyZ] using h1
    · simpa [divideBodyZ] using h2
    · simp only [divideBodyZ, h3, childOffset_succ, childExtent]
      push_cast; ring
    · intro _; simp [divideBodyZ, childExtent]
    · simp only [divideBodyZ, h5, h1, h2, h3, childExtent, List.append_assoc, List.range_succ,
        List.map_append, List.map_cons, List.map_nil]

theorem divide_loopY (c : Cuboid3D T) (nX nY nZ iX : Int) (hZ : 1 ≤ nZ) (s : DivideState T)
    (hs : s.globPosZ_child = c.globPosZ) (k : Nat) :
    ∃ r, (List.range k).foldl (fun st (i : Nat) => divideBodyY c nX nY nZ iX (i : Int) st) s = r ∧
    r.globPosX_child = s.globPosX_child ∧
    r.globPosY_child = s.globPosY_child + c.delta * (childOffset c.nY nY k : T) ∧
    r.globPosZ_child = c.globPosZ ∧
    (0 < k → r.xN_child = childExtent c.nX nX iX) ∧
    r.childrenC = s.childrenC ++ (List.range k).flatMap (fun iY =>
      (List.range nZ.toNat).map (fun iZ =>
        Cuboid3D.new s.globPosX_child
          (s.globPosY_child + c.delta * (childOffset c.nY nY iY : T))
          (c.globPosZ + c.delta * (childOffset c.nZ nZ iZ : T)) c.delta
          (childExtent c.nX nX iX) (childExtent c.nY nY iY) (childExtent c.nZ nZ iZ))) := by
  induction k with
  | zero => exact ⟨s, rfl, by simp [childOffset_zero, hs]⟩
  | succ k ih =>
    obtain ⟨r, hr, h1, h2, h3, -, h5⟩ := ih
    obtain ⟨r1, hr1, g1, g2, -, g4, g5⟩ := divide_loopZ c nX nY nZ iX (k : Int) r nZ.toNat
    have hpos : 0 < nZ.toNat := by omega
    obtain ⟨g4x, g4y⟩ := g4 hpos
    refine ⟨divideBodyY c nX nY nZ iX (k : Int) r, ?_, ?_, ?_, ?_, ?_, ?_⟩
    · rw [List.range_succ, List.foldl_append, hr]; rfl
    · simp only [divideBodyY, forRange, hr1, g1, h1]
    · simp only [divideBodyY, forRange, hr1, g2, h2, g4y, childOffset_succ]
      push_cast; ring
    · simp only [divideBodyY]
    · intro _; simp only [divideBodyY, forRange, hr1, g4x]
    · simp only [divideBodyY, forRange, hr1, g5, h5, h1, h2, h3, List.append_assoc,
        List.range_succ, List.flatMap_append, List.flatMap_cons, List.flatMap_nil,
        List.append_nil]

theorem divide_loopX (c : Cuboid3D T) (nX nY nZ : Int) (hY : 1 ≤ nY) (hZ : 1 ≤ nZ)
    (s : DivideState T) (hsY : s.globPosY_child = c.globPosY)
    (hsZ : s.globPosZ_child = c.globPosZ) (k : Nat) :
    ∃ r, (List.range k).foldl (fun st (i : Nat) => divideBodyX c nX nY nZ (i : Int) st) s = r ∧
    r.globPosX_child = s.globPosX_child + c.delta * (childOffset c.nX nX k : T) ∧
    r.globPosY_child = c.globPosY ∧ r.globPosZ_child = c.globPosZ ∧
    r.childrenC = s.childrenC ++ (List.range k).flatMap (fun iX =>
      (List.range nY.toNat).flatMap (fun iY =>
        (List.range nZ.toNat).map (fun iZ =>
          Cuboid3D.new (s.globPosX_child + c.delta * (childOffset c.nX nX iX : T))
            (c.globPosY + c.delta * (childOffset c.nY nY iY : T))
            (c.globPosZ + c.delta * (childOffset c.nZ nZ iZ : T)) c.delta
            (childExtent c.nX nX iX) (childExtent c.nY nY iY) (childExtent c.nZ nZ iZ)))) := by
  induction k with
  | zero => exact ⟨s, rfl, by simp [childOffset_zero, hsY, hsZ]⟩
  | succ k ih =>
    obtain ⟨r, hr, h1, h2, h3, h5⟩ := ih
    obtain ⟨r1, hr1, g1, -, g3, g4, g5⟩ := divide_loopY c nX nY nZ (k : Int) hZ r h3 nY.toNat
    have hpos : 0 < nY.toNat := by omega
    have g4x := g4 hpos
    refine ⟨divideBodyX c nX nY nZ (k : Int) r, ?_, ?_, ?_, ?_, ?_⟩
    · rw [List.range_succ, List.foldl_append, hr]; rfl
    · simp only [divideBodyX, forRange, hr1, g1, h1, g4x, childOffset_succ]
      push_cast; ring
    · simp only [divideBodyX]
    · simp only [divideBodyX, forRange, hr1, g3]
    · simp only [divideBodyX, forRange, hr1, g5, h5, h1, h2, List.append_assoc,
        List.range_succ, List.flatMap_append, List.flatMap_cons, List.flatMap_nil,
        List.append_nil]

theorem divide_eq (c : Cuboid3D T) (nX nY nZ : Int) (hY : 1 ≤ nY) (hZ : 1 ≤ nZ)
    (out : List (Cuboid3D T)) :
    c.divide nX nY nZ out = out ++ divideChildren c nX nY nZ := by
  obtain ⟨r, hr, -, -, -, h⟩ := divide_loopX c nX nY nZ hY hZ
    { xN_child := 0, yN_child := 0, zN_child := 0,
      globPosX_child := c.globPosX, globPosY_child := c.globPosY,
      globPosZ_child := c.globPosZ, childrenC := out } rfl rfl nX.toNat
  simp only [divide, forRange, hr, h, divideChildren, divideChildAt]

end Cuboid3D
end olb


namespace olb

theorem getElem?_flatMap_range {α : Type} (f : Nat → List α) (m : Nat)
    (hf : ∀ i, (f i).length = m) (n i j : Nat) (hi : i < n) (hj : j < m) :
    ((List.range n).flatMap f)[i * m + j]? = (f i)[j]? := by
  have hlen : ∀ k, ((List.range k).flatMap f).length = k * m := by
    intro k
    induction k with
    | zero => simp
    | succ k ih => simp [List.range_succ, List.flatMap_append, ih, hf, Nat.succ_mul]
  induction n with
  | zero => omega
  | succ n ih =>
    rw [List.range_succ, List.flatMap_append]
    by_cases h : i < n
    · have hlt : i * m + j < n * m := by
        have : (i + 1) * m ≤ n * m := Nat.mul_le_mul_right m h
        rw [Nat.succ_mul] at this
        omega
      rw [List.getElem?_append_left (by rw [hlen]; exact hlt)]
      exact ih h
    · have hin : i = n := by omega
      subst hin
      rw [List.getElem?_append_right (by rw [hlen]; omega), hlen]
      simp

theorem sum_map_flatMap {α β : Type} (l : List α) (f : α → List β) (g : β → Int) :
    ((l.flatMap f).map g).sum = (l.map (fun a => ((f a).map g).sum)).sum := by
  induction l with
  | nil => simp
  | cons a t ih => simp [List.flatMap_cons, List.map_append, List.sum_append, ih]

theorem toSizeT_cast (i : Int) : ((toSizeT i : Nat) : Int) = i % (2 ^ 64 : Int) := by
  unfold toSizeT
  exact Int.toNat_of_nonneg (Int.emod_nonneg _ (by norm_num))

theorem sizeMul_toSizeT (a b : Int) : sizeMul (toSizeT a) (toSizeT b) = toSizeT (a * b) := by
  apply Int.ofNat_inj.1
  rw [toSizeT_cast]
  unfold sizeMul
  push_cast
  rw [toSizeT_cast, toSizeT_cast]
  have h : (2 : Int) ^ 64 = 18446744073709551616 := by norm_num
  rw [h]
  exact (Int.mul_emod a b _).symm

theorem sizeSum_eq (l : List Nat) : sizeSum l = l.sum % 2 ^ 64 := by
  have h : ∀ (l : List Nat) (a : Nat), l.foldl sizeAdd a % 2 ^ 64 = (a + l.sum) % 2 ^ 64 := by
    intro l
    induction l with
    | nil => intro a; simp
    | cons x t ih =>
      intro a
      rw [List.foldl_cons, ih, List.sum_cons]
      unfold sizeAdd
      omega
  have h2 : ∀ (l : List Nat) (a : Nat), a < 2 ^ 64 → l.foldl sizeAdd a < 2 ^ 64 := by
    intro l
    induction l with
    | nil => intro a ha; simpa using ha
    | cons x t ih =>
      intro a _
      rw [List.foldl_cons]
      exact ih _ (Nat.mod_lt _ (by norm_num))
  have h3 := h l 0
  rw [Nat.mod_eq_of_lt (h2 l 0 (by norm_num))] at h3
  simpa [sizeSum] using h3

theorem sum_toSizeT_mod (l : List Int) :
    (l.map toSizeT).sum % 2 ^ 64 = toSizeT l.sum := by
  apply Int.ofNat_inj.1
  rw [toSizeT_cast]
  induction l with
  | nil => simp
  | cons x t ih =>
    simp only [List.map_cons, List.sum_cons]
    push_cast at ih ⊢
    rw [Int.add_emod, ih, toSizeT_cast, ← Int.add_emod]
    omega

namespace Cuboid3D
variable {T : Type}

theorem getLatticeVolume_eq (c : Cuboid3D T) :
    c.getLatticeVolume = toSizeT (c.nY * c.nX * c.nZ) := by
  unfold getLatticeVolume
  rw [sizeMul_toSizeT, sizeMul_toSizeT]

end Cuboid3D
end olb


namespace olb
namespace Cuboid3D
variable {T : Type} [LinearOrderedField T]


theorem childAt_divide (c : Cuboid3D T) (nX nY nZ : Int) (out : List (Cuboid3D T))
    (hnY : 1 ≤ nY) (hnZ : 1 ≤ nZ) (iX iY iZ : Nat)
    (hX : (iX : Int) < nX) (hY : (iY : Int) < nY) (hZ : (iZ : Int) < nZ) :
    childAt (c.divide nX nY nZ out) out.length nY nZ iX iY iZ
      = some (divideChildAt c nX nY nZ iX iY iZ) := by
  unfold childAt
  rw [divide_eq c nX nY nZ hnY hnZ, List.getElem?_append_right (by omega)]
  have hidx : out.length + ((iX * nY.toNat + iY) * nZ.toNat + iZ) - out.length
      = iX * (nY.toNat * nZ.toNat) + (iY * nZ.toNat + iZ) := by
    rw [Nat.add_sub_cancel_left]; ring
  rw [hidx]
  unfold divideChildren
  have hiZ : iZ < nZ.toNat := by omega
  have hiY : iY < nY.toNat := by omega
  have hiX : iX < nX.toNat := by omega
  have hinner : ∀ (a i : Nat), ((List.range nZ.toNat).map
      (fun iZ => divideChildAt c nX nY nZ a i iZ)).length = nZ.toNat := by
    intro a i; simp
  have hmid : ∀ a : Nat, ((List.range nY.toNat).flatMap (fun iY =>
      (List.range nZ.toNat).map (fun iZ => divideChildAt c nX nY nZ a iY iZ))).length
        = nY.toNat * nZ.toNat := by
    intro a
    have hgen : ∀ k : Nat, ((List.range k).flatMap (fun iY =>
        (List.range nZ.toNat).map (fun iZ => divideChildAt c nX nY nZ a iY iZ))).length
          = k * nZ.toNat := by
      intro k
      induction k with
      | zero => simp
      | succ k ih => simp [List.range_succ, List.flatMap_append, ih, Nat.succ_mul]
    exact hgen _
  have hbound : iY * nZ.toNat + iZ < nY.toNat * nZ.toNat := by
    have : (iY + 1) * nZ.toNat ≤ nY.toNat * nZ.toNat := Nat.mul_le_mul_right _ hiY
    rw [Nat.succ_mul] at this
    omega
  rw [getElem?_flatMap_range _ (nY.toNat * nZ.toNat) hmid nX.toNat iX _ hiX hbound]
  rw [getElem?_flatMap_range _ nZ.toNat (hinner iX) nY.toNat iY iZ hiY hiZ]
  simp [hiZ]

/-- Claim C1.  `divide(nX, nY, nZ, out)` on a parent with extents `≥ 0` and counts
`nX, nY, nZ ≥ 1`: the child with indices `(iX, iY, iZ)` exists in the output and has
the extents `floor((N+n-i-1)/n)` on the three axes, and along each axis the extents
of the children over that axis' index `0..n-1` (the two other indices fixed) add up
to the extent of the parent on that axis. -/
theorem divide_child_extents (c : Cuboid3D T) (nX nY nZ : Int) (out : List (Cuboid3D T))
    (hNX : 0 ≤ c.nX) (hNY : 0 ≤ c.nY) (hNZ : 0 ≤ c.nZ)
    (hnX : 1 ≤ nX) (hnY : 1 ≤ nY) (hnZ : 1 ≤ nZ) :
    (∀ iX iY iZ : Nat, (iX : Int) < nX → (iY : Int) < nY → (iZ : Int) < nZ →
      ∃ ch, childAt (c.divide nX nY nZ out) out.length nY nZ iX iY iZ = some ch ∧
        ch.nX = (c.nX + nX - iX - 1) / nX ∧
        ch.nY = (c.nY + nY - iY - 1) / nY ∧
        ch.nZ = (c.nZ + nZ - iZ - 1) / nZ) ∧
    (∀ iY iZ : Nat, (iY : Int) < nY → (iZ : Int) < nZ →
      ((List.range nX.toNat).map (fun iX =>
        ((childAt (c.divide nX nY nZ out) out.length nY nZ iX iY iZ).map Cuboid3D.nX).getD 0)).sum
          = c.nX) ∧
    (∀ iX iZ : Nat, (iX : Int) < nX → (iZ : Int) < nZ →
      ((List.range nY.toNat).map (fun iY =>
        ((childAt (c.divide nX nY nZ out) out.length nY nZ iX iY iZ).map Cuboid3D.nY).getD 0)).sum
          = c.nY) ∧
    (∀ iX iY : Nat, (iX : Int) < nX → (iY : Int) < nY →
      ((List.range nZ.toNat).map (fun iZ =>
        ((childAt (c.divide nX nY nZ out) out.length nY nZ iX iY iZ).map Cuboid3D.nZ).getD 0)).sum
          = c.nZ) := by
  refine ⟨?_, ?_, ?_, ?_⟩
  · intro iX iY iZ hX hY hZ
    refine ⟨_, childAt_divide c nX nY nZ out hnY hnZ iX iY iZ hX hY hZ, ?_, ?_, ?_⟩
    · exact childExtent_eq_ediv _ _ _ hNX hnX hX
    · exact childExtent_eq_ediv _ _ _ hNY hnY hY
    · exact childExtent_eq_ediv _ _ _ hNZ hnZ hZ
  · intro iY iZ hY hZ
    have h : (List.range nX.toNat).map (fun iX =>
        ((childAt (c.divide nX nY nZ out) out.length nY nZ iX iY iZ).map Cuboid3D.nX).getD 0)
        = (List.range nX.toNat).map (fun j : Nat => childExtent c.nX nX (j : Int)) := by
      apply List.map_congr_left
      intro iX hiX
      rw [List.mem_range] at hiX
      rw [childAt_divide c nX nY nZ out hnY hnZ iX iY iZ (by omega) hY hZ]
      rfl
    rw [h]
    exact childOffset_total c.nX nX hNX hnX
  · intro iX iZ hX hZ
    have h : (List.range nY.toNat).map (fun iY =>
        ((childAt (c.divide nX nY nZ out) out.length nY nZ iX iY iZ).map Cuboid3D.nY).getD 0)
        = (List.range nY.toNat).map (fun j : Nat => childExtent c.nY nY (j : Int)) := by
      apply List.map_congr_left
      intro iY hiY
      rw [List.mem_range] at hiY
      rw [childAt_divide c nX nY nZ out hnY hnZ iX iY iZ hX (by omega) hZ]
      rfl
    rw [h]
    exact childOffset_total c.nY nY hNY hnY
  · intro iX iY hX hY
    have h : (List.range nZ.toNat).map (fun iZ =>
        ((childAt (c.divide nX nY nZ out) out.length nY nZ iX iY iZ).map Cuboid3D.nZ).getD 0)
        = (List.range nZ.toNat).map (fun j : Nat => childExtent c.nZ nZ (j : Int)) := by
      apply List.map_congr_left
      intro iZ hiZ
      rw [List.mem_range] at hiZ
      rw [childAt_divide c nX nY nZ out hnY hnZ iX iY iZ hX hY (by omega)]
      rfl
    rw [h]
    exact childOffset_total c.nZ nZ hNZ hnZ

end Cuboid3D
end olb


namespace olb

theorem sum_toSizeT_exact (l : List Int) (hnn : ∀ v ∈ l, 0 ≤ v) (hlt : l.sum < 2 ^ 64) :
    (l.map toSizeT).sum = toSizeT l.sum := by
  have hsum : ∀ (l : List Int), (∀ v ∈ l, 0 ≤ v) → 0 ≤ l.sum := by
    intro l h
    exact List.sum_nonneg h
  apply Int.ofNat_inj.1
  rw [toSizeT_cast]
  induction l with
  | nil => simp
  | cons x t ih =>
    have hx : 0 ≤ x := hnn x (List.mem_cons_self _ _)
    have ht : ∀ v ∈ t, 0 ≤ v := fun v hv => hnn v (List.mem_cons_of_mem _ hv)
    have hts : 0 ≤ t.sum := hsum t ht
    rw [List.sum_cons] at hlt
    have ih1 := ih ht (by omega)
    simp only [List.map_cons, List.sum_cons]
    push_cast at ih1 ⊢
    rw [ih1, toSizeT_cast]
    omega

namespace Cuboid3D
variable {T : Type} [LinearOrderedField T]

theorem childExtent_nonneg (N n i : Int) (hN : 0 ≤ N) (hn : 1 ≤ n) (hi0 : 0 ≤ i) (hi : i < n) :
    0 ≤ childExtent N n i := by
  rw [childExtent_eq N n i hN hn hi0 hi]
  have : 0 ≤ N / n := Int.ediv_nonneg hN (by omega)
  split <;> omega

theorem length_divideChildren (c : Cuboid3D T) (nX nY nZ : Int) :
    (divideChildren c nX nY nZ).length = nX.toNat * (nY.toNat * nZ.toNat) := by
  have hmid : ∀ (a k : Nat), ((List.range k).flatMap (fun iY =>
      (List.range nZ.toNat).map (fun iZ => divideChildAt c nX nY nZ a iY iZ))).length
        = k * nZ.toNat := by
    intro a k
    induction k with
    | zero => simp
    | succ k ih => simp [List.range_succ, List.flatMap_append, ih, Nat.succ_mul]
  have hout : ∀ k : Nat, ((List.range k).flatMap (fun iX =>
      (List.range nY.toNat).flatMap (fun iY =>
        (List.range nZ.toNat).map (fun iZ => divideChildAt c nX nY nZ iX iY iZ)))).length
        = k * (nY.toNat * nZ.toNat) := by
    intro k
    induction k with
    | zero => simp
    | succ k ih =>
      rw [List.range_succ, List.flatMap_append, List.length_append, ih]
      simp [hmid, Nat.succ_mul]
  exact hout _

theorem sum_volume_divideChildren (c : Cuboid3D T) (nX nY nZ : Int) :
    ((divideChildren c nX nY nZ).map (fun ch => ch.nY * ch.nX * ch.nZ)).sum
      = childOffset c.nY nY nY.toNat * childOffset c.nX nX nX.toNat
          * childOffset c.nZ nZ nZ.toNat := by
  unfold divideChildren
  rw [sum_map_flatMap]
  simp only [sum_map_flatMap, List.map_map, Function.comp_def, divideChildAt, Cuboid3D.new]
  simp only [List.sum_map_mul_left, List.sum_map_mul_right]
  unfold childOffset
  ring

theorem mem_divideChildren_nonneg (c : Cuboid3D T) (nX nY nZ : Int)
    (hNX : 0 ≤ c.nX) (hNY : 0 ≤ c.nY) (hNZ : 0 ≤ c.nZ)
    (hnX : 1 ≤ nX) (hnY : 1 ≤ nY) (hnZ : 1 ≤ nZ) :
    ∀ v ∈ (divideChildren c nX nY nZ).map (fun ch => ch.nY * ch.nX * ch.nZ), 0 ≤ v := by
  intro v hv
  simp only [divideChildren, List.mem_map, List.mem_flatMap, List.mem_range] at hv
  obtain ⟨ch, ⟨iX, hiX, iY, hiY, iZ, hiZ, rfl⟩, rfl⟩ := hv
  have h1 := childExtent_nonneg c.nX nX iX hNX hnX (by omega) (by omega)
  have h2 := childExtent_nonneg c.nY nY iY hNY hnY (by omega) (by omega)
  have h3 := childExtent_nonneg c.nZ nZ iZ hNZ hnZ (by omega) (by omega)
  simp only [divideChildAt, Cuboid3D.new]
  positivity

/-- Claim C2.  `divide(nX, nY, nZ, out)` on a parent with extents `≥ 0` and counts
`≥ 1` leaves the entries of `out` unchanged in front and appends exactly
`nX*nY*nZ` children; the sum of `getLatticeVolume()` over the appended children,
accumulated in `size_t`, equals the parent's `getLatticeVolume()`, and the sum is
exact (no reduction modulo `2^64` takes place) when the parent volume fits in
`size_t`. -/
theorem divide_count_and_volume (c : Cuboid3D T) (nX nY nZ : Int) (out : List (Cuboid3D T))
    (hNX : 0 ≤ c.nX) (hNY : 0 ≤ c.nY) (hNZ : 0 ≤ c.nZ)
    (hnX : 1 ≤ nX) (hnY : 1 ≤ nY) (hnZ : 1 ≤ nZ) :
    ∃ children : List (Cuboid3D T),
      c.divide nX nY nZ out = out ++ children ∧
      (children.length : Int) = nX * nY * nZ ∧
      sizeSum (children.map getLatticeVolume) = c.getLatticeVolume ∧
      (c.nX * c.nY * c.nZ < 2 ^ 64 →
        (children.map getLatticeVolume).sum = c.getLatticeVolume) := by
  refine ⟨divideChildren c nX nY nZ, divide_eq c nX nY nZ hnY hnZ out, ?_, ?_, ?_⟩
  · rw [length_divideChildren]
    push_cast
    rw [Int.toNat_of_nonneg (by omega), Int.toNat_of_nonneg (by omega),
      Int.toNat_of_nonneg (by omega)]
    ring
  · have hmap : (divideChildren c nX nY nZ).map getLatticeVolume
        = ((divideChildren c nX nY nZ).map (fun ch => ch.nY * ch.nX * ch.nZ)).map toSizeT := by
      rw [List.map_map]
      apply List.map_congr_left
      intro ch _
      exact getLatticeVolume_eq ch
    rw [sizeSum_eq, hmap, sum_toSizeT_mod, sum_volume_divideChildren, getLatticeVolume_eq,
      childOffset_total _ _ hNX hnX, childOffset_total _ _ hNY hnY,
      childOffset_total _ _ hNZ hnZ]
  · intro hlt
    have hmap : (divideChildren c nX nY nZ).map getLatticeVolume
        = ((divideChildren c nX nY nZ).map (fun ch => ch.nY * ch.nX * ch.nZ)).map toSizeT := by
      rw [List.map_map]
      apply List.map_congr_left
      intro ch _
      exact getLatticeVolume_eq ch
    have htot : ((divideChildren c nX nY nZ).map (fun ch => ch.nY * ch.nX * ch.nZ)).sum
        = c.nY * c.nX * c.nZ := by
      rw [sum_volume_divideChildren, childOffset_total _ _ hNX hnX,
        childOffset_total _ _ hNY hnY, childOffset_total _ _ hNZ hnZ]
    rw [hmap, sum_toSizeT_exact _
      (mem_divideChildren_nonneg c nX nY nZ hNX hNY hNZ hnX hnY hnZ)
      (by rw [htot]; linarith), htot, getLatticeVolume_eq]

end Cuboid3D
end olb


namespace olb
namespace Cuboid3D
variable {T : Type} [LinearOrderedField T]


theorem childOffset_mono (N n : Int) (hN : 0 ≤ N) (hn : 1 ≤ n) (i j : Nat) (hij : i ≤ j)
    (hj : (j : Int) ≤ n) : childOffset N n i ≤ childOffset N n j := by
  induction j with
  | zero =>
    have : i = 0 := by omega
    subst this
    exact le_refl _
  | succ j ih =>
    by_cases h : i = j + 1
    · subst h; exact le_refl _
    · have h1 := ih (by omega) (by omega)
      have h2 := childExtent_nonneg N n j hN hn (by omega) (by omega)
      rw [childOffset_succ]
      omega

theorem childOffset_cover (N n : Int) (k : Int) (hk0 : 0 ≤ k)
    (m : Nat) (hk : k < childOffset N n m) :
    ∃ i : Nat, i < m ∧ childOffset N n i ≤ k ∧ k < childOffset N n i + childExtent N n i := by
  induction m with
  | zero => rw [childOffset_zero] at hk; omega
  | succ m ih =>
    by_cases h : k < childOffset N n m
    · obtain ⟨i, hi, h1, h2⟩ := ih h
      exact ⟨i, by omega, h1, h2⟩
    · refine ⟨m, by omega, by omega, ?_⟩
      rw [childOffset_succ] at hk
      exact hk

theorem axisPartition (N n : Int) (hN : 0 ≤ N) (hn : 1 ≤ n) : AxisPartition N n := by
  have hdisj : ∀ i j : Nat, i < j → (j : Int) < n →
      childOffset N n i + childExtent N n i ≤ childOffset N n j := by
    intro i j hij hj
    rw [← childOffset_succ]
    exact childOffset_mono N n hN hn (i + 1) j (by omega) (by omega)
  refine ⟨?_, childOffset_zero N n, childOffset_succ N n, childOffset_total N n hN hn, hdisj, ?_⟩
  · intro i hi
    exact childExtent_nonneg N n i hN hn (by omega) hi
  · intro k hk0 hk
    have htot := childOffset_total N n hN hn
    obtain ⟨i, hi, h1, h2⟩ := childOffset_cover N n k hk0 n.toNat (by omega)
    refine ⟨i, ⟨by omega, h1, h2⟩, ?_⟩
    rintro j ⟨hj, g1, g2⟩
    by_contra hne
    rcases Nat.lt_or_gt_of_ne hne with hlt | hlt
    · have := hdisj j i hlt (by omega)
      omega
    · have := hdisj i j hlt hj
      omega

/-- Claim C3.  `divide(nX, nY, nZ, out)` over exact arithmetic: the child with
indices `(iX, iY, iZ)` is the `((iX*nY+iY)*nZ+iZ)`-th appended cuboid, keeps the
spacing of the parent and has the origin `parent origin + delta * (aX(iX), aY(iY),
aZ(iZ))`, where `a(i)` is the sum of the extents of the children `0..i-1` on that
axis; on every axis the index ranges `[a(i), a(i)+extent(i))` are pairwise
disjoint, contiguous and cover `[0, N)` (`AxisPartition`). -/
theorem divide_children_layout (c : Cuboid3D T) (nX nY nZ : Int) (out : List (Cuboid3D T))
    (hNX : 0 ≤ c.nX) (hNY : 0 ≤ c.nY) (hNZ : 0 ≤ c.nZ)
    (hnX : 1 ≤ nX) (hnY : 1 ≤ nY) (hnZ : 1 ≤ nZ) :
    (∀ iX iY iZ : Nat, (iX : Int) < nX → (iY : Int) < nY → (iZ : Int) < nZ →
      ∃ ch, (c.divide nX nY nZ out)[out.length + ((iX * nY.toNat + iY) * nZ.toNat + iZ)]? = some ch ∧
        ch.delta = c.delta ∧
        ch.globPosX = c.globPosX + c.delta * (childOffset c.nX nX iX : T) ∧
        ch.globPosY = c.globPosY + c.delta * (childOffset c.nY nY iY : T) ∧
        ch.globPosZ = c.globPosZ + c.delta * (childOffset c.nZ nZ iZ : T) ∧
        ch.nX = childExtent c.nX nX iX ∧
        ch.nY = childExtent c.nY nY iY ∧
        ch.nZ = childExtent c.nZ nZ iZ) ∧
    AxisPartition c.nX nX ∧ AxisPartition c.nY nY ∧ AxisPartition c.nZ nZ := by
  refine ⟨?_, axisPartition _ _ hNX hnX, axisPartition _ _ hNY hnY, axisPartition _ _ hNZ hnZ⟩
  intro iX iY iZ hX hY hZ
  exact ⟨_, childAt_divide c nX nY nZ out hnY hnZ iX iY iZ hX hY hZ, rfl, rfl, rfl, rfl, rfl,
    rfl, rfl⟩

end Cuboid3D
end olb


namespace olb

theorem countP_map_and {α : Type} (b : Bool) (q : Nat → Bool) (p : α → Bool) (f : Nat → α)
    (l : List Nat) (h : ∀ k, p (f k) = (b && q k)) :
    (l.map f).countP p = if b then l.countP q else 0 := by
  induction l with
  | nil => simp
  | cons k t ih =>
    rw [List.map_cons, List.countP_cons, List.countP_cons, ih, h]
    cases b <;> simp

theorem countP_product {α : Type} (pX pY pZ : Nat → Bool) (p : α → Bool)
    (f : Nat → Nat → Nat → α) (h : ∀ i j k, p (f i j k) = (pX i && (pY j && pZ k)))
    (lx ly lz : List Nat) :
    (lx.flatMap (fun i => ly.flatMap (fun j => lz.map (fun k => f i j k)))).countP p
      = lx.countP pX * (ly.countP pY * lz.countP pZ) := by
  have hmid : ∀ (i : Nat) (ly : List Nat),
      (ly.flatMap (fun j => lz.map (fun k => f i j k))).countP p
        = if pX i then ly.countP pY * lz.countP pZ else 0 := by
    intro i ly
    induction ly with
    | nil => simp
    | cons j t ih =>
      rw [List.flatMap_cons, List.countP_append, ih,
        countP_map_and (pX i && pY j) pZ p (fun k => f i j k) lz
          (fun k => by rw [h, Bool.and_assoc]),
        List.countP_cons]
      cases pX i <;> cases pY j <;> simp [Nat.succ_mul, Nat.add_comm]
  induction lx with
  | nil => simp
  | cons i t ih =>
    rw [List.flatMap_cons, List.countP_append, ih, hmid, List.countP_cons]
    cases pX i <;> simp [Nat.succ_mul, Nat.add_comm]

namespace Cuboid3D
variable {T : Type} [LinearOrderedField T]

theorem childExtent_nonpos (N n i : Int) (hN : N < 0) (hn : 1 ≤ n) (hi0 : 0 ≤ i) :
    childExtent N n i ≤ 0 := by
  unfold childExtent
  by_cases h : 0 ≤ N + n - i - 1
  · rw [Int.tdiv_eq_ediv h (by omega), Int.ediv_eq_zero_of_lt h (by omega)]
  · have hx : N + n - i - 1 = -(-(N + n - i - 1)) := by ring
    rw [hx, Int.neg_tdiv, Int.tdiv_eq_ediv (by omega) (by omega)]
    have : 0 ≤ (-(N + n - i - 1)) / n := Int.ediv_nonneg (by omega) (by omega)
    omega


theorem countP_inAxis_upto (g δ y : T) (hδ : 0 < δ) (N n : Int) (hN : 0 ≤ N) (hn : 1 ≤ n)
    (m : Nat) (hm : (m : Int) ≤ n) :
    (List.range m).countP (fun i => inAxis g δ y (childOffset N n i) (childExtent N n i))
      = if g ≤ y ∧ y < g + δ * (childOffset N n m : T) then 1 else 0 := by
  induction m with
  | zero =>
    have : ¬ (g ≤ y ∧ y < g + δ * ((childOffset N n 0 : Int) : T)) := by
      rw [childOffset_zero]; push_cast; intro h; linarith [h.1, h.2]
    simp [this]
  | succ m ih =>
    rw [List.range_succ, List.countP_append, ih (by omega), childOffset_succ]
    have h0 : (0 : T) ≤ δ * (childOffset N n m : T) := by
      have := childOffset_mono N n hN hn 0 m (by omega) (by omega)
      rw [childOffset_zero] at this
      have h' : (0 : T) ≤ (childOffset N n m : T) := by exact_mod_cast this
      positivity
    have h1 : (0 : T) ≤ (childExtent N n m : T) * δ := by
      have := childExtent_nonneg N n m hN hn (by omega) (by omega)
      have h' : (0 : T) ≤ (childExtent N n m : T) := by exact_mod_cast this
      positivity
    have hsum : δ * ((childOffset N n m + childExtent N n m : Int) : T)
        = δ * (childOffset N n m : T) + (childExtent N n m : T) * δ := by
      push_cast; ring
    rw [hsum]
    simp only [List.countP_cons, List.countP_nil, inAxis, Bool.and_eq_true, decide_eq_true_eq,
      gt_iff_lt, zero_add]
    by_cases c1 : g ≤ y
    · by_cases c2 : y < g + δ * (childOffset N n m : T)
      · have c3 : ¬ (g + δ * (childOffset N n m : T) ≤ y) := not_le.2 c2
        have c4 : y < g + (δ * (childOffset N n m : T) + (childExtent N n m : T) * δ) := by
          linarith
        simp [c1, c2, c3, c4]
      · have c3 : g + δ * (childOffset N n m : T) ≤ y := not_lt.1 c2
        by_cases c4 : y < g + δ * (childOffset N n m : T) + (childExtent N n m : T) * δ
        · have c5 : y < g + (δ * (childOffset N n m : T) + (childExtent N n m : T) * δ) := by
            linarith
          simp [c1, c2, c3, c4, c5]
        · have c5 : ¬ y < g + (δ * (childOffset N n m : T) + (childExtent N n m : T) * δ) := by
            intro h; apply c4; linarith
          simp [c1, c2, c3, c4, c5]
    · have c3 : ¬ (g + δ * (childOffset N n m : T) ≤ y) := by
        intro h; apply c1; linarith
      simp [c1, c3]

theorem countP_inAxis (g δ y : T) (hδ : 0 < δ) (N n : Int) (hn : 1 ≤ n) :
    (List.range n.toNat).countP (fun i => inAxis g δ y (childOffset N n i) (childExtent N n i))
      = if g ≤ y ∧ y < g + (N : T) * δ then 1 else 0 := by
  by_cases hN : 0 ≤ N
  · rw [countP_inAxis_upto g δ y hδ N n hN hn n.toNat (by omega), childOffset_total N n hN hn,
      mul_comm]
  · have hNneg : N < 0 := by omega
    have hparent : ¬ (g ≤ y ∧ y < g + (N : T) * δ) := by
      rintro ⟨h1, h2⟩
      have h' : (N : T) < 0 := by exact_mod_cast hNneg
      have : (N : T) * δ < 0 := mul_neg_of_neg_of_pos h' hδ
      linarith
    rw [if_neg hparent, List.countP_eq_zero]
    intro i _
    simp only [inAxis, Bool.and_eq_true, decide_eq_true_eq, gt_iff_lt, not_and, not_lt]
    intro h1
    have he := childExtent_nonpos N n i hNneg hn (by omega)
    have h' : (childExtent N n i : T) ≤ 0 := by exact_mod_cast he
    have : (childExtent N n i : T) * δ ≤ 0 := mul_nonpos_of_nonpos_of_nonneg h' hδ.le
    linarith

end Cuboid3D
end olb


namespace olb
namespace Cuboid3D
variable {T : Type} [LinearOrderedField T] [FloorRing T]

theorem ite_mul_ite (A B C : Prop) [Decidable A] [Decidable B] [Decidable C] :
    (if A then 1 else 0) * ((if B then 1 else 0) * (if C then 1 else 0))
      = if A ∧ B ∧ C then 1 else 0 := by
  by_cases hA : A <;> by_cases hB : B <;> by_cases hC : C <;> simp [hA, hB, hC]

theorem checkPoint_zero_iff (c : Cuboid3D T) (x y z : T) :
    c.checkPoint x y z 0 = true ↔
      (c.globPosX ≤ x + c.delta / 2 ∧ x + c.delta / 2 < c.globPosX + (c.nX : T) * c.delta) ∧
      (c.globPosY ≤ y + c.delta / 2 ∧ y + c.delta / 2 < c.globPosY + (c.nY : T) * c.delta) ∧
      (c.globPosZ ≤ z + c.delta / 2 ∧ z + c.delta / 2 < c.globPosZ + (c.nZ : T) * c.delta) := by
  simp only [checkPoint, Int.cast_zero, zero_mul, add_zero, Bool.and_eq_true,
    decide_eq_true_eq, gt_iff_lt, and_assoc]

theorem countP_checkPoint_divide (c : Cuboid3D T) (nX nY nZ : Int) (hδ : 0 < c.delta)
    (hnX : 1 ≤ nX) (hnY : 1 ≤ nY) (hnZ : 1 ≤ nZ) (x y z : T) :
    (c.divide nX nY nZ []).countP (fun ch => ch.checkPoint x y z 0)
      = if c.checkPoint x y z 0 = true then 1 else 0 := by
  rw [divide_eq c nX nY nZ hnY hnZ, List.nil_append]
  unfold divideChildren
  rw [countP_product
    (fun i => inAxis c.globPosX c.delta (x + c.delta / 2) (childOffset c.nX nX i)
      (childExtent c.nX nX i))
    (fun i => inAxis c.globPosY c.delta (y + c.delta / 2) (childOffset c.nY nY i)
      (childExtent c.nY nY i))
    (fun i => inAxis c.globPosZ c.delta (z + c.delta / 2) (childOffset c.nZ nZ i)
      (childExtent c.nZ nZ i))
    (fun ch => ch.checkPoint x y z 0)
    (fun iX iY iZ => divideChildAt c nX nY nZ iX iY iZ)]
  · rw [countP_inAxis _ _ _ hδ _ _ hnX, countP_inAxis _ _ _ hδ _ _ hnY,
      countP_inAxis _ _ _ hδ _ _ hnZ, ite_mul_ite]
    exact if_congr (checkPoint_zero_iff c x y z).symm rfl rfl
  · intro i j k
    simp only [checkPoint, divideChildAt, Cuboid3D.new, inAxis, Int.cast_zero, zero_mul,
      add_zero, Bool.and_assoc]

end Cuboid3D
end olb

namespace olb
namespace Cuboid3D
variable {T : Type} [LinearOrderedField T] [FloorRing T]

/-- Claim C4.  Unique ownership after subdivision, over exact arithmetic with
`delta > 0`: for every parent, every `nX, nY, nZ ≥ 1` and every physical point
`(x, y, z)`, the number of children produced by `divide(nX, nY, nZ)` whose
`checkPoint(x, y, z, 0)` holds is `1` when the parent's `checkPoint(x, y, z, 0)`
holds and `0` otherwise.  So the parent claims the point if and only if exactly
one child does, no point is claimed by two children, and a point outside the
parent is claimed by no child. -/
theorem divide_unique_owner (c : Cuboid3D T) (nX nY nZ : Int) (hδ : 0 < c.delta)
    (hnX : 1 ≤ nX) (hnY : 1 ≤ nY) (hnZ : 1 ≤ nZ) (x y z : T) :
    (c.checkPoint x y z 0 = true ↔
      (c.divide nX nY nZ []).countP (fun ch => ch.checkPoint x y z 0) = 1) ∧
    (c.divide nX nY nZ []).countP (fun ch => ch.checkPoint x y z 0) ≤ 1 ∧
    (c.checkPoint x y z 0 = false →
      ∀ ch ∈ c.divide nX nY nZ [], ch.checkPoint x y z 0 = false) := by
  have h := countP_checkPoint_divide c nX nY nZ hδ hnX hnY hnZ x y z
  refine ⟨?_, ?_, ?_⟩
  · constructor
    · intro hp; rw [h, if_pos hp]
    · intro h1
      by_contra hp
      rw [h, if_neg hp] at h1
      exact absurd h1 (by decide)
  · rw [h]; split <;> decide
  · intro hp ch hch
    have h0 : (c.divide nX nY nZ []).countP (fun ch => ch.checkPoint x y z 0) = 0 := by
      rw [h, if_neg (by rw [hp]; decide)]
    rw [List.countP_eq_zero] at h0
    simpa using h0 ch hch

end Cuboid3D

open Cuboid3D

/-- Claim C4 at the parent `exampleParent`, split `2 x 2 x 1`, and the point `(2, 1, 0)`. -/
theorem divide_unique_owner_witness :
    (0 : ℚ) < exampleParent.delta ∧
    (exampleParent.checkPoint 2 1 0 0 = true ↔
      (exampleParent.divide 2 2 1 []).countP (fun ch => ch.checkPoint 2 1 0 0) = 1) ∧
    (exampleParent.divide 2 2 1 []).countP (fun ch => ch.checkPoint 2 1 0 0) ≤ 1 ∧
    (exampleParent.checkPoint 2 1 0 0 = false →
      ∀ ch ∈ exampleParent.divide 2 2 1 [], ch.checkPoint 2 1 0 0 = false) :=
  ⟨by norm_num [exampleParent, Cuboid3D.new],
    divide_unique_owner exampleParent 2 2 1 (by norm_num [exampleParent, Cuboid3D.new])
      (by decide) (by decide) (by decide) 2 1 0⟩

/-- Claim C1 at the parent `exampleParent`, split `2 x 2 x 1`, for the child `(1, 0, 0)`. -/
theorem divide_child_extents_witness :
    (0 : Int) ≤ exampleParent.nX ∧ (0 : Int) ≤ exampleParent.nY ∧ (0 : Int) ≤ exampleParent.nZ ∧
    (1 : Int) ≤ 2 ∧ (1 : Int) ≤ 1 ∧
    (∃ ch, childAt (exampleParent.divide 2 2 1 []) ([] : List (Cuboid3D ℚ)).length 2 1 1 0 0 = some ch ∧
        ch.nX = (exampleParent.nX + 2 - ((1 : Nat) : Int) - 1) / 2 ∧
        ch.nY = (exampleParent.nY + 2 - ((0 : Nat) : Int) - 1) / 2 ∧
        ch.nZ = (exampleParent.nZ + 1 - ((0 : Nat) : Int) - 1) / 1) :=
  ⟨by decide, by decide, by decide, by decide, by decide,
    (divide_child_extents exampleParent 2 2 1 [] (by decide) (by decide) (by decide)
      (by decide) (by decide) (by decide)).1 1 0 0 (by decide) (by decide) (by decide)⟩

end olb

namespace olb

theorem forLoop_spec {σ : Type} (I : σ → Prop) (cond : Int → Bool)
    (body : Int → σ → Option σ) :
    ∀ (fuel : Nat) (i : Int) (s : σ), I s →
      (∃ k : Nat, k < fuel ∧ cond (i + k) = false) →
      (∀ (j : Int) (t : σ), i ≤ j → cond j = true → I t → ∃ t1, body j t = some t1 ∧ I t1) →
      ∃ r, forLoop fuel cond body i s = some r ∧ I r := by
  intro fuel
  induction fuel with
  | zero => intro i s _ ⟨k, hk, _⟩ _; omega
  | succ f ih =>
    intro i s hI ⟨k, hk, hcond⟩ hbody
    unfold forLoop
    by_cases hc : cond i = true
    · rw [if_pos hc]
      obtain ⟨s1, hs1, hI1⟩ := hbody i s (le_refl _) hc hI
      rw [hs1]
      show ∃ r, forLoop f cond body (i + 1) s1 = some r ∧ I r
      have hk0 : k ≠ 0 := by
        intro h0
        rw [h0] at hcond
        simp only [Nat.cast_zero, add_zero] at hcond
        rw [hc] at hcond
        exact absurd hcond (by decide)
      obtain ⟨k1, rfl⟩ := Nat.exists_eq_succ_of_ne_zero hk0
      apply ih (i + 1) s1 hI1
      · refine ⟨k1, by omega, ?_⟩
        have : i + 1 + (k1 : Int) = i + ((k1 + 1 : Nat) : Int) := by push_cast; ring
        rw [this]; exact hcond
      · intro j t hj hcj hIt
        exact hbody j t (by omega) hcj hIt
    · rw [if_neg hc]
      exact ⟨s, rfl, hI⟩

namespace Cuboid3D
variable {T : Type} [LinearOrderedField T] [FloorRing T]


theorem divideSearch_spec {R : Type} (ratio : Int → Int → Int → R) (less : R → R → Bool)
    (c : Cuboid3D T) (p : Int) (hp : 1 ≤ p) :
    ∃ s, divideSearch ratio less c p = some s ∧ SearchInv p s := by
  unfold divideSearch
  apply forLoop_spec (SearchInv p)
  · exact ⟨le_refl _, le_refl _, hp, by simp⟩
  · refine ⟨p.toNat, by omega, ?_⟩
    have : (1 : Int) + (p.toNat : Int) = p + 1 := by omega
    rw [this]
    simp
  · intro iX s1 hiX hcX hI1
    have hXp : iX ≤ p := by simpa using hcX
    apply forLoop_spec (SearchInv p)
    · exact hI1
    · refine ⟨p.toNat, by omega, ?_⟩
      have h1 : (1 : Int) + (p.toNat : Int) = p + 1 := by omega
      rw [h1]
      have : p < (p + 1) * iX := by nlinarith
      simpa using this
    · intro iY s2 hiY hcY hI2
      have hYp : iY * iX ≤ p := by simpa using hcY
      have hprod : 1 ≤ iX * iY := by nlinarith
      have hq : p.tdiv (iX * iY) = p / (iX * iY) := Int.tdiv_eq_ediv (by omega) (by omega)
      have hq1 : 1 ≤ p / (iX * iY) := by
        have := Int.ediv_le_ediv (a := iX * iY) (b := p) (c := iX * iY) (by omega)
          (by rw [mul_comm]; exact hYp)
        rwa [Int.ediv_self (by omega)] at this
      apply forLoop_spec (SearchInv p)
      · exact hI2
      · refine ⟨1, by omega, ?_⟩
        rw [hq]
        have hlt : p < (p / (iX * iY) + 1) * (iX * iY) := by
          have h1 := Int.emod_add_ediv p (iX * iY)
          have h2 := Int.emod_lt_of_pos p (show 0 < iX * iY by omega)
          nlinarith
        have : ¬ ((p / (iX * iY) + 1) * iY * iX ≤ p) := by
          intro h; nlinarith
        simpa using this
      · intro iZ s3 hiZ hcZ hI3
        refine ⟨_, rfl, ?_⟩
        have hZp : iZ * iY * iX ≤ p := by simpa using hcZ
        unfold divideSearchStep
        by_cases h1 : (iX + 1) * iY * iZ > p ∧ iX * (iY + 1) * iZ > p
        · rw [if_pos h1]
          by_cases h2 : less (ratio (c.nX.tdiv iX) (c.nY.tdiv iY) (c.nZ.tdiv iZ)) s3.bestRatio
              = true
          · simp only [h2, if_true]
            have hZ1 : 1 ≤ iZ := by omega
            refine ⟨hiX, hiY, hZ1, ?_⟩
            show iX * iY * iZ ≤ p
            nlinarith
          · simp only [h2]
            exact hI3
        · rw [if_neg h1]
          exact hI3

end Cuboid3D
end olb

namespace olb
namespace Cuboid3D
variable {T : Type} [LinearOrderedField T] [FloorRing T]



theorem getLatticeVolume_eq_int (c : Cuboid3D T) :
    c.getLatticeVolume = toSizeT (latticeVolumeInt c) :=
  getLatticeVolume_eq c

theorem sizeSum_volume_of_int (c : Cuboid3D T) (children : List (Cuboid3D T))
    (hsum : (children.map latticeVolumeInt).sum = c.nY * c.nX * c.nZ) :
    sizeSum (children.map getLatticeVolume) = c.getLatticeVolume := by
  have hmap : children.map getLatticeVolume = (children.map latticeVolumeInt).map toSizeT := by
    rw [List.map_map]
    apply List.map_congr_left
    intro ch _
    exact getLatticeVolume_eq ch
  rw [sizeSum_eq, hmap, sum_toSizeT_mod, hsum, getLatticeVolume_eq]

theorem sum_volume_of_int (c : Cuboid3D T) (children : List (Cuboid3D T))
    (hsum : (children.map latticeVolumeInt).sum = c.nY * c.nX * c.nZ)
    (hnn : ∀ ch ∈ children, 0 ≤ latticeVolumeInt ch)
    (hlt : c.nX * c.nY * c.nZ < 2 ^ 64) :
    (children.map getLatticeVolume).sum = c.getLatticeVolume := by
  have hmap : children.map getLatticeVolume = (children.map latticeVolumeInt).map toSizeT := by
    rw [List.map_map]
    apply List.map_congr_left
    intro ch _
    exact getLatticeVolume_eq ch
  have hnn1 : ∀ v ∈ children.map latticeVolumeInt, 0 ≤ v := by
    intro v hv
    obtain ⟨ch, hch, rfl⟩ := List.mem_map.1 hv
    exact hnn ch hch
  rw [hmap, sum_toSizeT_exact _ hnn1 (by rw [hsum]; linarith), hsum, getLatticeVolume_eq]

theorem foldl_push {α β : Type} (F : α → β) (hl : List α) (acc : List β) :
    hl.foldl (fun acc h => acc ++ [F h]) acc = acc ++ hl.map F := by
  induction hl generalizing acc with
  | nil => simp
  | cons h t ih => simp [ih]

theorem slabsY_eq (c : Cuboid3D T) (hl : List (Cuboid2D T)) (total m : Int) (g : T)
    (out : List (Cuboid3D T)) :
    slabsY c hl total m (g, out)
      = (g + c.delta * (childOffset total m m.toNat : T),
         out ++ (List.range m.toNat).flatMap (fun iY => hl.map (fun h =>
           Cuboid3D.new h.globPosX (g + c.delta * (childOffset total m iY : T)) h.globPosY
             c.delta h.nX (childExtent total m iY) h.nY))) := by
  unfold slabsY forRange
  generalize m.toNat = k
  induction k with
  | zero => simp [childOffset_zero]
  | succ k ih =>
    rw [List.range_succ, List.foldl_append, ih]
    simp only [List.foldl_cons, List.foldl_nil, foldl_push, List.flatMap_append,
      List.flatMap_cons, List.flatMap_nil, List.append_nil, List.append_assoc,
      childOffset_succ]
    congr 1
    simp only [childExtent]
    push_cast; ring

theorem slabsX_eq (c : Cuboid3D T) (hl : List (Cuboid2D T)) (total m : Int) (g : T)
    (out : List (Cuboid3D T)) :
    slabsX c hl total m (g, out)
      = (g + c.delta * (childOffset total m m.toNat : T),
         out ++ (List.range m.toNat).flatMap (fun iX => hl.map (fun h =>
           Cuboid3D.new (g + c.delta * (childOffset total m iX : T)) h.globPosY h.globPosX
             c.delta (childExtent total m iX) h.nY h.nX))) := by
  unfold slabsX forRange
  generalize m.toNat = k
  induction k with
  | zero => simp [childOffset_zero]
  | succ k ih =>
    rw [List.range_succ, List.foldl_append, ih]
    simp only [List.foldl_cons, List.foldl_nil, foldl_push, List.flatMap_append,
      List.flatMap_cons, List.flatMap_nil, List.append_nil, List.append_assoc,
      childOffset_succ]
    congr 1
    simp only [childExtent]
    push_cast; ring

theorem slabs_facts {α : Type} (F : Nat → α → Cuboid3D T) (e : Nat → Int) (a : α → Int)
    (hF : ∀ i h, latticeVolumeInt (F i h) = e i * a h) (k : Nat) (hl : List α) :
    ((List.range k).flatMap (fun i => hl.map (F i))).length = k * hl.length ∧
    (((List.range k).flatMap (fun i => hl.map (F i))).map latticeVolumeInt).sum
      = ((List.range k).map e).sum * (hl.map a).sum := by
  induction k with
  | zero => simp
  | succ k ih =>
    obtain ⟨ih1, ih2⟩ := ih
    rw [List.range_succ, List.flatMap_append, List.length_append, List.map_append,
      List.sum_append, ih1, ih2]
    constructor
    · simp [Nat.succ_mul]
    · simp only [List.flatMap_cons, List.flatMap_nil, List.append_nil, List.map_map,
        List.map_append, List.map_cons, List.map_nil, List.sum_append, List.sum_cons,
        List.sum_nil, add_zero, Function.comp_def, hF, List.sum_map_mul_left]
      ring

end Cuboid3D
end olb

namespace olb
namespace Cuboid3D
variable {T : Type} [LinearOrderedField T] [FloorRing T]

theorem slabs_nonneg {α : Type} (F : Nat → α → Cuboid3D T) (e : Nat → Int) (a : α → Int)
    (hF : ∀ i h, latticeVolumeInt (F i h) = e i * a h) (k : Nat) (hl : List α)
    (he : ∀ i, i < k → 0 ≤ e i) (ha : ∀ h ∈ hl, 0 ≤ a h) :
    ∀ ch ∈ (List.range k).flatMap (fun i => hl.map (F i)), 0 ≤ latticeVolumeInt ch := by
  intro ch hch
  simp only [List.mem_flatMap, List.mem_map, List.mem_range] at hch
  obtain ⟨i, hi, h, hh, rfl⟩ := hch
  rw [hF]
  exact mul_nonneg (he i hi) (ha h hh)

theorem slabY_list_facts (c : Cuboid3D T) (hl : List (Cuboid2D T)) (k A : Int)
    (hlen : (hl.length : Int) = k) (hnn : ∀ h ∈ hl, 0 ≤ h.nX ∧ 0 ≤ h.nY)
    (harea : (hl.map (fun h => h.nX * h.nY)).sum = A)
    (total m : Int) (ht : 0 ≤ total) (hm : 1 ≤ m) (g : T) :
    ((((List.range m.toNat).flatMap (fun iY => hl.map (fun h =>
        Cuboid3D.new h.globPosX (g + c.delta * (childOffset total m iY : T)) h.globPosY
          c.delta h.nX (childExtent total m iY) h.nY))).length : Nat) : Int) = m * k ∧
    (((List.range m.toNat).flatMap (fun iY => hl.map (fun h =>
        Cuboid3D.new h.globPosX (g + c.delta * (childOffset total m iY : T)) h.globPosY
          c.delta h.nX (childExtent total m iY) h.nY))).map latticeVolumeInt).sum = total * A ∧
    (∀ ch ∈ (List.range m.toNat).flatMap (fun iY => hl.map (fun h =>
        Cuboid3D.new h.globPosX (g + c.delta * (childOffset total m iY : T)) h.globPosY
          c.delta h.nX (childExtent total m iY) h.nY)), 0 ≤ latticeVolumeInt ch) := by
  have hF : ∀ (i : Nat) (h : Cuboid2D T), latticeVolumeInt
      (Cuboid3D.new h.globPosX (g + c.delta * (childOffset total m i : T)) h.globPosY
          c.delta h.nX (childExtent total m i) h.nY)
      = (fun j : Nat => childExtent total m (j : Int)) i * (fun h => h.nX * h.nY) h := by
    intro i h
    simp only [latticeVolumeInt, Cuboid3D.new]
    ring
  obtain ⟨h1, h2⟩ := slabs_facts _ _ _ hF m.toNat hl
  refine ⟨?_, ?_, ?_⟩
  · rw [h1]; push_cast; rw [hlen, Int.toNat_of_nonneg (by omega)]
  · rw [h2, harea]
    have := childOffset_total total m ht hm
    unfold childOffset at this
    rw [this]
  · apply slabs_nonneg _ _ _ hF
    · intro i hi
      exact childExtent_nonneg total m i ht hm (by omega) (by omega)
    · intro h hh
      exact mul_nonneg (hnn h hh).1 (hnn h hh).2

theorem slabX_list_facts (c : Cuboid3D T) (hl : List (Cuboid2D T)) (k A : Int)
    (hlen : (hl.length : Int) = k) (hnn : ∀ h ∈ hl, 0 ≤ h.nX ∧ 0 ≤ h.nY)
    (harea : (hl.map (fun h => h.nX * h.nY)).sum = A)
    (total m : Int) (ht : 0 ≤ total) (hm : 1 ≤ m) (g : T) :
    ((((List.range m.toNat).flatMap (fun iX => hl.map (fun h =>
        Cuboid3D.new (g + c.delta * (childOffset total m iX : T)) h.globPosY h.globPosX
          c.delta (childExtent total m iX) h.nY h.nX))).length : Nat) : Int) = m * k ∧
    (((List.range m.toNat).flatMap (fun iX => hl.map (fun h =>
        Cuboid3D.new (g + c.delta * (childOffset total m iX : T)) h.globPosY h.globPosX
          c.delta (childExtent total m iX) h.nY h.nX))).map latticeVolumeInt).sum = total * A ∧
    (∀ ch ∈ (List.range m.toNat).flatMap (fun iX => hl.map (fun h =>
        Cuboid3D.new (g + c.delta * (childOffset total m iX : T)) h.globPosY h.globPosX
          c.delta (childExtent total m iX) h.nY h.nX)), 0 ≤ latticeVolumeInt ch) := by
  have hF : ∀ (i : Nat) (h : Cuboid2D T), latticeVolumeInt
      (Cuboid3D.new (g + c.delta * (childOffset total m i : T)) h.globPosY h.globPosX
          c.delta (childExtent total m i) h.nY h.nX)
      = (fun j : Nat => childExtent total m (j : Int)) i * (fun h => h.nX * h.nY) h := by
    intro i h
    simp only [latticeVolumeInt, Cuboid3D.new]
    ring
  obtain ⟨h1, h2⟩ := slabs_facts _ _ _ hF m.toNat hl
  refine ⟨?_, ?_, ?_⟩
  · rw [h1]; push_cast; rw [hlen, Int.toNat_of_nonneg (by omega)]
  · rw [h2, harea]
    have := childOffset_total total m ht hm
    unfold childOffset at this
    rw [this]
  · apply slabs_nonneg _ _ _ hF
    · intro i hi
      exact childExtent_nonneg total m i ht hm (by omega) (by omega)
    · intro h hh
      exact mul_nonneg (hnn h hh).1 (hnn h hh).2

theorem truncToInt_split_bounds (n kr p : Int) (hn : 0 ≤ n) (hkr0 : 0 ≤ kr) (hkr : kr ≤ p)
    (hp : 1 ≤ p) :
    0 ≤ truncToInt ((n : T) * (kr : T) / (p : T)) ∧
    truncToInt ((n : T) * (kr : T) / (p : T)) ≤ n := by
  have hpT : (0 : T) < (p : T) := by exact_mod_cast (show (0 : Int) < p by omega)
  have hnT : (0 : T) ≤ (n : T) := by exact_mod_cast hn
  have hk0T : (0 : T) ≤ (kr : T) := by exact_mod_cast hkr0
  have hkT : (kr : T) ≤ (p : T) := by exact_mod_cast hkr
  have hx0 : (0 : T) ≤ (n : T) * (kr : T) / (p : T) :=
    div_nonneg (mul_nonneg hnT hk0T) hpT.le
  have hx1 : (n : T) * (kr : T) / (p : T) ≤ (n : T) := by
    rw [div_le_iff₀ hpT]
    exact mul_le_mul_of_nonneg_left hkT hnT
  unfold truncToInt
  rw [if_pos hx0]
  constructor
  · exact Int.floor_nonneg.2 hx0
  · have h := Int.floor_le ((n : T) * (kr : T) / (p : T))
    have h2 : ((⌊(n : T) * (kr : T) / (p : T)⌋ : Int) : T) ≤ (n : T) := le_trans h hx1
    exact_mod_cast h2

end Cuboid3D
end olb

namespace olb
namespace Cuboid3D
variable {T : Type} [LinearOrderedField T] [FloorRing T]


theorem remainderY_two (helper : T → T → T → Int → Int → Int → List (Cuboid2D T))
    (hhelp : HelperTiles helper) (c : Cuboid3D T) (p bx by1 bz : Int)
    (out : List (Cuboid3D T))
    (hNX : 0 ≤ c.nX) (hNY : 0 ≤ c.nY) (hNZ : 0 ≤ c.nZ)
    (hbx : 1 ≤ bx) (hby : 1 ≤ by1) (hbz : 1 ≤ bz) (hle : bx * by1 * bz ≤ p)
    (hr : (p - bx * by1 * bz).tmod by1 = 0) :
    DivideResult c p out
      (slabsY c (helper c.globPosX c.globPosZ c.delta c.nX c.nZ
        (bx * bz + (p - bx * by1 * bz).tdiv by1)) c.nY by1 (c.globPosY, out)).2 := by
  have hrest : 0 ≤ p - bx * by1 * bz := by omega
  rw [Int.tmod_eq_emod hrest (by omega)] at hr
  rw [Int.tdiv_eq_ediv hrest (by omega)]
  have hq : 0 ≤ (p - bx * by1 * bz) / by1 := Int.ediv_nonneg hrest (by omega)
  have hdec := Int.emod_add_ediv (p - bx * by1 * bz) by1
  have hxz : 1 ≤ bx * bz := by nlinarith
  obtain ⟨hlen, hnn, harea⟩ := hhelp c.globPosX c.globPosZ c.delta c.nX c.nZ
    (bx * bz + (p - bx * by1 * bz) / by1) hNX hNZ (by omega)
  obtain ⟨f1, f2, f3⟩ := slabY_list_facts c _ _ _ hlen hnn harea c.nY by1 hNY hby c.globPosY
  rw [slabsY_eq]
  refine ⟨_, rfl, ?_, ?_, f3⟩
  · rw [f1]
    rw [hr] at hdec
    linear_combination hdec
  · rw [f2]; ring

theorem remainderY_four (helper : T → T → T → Int → Int → Int → List (Cuboid2D T))
    (hhelp : HelperTiles helper) (c : Cuboid3D T) (p bx by1 bz : Int)
    (out : List (Cuboid3D T))
    (hp : 1 ≤ p) (hNX : 0 ≤ c.nX) (hNY : 0 ≤ c.nY) (hNZ : 0 ≤ c.nZ)
    (hbx : 1 ≤ bx) (hby : 1 ≤ by1) (hbz : 1 ≤ bz) (hle : bx * by1 * bz ≤ p)
    (hr : ¬ (p - bx * by1 * bz).tmod by1 = 0) :
    DivideResult c p out
      (slabsY c (helper c.globPosX c.globPosZ c.delta c.nX c.nZ
          (bx * bz + (p - bx * by1 * bz).tdiv by1))
        (c.nY - truncToInt ((c.nY : T)
          * (((bx * bz + ((p - bx * by1 * bz).tdiv by1 + 1)) * (p - bx * by1 * bz).tmod by1 : Int) : T)
          / (p : T)))
        (by1 - (p - bx * by1 * bz).tmod by1)
        (slabsY c (helper c.globPosX c.globPosZ c.delta c.nX c.nZ
            (bx * bz + ((p - bx * by1 * bz).tdiv by1 + 1)))
          (truncToInt ((c.nY : T)
            * (((bx * bz + ((p - bx * by1 * bz).tdiv by1 + 1)) * (p - bx * by1 * bz).tmod by1 : Int) : T)
            / (p : T)))
          ((p - bx * by1 * bz).tmod by1) (c.globPosY, out))).2 := by
  have hrest : 0 ≤ p - bx * by1 * bz := by omega
  rw [Int.tmod_eq_emod hrest (by omega)] at hr
  rw [Int.tmod_eq_emod hrest (by omega), Int.tdiv_eq_ediv hrest (by omega)]
  have hq : 0 ≤ (p - bx * by1 * bz) / by1 := Int.ediv_nonneg hrest (by omega)
  have hdec := Int.emod_add_ediv (p - bx * by1 * bz) by1
  have hr0 : 0 ≤ (p - bx * by1 * bz) % by1 := Int.emod_nonneg _ (by omega)
  have hr1 : (p - bx * by1 * bz) % by1 < by1 := Int.emod_lt_of_pos _ (by omega)
  have hxz : 1 ≤ bx * bz := by nlinarith
  generalize hqdef : (p - bx * by1 * bz) / by1 = q at *
  generalize hrdef : (p - bx * by1 * bz) % by1 = r at *
  have hkr0 : 0 ≤ (bx * bz + (q + 1)) * r := by positivity
  have hkr : (bx * bz + (q + 1)) * r ≤ p := by nlinarith
  obtain ⟨hs0, hs1⟩ := truncToInt_split_bounds (T := T) c.nY ((bx * bz + (q + 1)) * r) p hNY
    hkr0 hkr hp
  generalize truncToInt ((c.nY : T) * (((bx * bz + (q + 1)) * r : Int) : T) / (p : T)) = sp at *
  obtain ⟨hlen0, hnn0, harea0⟩ := hhelp c.globPosX c.globPosZ c.delta c.nX c.nZ
    (bx * bz + (q + 1)) hNX hNZ (by omega)
  obtain ⟨hlen1, hnn1, harea1⟩ := hhelp c.globPosX c.globPosZ c.delta c.nX c.nZ
    (bx * bz + q) hNX hNZ (by omega)
  rw [slabsY_eq, slabsY_eq]
  obtain ⟨f1, f2, f3⟩ := slabY_list_facts c _ _ _ hlen0 hnn0 harea0 sp r hs0 (by omega) c.globPosY
  obtain ⟨g1, g2, g3⟩ := slabY_list_facts c _ _ _ hlen1 hnn1 harea1 (c.nY - sp) (by1 - r)
    (by omega) (by omega) (c.globPosY + c.delta * (childOffset sp r r.toNat : T))
  refine ⟨_, List.append_assoc _ _ _, ?_, ?_, ?_⟩
  · rw [List.length_append]
    push_cast
    rw [f1, g1]
    linear_combination hdec
  · rw [List.map_append, List.sum_append, f2, g2]; ring
  · intro ch hch
    rcases List.mem_append.1 hch with h | h
    · exact f3 ch h
    · exact g3 ch h

end Cuboid3D
end olb

namespace olb
namespace Cuboid3D
variable {T : Type} [LinearOrderedField T] [FloorRing T]

theorem remainderX_two (helper : T → T → T → Int → Int → Int → List (Cuboid2D T))
    (hhelp : HelperTiles helper) (c : Cuboid3D T) (p bx by1 bz : Int)
    (out : List (Cuboid3D T))
    (hNX : 0 ≤ c.nX) (hNY : 0 ≤ c.nY) (hNZ : 0 ≤ c.nZ)
    (hbx : 1 ≤ bx) (hby : 1 ≤ by1) (hbz : 1 ≤ bz) (hle : bx * by1 * bz ≤ p)
    (hr : (p - bx * by1 * bz).tmod bx = 0) :
    DivideResult c p out
      (slabsX c (helper c.globPosZ c.globPosY c.delta c.nZ c.nY
        (bz * by1 + (p - bx * by1 * bz).tdiv bx)) c.nX bx (c.globPosX, out)).2 := by
  have hrest : 0 ≤ p - bx * by1 * bz := by omega
  rw [Int.tmod_eq_emod hrest (by omega)] at hr
  rw [Int.tdiv_eq_ediv hrest (by omega)]
  have hq : 0 ≤ (p - bx * by1 * bz) / bx := Int.ediv_nonneg hrest (by omega)
  have hdec := Int.emod_add_ediv (p - bx * by1 * bz) bx
  have hzy : 1 ≤ bz * by1 := by nlinarith
  obtain ⟨hlen, hnn, harea⟩ := hhelp c.globPosZ c.globPosY c.delta c.nZ c.nY
    (bz * by1 + (p - bx * by1 * bz) / bx) hNZ hNY (by omega)
  obtain ⟨f1, f2, f3⟩ := slabX_list_facts c _ _ _ hlen hnn harea c.nX bx hNX hbx c.globPosX
  rw [slabsX_eq]
  refine ⟨_, rfl, ?_, ?_, f3⟩
  · rw [f1]
    rw [hr] at hdec
    linear_combination hdec
  · rw [f2]; ring

theorem remainderX_four (helper : T → T → T → Int → Int → Int → List (Cuboid2D T))
    (hhelp : HelperTiles helper) (c : Cuboid3D T) (p bx by1 bz : Int)
    (out : List (Cuboid3D T))
    (hp : 1 ≤ p) (hNX : 0 ≤ c.nX) (hNY : 0 ≤ c.nY) (hNZ : 0 ≤ c.nZ)
    (hbx : 1 ≤ bx) (hby : 1 ≤ by1) (hbz : 1 ≤ bz) (hle : bx * by1 * bz ≤ p)
    (hr : ¬ (p - bx * by1 * bz).tmod bx = 0) :
    DivideResult c p out
      (slabsX c (helper c.globPosZ c.globPosY c.delta c.nZ c.nY
          (bz * by1 + (p - bx * by1 * bz).tdiv bx))
        (c.nX - truncToInt ((c.nX : T)
          * (((bz * by1 + ((p - bx * by1 * bz).tdiv bx + 1)) * (p - bx * by1 * bz).tmod bx : Int) : T)
          / (p : T)))
        (bx - (p - bx * by1 * bz).tmod bx)
        (slabsX c (helper c.globPosZ c.globPosY c.delta c.nZ c.nY
            (bz * by1 + ((p - bx * by1 * bz).tdiv bx + 1)))
          (truncToInt ((c.nX : T)
            * (((bz * by1 + ((p - bx * by1 * bz).tdiv bx + 1)) * (p - bx * by1 * bz).tmod bx : Int) : T)
            / (p : T)))
          ((p - bx * by1 * bz).tmod bx) (c.globPosX, out))).2 := by
  have hrest : 0 ≤ p - bx * by1 * bz := by omega
  rw [Int.tmod_eq_emod hrest (by omega)] at hr
  rw [Int.tmod_eq_emod hrest (by omega), Int.tdiv_eq_ediv hrest (by omega)]
  have hq : 0 ≤ (p - bx * by1 * bz) / bx := Int.ediv_nonneg hrest (by omega)
  have hdec := Int.emod_add_ediv (p - bx * by1 * bz) bx
  have hr0 : 0 ≤ (p - bx * by1 * bz) % bx := Int.emod_nonneg _ (by omega)
  have hr1 : (p - bx * by1 * bz) % bx < bx := Int.emod_lt_of_pos _ (by omega)
  have hzy : 1 ≤ bz * by1 := by nlinarith
  generalize hqdef : (p - bx * by1 * bz) / bx = q at *
  generalize hrdef : (p - bx * by1 * bz) % bx = r at *
  have hkr0 : 0 ≤ (bz * by1 + (q + 1)) * r := by positivity
  have hkr : (bz * by1 + (q + 1)) * r ≤ p := by nlinarith
  obtain ⟨hs0, hs1⟩ := truncToInt_split_bounds (T := T) c.nX ((bz * by1 + (q + 1)) * r) p hNX
    hkr0 hkr hp
  generalize truncToInt ((c.nX : T) * (((bz * by1 + (q + 1)) * r : Int) : T) / (p : T)) = sp at *
  obtain ⟨hlen0, hnn0, harea0⟩ := hhelp c.globPosZ c.globPosY c.delta c.nZ c.nY
    (bz * by1 + (q + 1)) hNZ hNY (by omega)
  obtain ⟨hlen1, hnn1, harea1⟩ := hhelp c.globPosZ c.globPosY c.delta c.nZ c.nY
    (bz * by1 + q) hNZ hNY (by omega)
  rw [slabsX_eq, slabsX_eq]
  obtain ⟨f1, f2, f3⟩ := slabX_list_facts c _ _ _ hlen0 hnn0 harea0 sp r hs0 (by omega) c.globPosX
  obtain ⟨g1, g2, g3⟩ := slabX_list_facts c _ _ _ hlen1 hnn1 harea1 (c.nX - sp) (bx - r)
    (by omega) (by omega) (c.globPosX + c.delta * (childOffset sp r r.toNat : T))
  refine ⟨_, List.append_assoc _ _ _, ?_, ?_, ?_⟩
  · rw [List.length_append]
    push_cast
    rw [f1, g1]
    linear_combination hdec
  · rw [List.map_append, List.sum_append, f2, g2]; ring
  · intro ch hch
    rcases List.mem_append.1 hch with h | h
    · exact f3 ch h
    · exact g3 ch h

theorem remainder_zero (c : Cuboid3D T) (p bx by1 bz : Int) (out : List (Cuboid3D T))
    (hNX : 0 ≤ c.nX) (hNY : 0 ≤ c.nY) (hNZ : 0 ≤ c.nZ)
    (hbx : 1 ≤ bx) (hby : 1 ≤ by1) (hbz : 1 ≤ bz) (hr : p - bx * by1 * bz = 0) :
    DivideResult c p out (c.divide bx by1 bz out) := by
  refine ⟨divideChildren c bx by1 bz, divide_eq c bx by1 bz hby hbz out, ?_, ?_, ?_⟩
  · rw [length_divideChildren]
    push_cast
    rw [Int.toNat_of_nonneg (by omega), Int.toNat_of_nonneg (by omega),
      Int.toNat_of_nonneg (by omega)]
    linear_combination -hr
  · have h := sum_volume_divideChildren c bx by1 bz
    rw [childOffset_total _ _ hNX hbx, childOffset_total _ _ hNY hby,
      childOffset_total _ _ hNZ hbz] at h
    exact h
  · intro ch hch
    exact mem_divideChildren_nonneg c bx by1 bz hNX hNY hNZ hbx hby hbz _
      (List.mem_map_of_mem _ hch)

theorem divideRemainder_spec {R : Type}
    (helper : T → T → T → Int → Int → Int → List (Cuboid2D T))
    (hhelp : HelperTiles helper) (c : Cuboid3D T) (p : Int) (s : DivideSearch R)
    (out : List (Cuboid3D T)) (hp : 1 ≤ p)
    (hNX : 0 ≤ c.nX) (hNY : 0 ≤ c.nY) (hNZ : 0 ≤ c.nZ) (hI : SearchInv p s) :
    DivideResult c p out (divideRemainder helper c p s out) := by
  obtain ⟨hbx, hby, hbz, hle⟩ := hI
  simp only [divideRemainder]
  split_ifs with h0 h1 h2 h3 h4 h5
  · exact remainder_zero c p _ _ _ out hNX hNY hNZ hbx hby hbz h0
  · exact remainderY_two helper hhelp c p _ _ _ out hNX hNY hNZ hbx hby hbz hle h2
  · exact remainderY_four helper hhelp c p _ _ _ out hp hNX hNY hNZ hbx hby hbz hle h2
  · exact remainderY_two helper hhelp c p _ _ _ out hNX hNY hNZ hbx hby hbz hle h4
  · exact remainderY_four helper hhelp c p _ _ _ out hp hNX hNY hNZ hbx hby hbz hle h4
  · exact remainderX_two helper hhelp c p _ _ _ out hNX hNY hNZ hbx hby hbz hle h5
  · exact remainderX_four helper hhelp c p _ _ _ out hp hNX hNY hNZ hbx hby hbz hle h5

end Cuboid3D
end olb

namespace olb
namespace Cuboid3D
variable {T : Type} [LinearOrderedField T] [FloorRing T]


theorem stripHelper_tiles : HelperTiles (stripHelper (T := T)) := by
  intro x y d n0 n1 k hn0 hn1 hk
  refine ⟨?_, ?_, ?_⟩
  · simp only [stripHelper, List.length_map, List.length_range]
    exact Int.toNat_of_nonneg (by omega)
  · intro h hh
    simp only [stripHelper, List.mem_map, List.mem_range] at hh
    obtain ⟨i, hi, rfl⟩ := hh
    exact ⟨childExtent_nonneg n0 k i hn0 hk (by omega) (by omega), hn1⟩
  · simp only [stripHelper, List.map_map, Function.comp_def, List.sum_map_mul_right]
    have := childOffset_total n0 k hn0 hk
    unfold childOffset at this
    rw [this]

/-- Claim C5.  `divide(p, out)` for `p ≥ 1` on a parent with extents `≥ 0`, for
every way of computing and comparing the symmetry ratio (so whichever
factorisation the search selects) and in every remainder branch: the call
returns, the entries of `out` stay in front, exactly `p` children are appended,
and their lattice volumes add up to the parent's `getLatticeVolume()` (in
`size_t`, and exactly when the parent volume fits in `size_t`).  The hypothesis
`HelperTiles` is that the 2D helper decomposition yields `k` cuboids of total
area `n0*n1`. -/
theorem divideP_count_and_volume {R : Type}
    (helper : T → T → T → Int → Int → Int → List (Cuboid2D T))
    (ratio : Int → Int → Int → R) (less : R → R → Bool)
    (c : Cuboid3D T) (p : Int) (out : List (Cuboid3D T))
    (hp : 1 ≤ p) (hNX : 0 ≤ c.nX) (hNY : 0 ≤ c.nY) (hNZ : 0 ≤ c.nZ)
    (hhelp : HelperTiles helper) :
    ∃ children : List (Cuboid3D T),
      c.divideP helper ratio less p out = some (out ++ children) ∧
      (children.length : Int) = p ∧
      sizeSum (children.map getLatticeVolume) = c.getLatticeVolume ∧
      (c.nX * c.nY * c.nZ < 2 ^ 64 →
        (children.map getLatticeVolume).sum = c.getLatticeVolume) := by
  obtain ⟨s, hs, hI⟩ := divideSearch_spec ratio less c p hp
  obtain ⟨children, hres, hlen, hsum, hnn⟩ :=
    divideRemainder_spec helper hhelp c p s out hp hNX hNY hNZ hI
  refine ⟨children, ?_, hlen, sizeSum_volume_of_int c children hsum,
    sum_volume_of_int c children hsum hnn⟩
  unfold divideP
  rw [if_pos (by omega), hs, Option.map_some', hres]

end Cuboid3D

open Cuboid3D

/-- Claim C5 at the `75 x 50 x 1` domain with `p = 7`; the parent has `3750` cells. -/
theorem divideP_count_and_volume_witness :
    (1 : Int) ≤ 7 ∧ 0 ≤ exampleDomain.nX ∧ 0 ≤ exampleDomain.nY ∧ 0 ≤ exampleDomain.nZ ∧
    HelperTiles (stripHelper (T := ℚ)) ∧
    exampleDomain.getLatticeVolume = 3750 ∧
    ∃ children : List (Cuboid3D ℚ),
      exampleDomain.divideP stripHelper (symmetryRatio (T := ℚ)) (fun a b => decide (a < b)) 7 []
        = some ([] ++ children) ∧
      (children.length : Int) = 7 ∧
      sizeSum (children.map getLatticeVolume) = exampleDomain.getLatticeVolume ∧
      (exampleDomain.nX * exampleDomain.nY * exampleDomain.nZ < 2 ^ 64 →
        (children.map getLatticeVolume).sum = exampleDomain.getLatticeVolume) :=
  ⟨by decide, by decide, by decide, by decide, stripHelper_tiles, by decide,
    divideP_count_and_volume stripHelper symmetryRatio (fun a b => decide (a < b))
      exampleDomain 7 [] (by decide) (by decide) (by decide) (by decide) stripHelper_tiles⟩

end olb

namespace olb
namespace Cuboid3D
variable {T : Type} [LinearOrderedField T] [FloorRing T]

theorem fractionWidthsLoop_eq (toInt : T → Int) (len : Int) (fractions : List T) :
    fractionWidthsLoop toInt len fractions
      = (fractions.map (fun f => toInt (f * (len : T))),
         (fractions.map (fun f => toInt (f * (len : T)))).sum) := by
  have h : ∀ (l : List T) (st : List Int × Int),
      l.foldl (fun (st : List Int × Int) (f : T) =>
          (st.1 ++ [toInt (f * (len : T))], st.2 + toInt (f * (len : T)))) st
        = (st.1 ++ l.map (fun f => toInt (f * (len : T))),
           st.2 + (l.map (fun f => toInt (f * (len : T)))).sum) := by
    intro l
    induction l with
    | nil => intro st; simp
    | cons f t ih =>
      intro st
      rw [List.foldl_cons, ih]
      simp [add_assoc]
  unfold fractionWidthsLoop
  rw [h]
  simp

theorem addToBack_spec (widths : List Int) (v : Int) (hne : widths ≠ []) :
    ∃ ws, addToBack widths v = some ws ∧ ws.length = widths.length ∧
      ws.sum = widths.sum + v := by
  obtain ⟨front, w, rfl⟩ : ∃ front w, widths = front ++ [w] :=
    ⟨widths.dropLast, widths.getLast hne, (List.dropLast_append_getLast hne).symm⟩
  refine ⟨front ++ [w + v], ?_, ?_, ?_⟩
  · simp [addToBack]
  · simp
  · simp [List.sum_append]; ring

theorem fractionalChildren_spec (c : Cuboid3D T) (iD : Int)
    (hiD : iD = 0 ∨ iD = 1 ∨ iD = 2) (widths : List Int) (out : List (Cuboid3D T)) :
    ∃ children, fractionalChildren c iD widths out = out ++ children ∧
      children.map (fun ch => ch.getExtent.get iD) = widths := by
  have h : ∀ (ws : List Int) (st : Vector3 T × List (Cuboid3D T)),
      ∃ children, (ws.foldl (fractionalStep c iD) st).2 = st.2 ++ children ∧
        children.map (fun ch => ch.getExtent.get iD) = ws := by
    intro ws
    induction ws with
    | nil => intro st; exact ⟨[], by simp, rfl⟩
    | cons w t ih =>
      intro st
      rw [List.foldl_cons]
      obtain ⟨ch, h1, h2⟩ := ih (fractionalStep c iD st w)
      refine ⟨(fractionalStep c iD st w).2.drop st.2.length ++ ch, ?_, ?_⟩
      · rw [h1, ← List.append_assoc]
        congr 1
        simp [fractionalStep]
      · rw [List.map_append, h2]
        rcases hiD with h | h | h <;> subst h <;>
          simp [fractionalStep, ofVectors, getExtent, Vector3.get, Vector3.ofFn]
  exact h widths (c.getOrigin, out)

theorem addToBack_append (front : List Int) (w v : Int) :
    addToBack (front ++ [w]) v = some (front ++ [w + v]) := by
  simp [addToBack]

theorem dot_base (c : Cuboid3D T) (iD : Int) (hiD : iD = 0 ∨ iD = 1 ∨ iD = 2) :
    c.getExtent.dot (Vector3.ofFn (fun i => if i = iD then 1 else 0)) = c.getExtent.get iD := by
  rcases hiD with h | h | h <;> subst h <;> simp [Vector3.dot, Vector3.ofFn, Vector3.get, getExtent]

/-- Claim C6.  `divideFractional(iD, fractions, out)` for an axis `iD` in
`{0, 1, 2}` and a non-empty list of fractions, for every conversion `toInt` of the
products `f*L` to `int`: the call returns, one child per fraction is appended,
and the extents of the children along axis `iD` add up to the extent `L` of the
parent on that axis; every child but the last has the width `toInt (f*L)` and
the last one receives `L` minus the sum of these widths. -/
theorem divideFractional_extent_sum (toInt : T → Int) (c : Cuboid3D T) (iD : Int)
    (fractions : List T) (out : List (Cuboid3D T))
    (hiD : iD = 0 ∨ iD = 1 ∨ iD = 2) (hne : fractions ≠ []) :
    ∃ children : List (Cuboid3D T),
      divideFractionalWith toInt c iD fractions out = some (out ++ children) ∧
      children.length = fractions.length ∧
      (children.map (fun ch => ch.getExtent.get iD)).sum = c.getExtent.get iD ∧
      children.map (fun ch => ch.getExtent.get iD)
        = fractions.dropLast.map (fun f => toInt (f * ((c.getExtent.get iD : Int) : T)))
          ++ [c.getExtent.get iD
              - (fractions.dropLast.map
                  (fun f => toInt (f * ((c.getExtent.get iD : Int) : T)))).sum] := by
  obtain ⟨fs, fl, rfl⟩ : ∃ fs fl, fractions = fs ++ [fl] :=
    ⟨fractions.dropLast, fractions.getLast hne, (List.dropLast_append_getLast hne).symm⟩
  have hw : (fs.map (fun f => toInt (f * ((c.getExtent.get iD : Int) : T)))
        ++ [toInt (fl * ((c.getExtent.get iD : Int) : T))
            + (c.getExtent.get iD
                - (fs.map (fun f => toInt (f * ((c.getExtent.get iD : Int) : T)))
                    ++ [toInt (fl * ((c.getExtent.get iD : Int) : T))]).sum)])
      = fs.map (fun f => toInt (f * ((c.getExtent.get iD : Int) : T)))
        ++ [c.getExtent.get iD
            - (fs.map (fun f => toInt (f * ((c.getExtent.get iD : Int) : T)))).sum] := by
    congr 2
    simp only [List.map_append, List.sum_append, List.map_cons, List.map_nil, List.sum_cons,
      List.sum_nil]
    ring
  obtain ⟨children, hch, hext⟩ := fractionalChildren_spec c iD hiD
    (fs.map (fun f => toInt (f * ((c.getExtent.get iD : Int) : T)))
        ++ [c.getExtent.get iD
            - (fs.map (fun f => toInt (f * ((c.getExtent.get iD : Int) : T)))).sum]) out
  refine ⟨children, ?_, ?_, ?_, ?_⟩
  · unfold divideFractionalWith
    simp only [dot_base c iD hiD, fractionWidthsLoop_eq]
    rw [List.map_append, List.map_cons, List.map_nil, addToBack_append]
    rw [hw]
    exact congrArg some hch
  · have := congrArg List.length hext
    simpa using this
  · rw [hext, List.sum_append]
    simp
  · rw [hext, List.dropLast_concat]

end Cuboid3D
end olb

namespace olb
namespace Cuboid3D
variable {T : Type} [LinearOrderedField T] [FloorRing T]

theorem floor_roundtrip (g δ : T) (hδ : 0 < δ) (i : Int) :
    ⌊(g + (i : T) * δ - g) / δ + 1 / 2⌋ = i := by
  have h : (g + (i : T) * δ - g) / δ = (i : T) := by
    field_simp
  rw [h, Int.floor_int_add]
  have h2 : ⌊(1 / 2 : T)⌋ = 0 := by
    rw [Int.floor_eq_zero_iff]
    constructor <;> norm_num
  rw [h2, add_zero]

/-- Claim C7.  Round trip of the coordinate maps over exact arithmetic with
`delta > 0`: `getLatticeR(getPhysR(x)) = x` for every integer lattice coordinate
`x`, inside the extent or not. -/
theorem getLatticeR_getPhysR (c : Cuboid3D T) (hδ : 0 < c.delta) (latticeR : Int × Int × Int) :
    c.getLatticeR (c.getPhysR latticeR) = latticeR := by
  obtain ⟨i, j, k⟩ := latticeR
  simp only [getLatticeR, getPhysR, floor_roundtrip _ _ hδ]

theorem half_shift (g δ x : T) (hδ : 0 < δ) :
    (x - g) / δ + 1 / 2 = (x - g + δ / 2) / δ := by
  have hne : δ ≠ 0 := ne_of_gt hδ
  rw [add_div, div_div, mul_comm (2 : T) δ, ← div_div, div_self hne]

theorem lower_test_iff (g δ x : T) (hδ : 0 < δ) (o : Int) :
    g ≤ x + (o : T) * δ + δ / 2 ↔ -o ≤ ⌊(x - g) / δ + 1 / 2⌋ := by
  rw [Int.le_floor, half_shift g δ x hδ, le_div_iff₀ hδ]
  push_cast
  constructor <;> intro h <;> linarith

theorem upper_test_iff (g δ x : T) (hδ : 0 < δ) (n o : Int) :
    g + ((n + o : Int) : T) * δ > x + δ / 2 ↔ ⌊(x - g) / δ + 1 / 2⌋ ≤ n + o - 1 := by
  rw [show (⌊(x - g) / δ + 1 / 2⌋ ≤ n + o - 1) ↔ (⌊(x - g) / δ + 1 / 2⌋ < n + o) by omega,
    Int.floor_lt, half_shift g δ x hδ, div_lt_iff₀ hδ]
  constructor <;> intro h <;> linarith

/-- Claim C8.  `checkPoint(x, y, z, overlap)` over exact arithmetic with
`delta > 0`: it returns true if and only if on each axis the rounded lattice
coordinate `getLatticeR(p)[i]` lies between `-overlap` and `n_i + overlap - 1`,
and equivalently if and only if `p_i` lies in the half-open interval
`[origin_i - (overlap+1/2)*delta, origin_i + (n_i+overlap-1/2)*delta)`. -/
theorem checkPoint_iff_lattice (c : Cuboid3D T) (hδ : 0 < c.delta) (x y z : T) (overlap : Int) :
    (c.checkPoint x y z overlap = true ↔
      (-overlap ≤ (c.getLatticeR (x, y, z)).1 ∧
        (c.getLatticeR (x, y, z)).1 ≤ c.nX + overlap - 1) ∧
      (-overlap ≤ (c.getLatticeR (x, y, z)).2.1 ∧
        (c.getLatticeR (x, y, z)).2.1 ≤ c.nY + overlap - 1) ∧
      (-overlap ≤ (c.getLatticeR (x, y, z)).2.2 ∧
        (c.getLatticeR (x, y, z)).2.2 ≤ c.nZ + overlap - 1)) ∧
    (c.checkPoint x y z overlap = true ↔
      (c.globPosX - ((overlap : T) + 1 / 2) * c.delta ≤ x ∧
        x < c.globPosX + ((c.nX : T) + (overlap : T) - 1 / 2) * c.delta) ∧
      (c.globPosY - ((overlap : T) + 1 / 2) * c.delta ≤ y ∧
        y < c.globPosY + ((c.nY : T) + (overlap : T) - 1 / 2) * c.delta) ∧
      (c.globPosZ - ((overlap : T) + 1 / 2) * c.delta ≤ z ∧
        z < c.globPosZ + ((c.nZ : T) + (overlap : T) - 1 / 2) * c.delta)) := by
  have hcp : c.checkPoint x y z overlap = true ↔
      (c.globPosX ≤ x + (overlap : T) * c.delta + c.delta / 2 ∧
        c.globPosX + ((c.nX + overlap : Int) : T) * c.delta > x + c.delta / 2) ∧
      (c.globPosY ≤ y + (overlap : T) * c.delta + c.delta / 2 ∧
        c.globPosY + ((c.nY + overlap : Int) : T) * c.delta > y + c.delta / 2) ∧
      (c.globPosZ ≤ z + (overlap : T) * c.delta + c.delta / 2 ∧
        c.globPosZ + ((c.nZ + overlap : Int) : T) * c.delta > z + c.delta / 2) := by
    simp only [checkPoint, Bool.and_eq_true, decide_eq_true_eq, and_assoc]
  constructor
  · rw [hcp]
    simp only [getLatticeR, lower_test_iff _ _ _ hδ, upper_test_iff _ _ _ hδ]
  · rw [hcp]
    have e : ∀ (g x : T) (n : Int),
        (g ≤ x + (overlap : T) * c.delta + c.delta / 2 ∧
          g + ((n + overlap : Int) : T) * c.delta > x + c.delta / 2) ↔
        (g - ((overlap : T) + 1 / 2) * c.delta ≤ x ∧
          x < g + ((n : T) + (overlap : T) - 1 / 2) * c.delta) := by
      intro g x n
      push_cast
      constructor
      · rintro ⟨h1, h2⟩
        constructor <;> linarith
      · rintro ⟨h1, h2⟩
        constructor <;> linarith
    rw [e, e, e]

theorem interval_meet_iff (lo hi g0 g1 : T) :
    min hi g1 ≥ max lo g0 ↔ ∃ t : T, g0 ≤ t ∧ t ≤ g1 ∧ lo ≤ t ∧ t ≤ hi := by
  constructor
  · intro h
    refine ⟨max lo g0, le_max_right _ _, ?_, le_max_left _ _, ?_⟩
    · exact le_trans h (min_le_right _ _)
    · exact le_trans h (min_le_left _ _)
  · rintro ⟨t, h1, h2, h3, h4⟩
    exact le_trans (max_le h3 h1) (le_min h4 h2)

/-- Claim C9.  `checkInters(x0, x1, y0, y1, z0, z1, overlap)` over exact
arithmetic: it returns true if and only if on every axis the closed query
interval `[g0, g1]` and the node interval of the cuboid inflated by `overlap`,
`[origin - overlap*delta, origin + (n+overlap-1)*delta]`, have a common point;
it is false whenever `g0 > g1` on some axis; and `checkInters(child)` is this
test applied to the node box of the child with overlap `0`. -/
theorem checkInters_iff_common_point (c : Cuboid3D T) (x0 x1 y0 y1 z0 z1 : T) (overlap : Int) :
    (c.checkInters x0 x1 y0 y1 z0 z1 overlap = true ↔
      (∃ t : T, x0 ≤ t ∧ t ≤ x1 ∧ c.globPosX - (overlap : T) * c.delta ≤ t ∧
        t ≤ c.globPosX + ((c.nX + overlap - 1 : Int) : T) * c.delta) ∧
      (∃ t : T, y0 ≤ t ∧ t ≤ y1 ∧ c.globPosY - (overlap : T) * c.delta ≤ t ∧
        t ≤ c.globPosY + ((c.nY + overlap - 1 : Int) : T) * c.delta) ∧
      (∃ t : T, z0 ≤ t ∧ t ≤ z1 ∧ c.globPosZ - (overlap : T) * c.delta ≤ t ∧
        t ≤ c.globPosZ + ((c.nZ + overlap - 1 : Int) : T) * c.delta)) ∧
    ((x0 > x1 ∨ y0 > y1 ∨ z0 > z1) → c.checkInters x0 x1 y0 y1 z0 z1 overlap = false) ∧
    (∀ child : Cuboid3D T, c.checkIntersCuboid child =
      c.checkInters
        child.globPosX (child.globPosX + child.delta * ((child.nX - 1 : Int) : T))
        child.globPosY (child.globPosY + child.delta * ((child.nY - 1 : Int) : T))
        child.globPosZ (child.globPosZ + child.delta * ((child.nZ - 1 : Int) : T)) 0) := by
  have hiff : c.checkInters x0 x1 y0 y1 z0 z1 overlap = true ↔
      (∃ t : T, x0 ≤ t ∧ t ≤ x1 ∧ c.globPosX - (overlap : T) * c.delta ≤ t ∧
        t ≤ c.globPosX + ((c.nX + overlap - 1 : Int) : T) * c.delta) ∧
      (∃ t : T, y0 ≤ t ∧ t ≤ y1 ∧ c.globPosY - (overlap : T) * c.delta ≤ t ∧
        t ≤ c.globPosY + ((c.nY + overlap - 1 : Int) : T) * c.delta) ∧
      (∃ t : T, z0 ≤ t ∧ t ≤ z1 ∧ c.globPosZ - (overlap : T) * c.delta ≤ t ∧
        t ≤ c.globPosZ + ((c.nZ + overlap - 1 : Int) : T) * c.delta) := by
    simp only [checkInters, Bool.and_eq_true, decide_eq_true_eq, interval_meet_iff, and_assoc]
  refine ⟨hiff, ?_, fun _ => rfl⟩
  intro h
  rw [← Bool.not_eq_true, hiff]
  rintro ⟨⟨t, a1, a2, -, -⟩, ⟨u, b1, b2, -, -⟩, ⟨v, c1, c2, -, -⟩⟩
  rcases h with h | h | h
  · exact absurd (le_trans a1 a2) (not_le.2 h)
  · exact absurd (le_trans b1 b2) (not_le.2 h)
  · exact absurd (le_trans c1 c2) (not_le.2 h)

end Cuboid3D
end olb

namespace olb
namespace SuperGeometryStatistics2D

/-- Claim C10, evaluation of the code at the failing input.  A super statistics
is constructed over one block with five voxels of material `1` and updated: the
count is `5`.  The copy constructor then yields a statistics that is Dirty with
empty maps, while the block is Clean.  `update()` on the copy finds no flagged
block, clears the flag and returns without filling the maps: afterwards the
copy is Clean and `getNvoxel(1)` is `0`, although the blocks hold `5` voxels of
material `1`. -/
theorem update_after_copy_keeps_empty_counts :
    ((new [exampleBlock]).update).getNvoxel 1 = 5 ∧
    (copy ((new [exampleBlock]).update)).getStatisticsStatus = true ∧
    ((copy ((new [exampleBlock]).update)).update).getStatisticsStatus = false ∧
    ((copy ((new [exampleBlock]).update)).update).getNvoxel 1 = 0 ∧
    (((copy ((new [exampleBlock]).update)).update).blocks.map
      (fun b => b.getNvoxel 1)).sum = 5 := by
  decide

end SuperGeometryStatistics2D
end olb

namespace olb

namespace IntMap
variable {A : Type}

theorem find?_insert (m : IntMap A) (k : Int) (v : A) (k1 : Int) :
    (IntMap.insert m k v).find? k1 = if k1 = k then some v else m.find? k1 := by
  induction m with
  | nil => simp [IntMap.insert, IntMap.find?]
  | cons e t ih =>
    obtain ⟨k2, v2⟩ := e
    unfold IntMap.insert
    by_cases h1 : k < k2
    · rw [if_pos h1]
      rw [IntMap.find?]
    · rw [if_neg h1]
      by_cases h2 : k = k2
      · rw [if_pos h2]
        subst h2
        by_cases h3 : k1 = k <;> simp [IntMap.find?, h3]
      · rw [if_neg h2]
        by_cases h3 : k1 = k
        · subst h3
          simp [IntMap.find?, h2, ih]
        · by_cases h4 : k1 = k2
          · subst h4
            simp [IntMap.find?, h3]
          · simp [IntMap.find?, h3, h4, ih]

theorem count_eq_zero_iff (m : IntMap A) (k : Int) : m.count k = 0 ↔ m.find? k = none := by
  unfold IntMap.count
  cases h : m.find? k <;> simp

theorem sum_filter_key (es : IntMap Int) (hnd : (es.map Prod.fst).Nodup) (k : Int) :
    ((es.filter (fun e => decide (e.1 = k))).map Prod.snd).sum = (es.find? k).getD 0 := by
  induction es with
  | nil => simp [IntMap.find?]
  | cons e t ih =>
    obtain ⟨k2, v2⟩ := e
    rw [List.map_cons, List.nodup_cons] at hnd
    by_cases h : k2 = k
    · subst h
      have hnone : ∀ (l : IntMap Int), k2 ∉ l.map Prod.fst →
          l.filter (fun e => decide (e.1 = k2)) = [] := by
        intro l hl
        rw [List.filter_eq_nil_iff]
        intro e he
        simp only [decide_eq_true_eq]
        intro hk
        exact hl (List.mem_map.2 ⟨e, he, hk⟩)
      simp [IntMap.find?, hnone t hnd.1]
    · have h2 : ¬ k = k2 := fun h3 => h h3.symm
      simp [IntMap.find?, h, h2, ih hnd.2]

end IntMap

namespace SuperGeometryStatistics2D
variable {T : Type} [LinearOrderedField T]

theorem accumulateEntry_count (b : BlockGeometryStatistics2D T) (st : Caches T) (e : Int × Int)
    (k : Int) :
    ((accumulateEntry b st e).material2n.find? k).getD 0
      = (st.material2n.find? k).getD 0 + (if e.1 = k then e.2 else 0) := by
  unfold accumulateEntry
  by_cases h0 : e.2 = 0
  · simp [h0]
  · simp only [ne_eq, h0, not_false_eq_true, if_true]
    by_cases hc : st.material2n.count e.1 = 0
    · rw [if_pos hc]
      have hnone := (IntMap.count_eq_zero_iff _ _).1 hc
      simp only [IntMap.find?_insert]
      by_cases hk : k = e.1
      · subst hk; simp [hnone]
      · have hk2 : ¬ e.1 = k := fun h => hk h.symm
        simp [hk, hk2]
    · rw [if_neg hc]
      simp only [IntMap.find?_insert]
      by_cases hk : k = e.1
      · subst hk; simp
      · have hk2 : ¬ e.1 = k := fun h => hk h.symm
        simp [hk, hk2]

theorem accumulateEntries_count (b : BlockGeometryStatistics2D T) (es : IntMap Int)
    (st : Caches T) (k : Int) :
    ((es.foldl (accumulateEntry b) st).material2n.find? k).getD 0
      = (st.material2n.find? k).getD 0
        + ((es.filter (fun e => decide (e.1 = k))).map Prod.snd).sum := by
  induction es generalizing st with
  | nil => simp
  | cons e t ih =>
    rw [List.foldl_cons, ih, accumulateEntry_count]
    by_cases h : e.1 = k <;> simp [h, add_assoc]

theorem accumulateBlocks_count (blocks : List (BlockGeometryStatistics2D T))
    (hnd : ∀ b ∈ blocks, (b.material2n.map Prod.fst).Nodup) (st : Caches T) (k : Int) :
    ((accumulateBlocks blocks st).material2n.find? k).getD 0
      = (st.material2n.find? k).getD 0 + (blocks.map (fun b => b.getNvoxel k)).sum := by
  unfold accumulateBlocks
  induction blocks generalizing st with
  | nil => simp
  | cons b t ih =>
    rw [List.foldl_cons, ih (fun b1 hb1 => hnd b1 (List.mem_cons_of_mem _ hb1)),
      BlockGeometryStatistics2D.getMaterial2n, accumulateEntries_count,
      IntMap.sum_filter_key _ (hnd b (List.mem_cons_self _ _))]
    simp [BlockGeometryStatistics2D.getNvoxel, add_assoc]

theorem updateBlocks_eq (blocks : List (BlockGeometryStatistics2D T)) :
    updateBlocks blocks
      = (blocks.map (fun b => b.update),
         ((blocks.countP (fun b => b.statisticsUpdateNeeded) : Nat) : Int)) := by
  have h : ∀ (l : List (BlockGeometryStatistics2D T))
      (st : List (BlockGeometryStatistics2D T) × Int),
      l.foldl (fun (st : List (BlockGeometryStatistics2D T) × Int) b =>
          if b.getStatisticsStatus then (st.1 ++ [b.update], st.2 + 1)
          else (st.1 ++ [b], st.2)) st
        = (st.1 ++ l.map (fun b => b.update),
           st.2 + ((l.countP (fun b => b.statisticsUpdateNeeded) : Nat) : Int)) := by
    intro l
    induction l with
    | nil => intro st; simp
    | cons b t ih =>
      intro st
      rw [List.foldl_cons, ih]
      by_cases hb : b.statisticsUpdateNeeded = true
      · simp [BlockGeometryStatistics2D.getStatisticsStatus, hb, List.countP_cons, add_assoc,
          add_comm]
      · simp [BlockGeometryStatistics2D.getStatisticsStatus, hb, List.countP_cons,
          BlockGeometryStatistics2D.update]
  unfold updateBlocks
  rw [h]
  simp

/-- On the path that the early return does not cut short, the property of
claim C10 holds: when the super statistics is flagged and at least one local
block is flagged, then after `update()` the super-level `getNvoxel(m)` is the
sum of the block-level counts of `m`, for maps with one entry per key. -/
theorem update_counts_when_block_flagged (s : SuperGeometryStatistics2D T)
    (hs : s.statisticsUpdateNeeded = true)
    (hd : ∃ b ∈ s.blocks, b.statisticsUpdateNeeded = true)
    (hnd : ∀ b ∈ s.update.blocks, (b.material2n.map Prod.fst).Nodup) (m : Int) :
    s.update.getNvoxel m = (s.update.blocks.map (fun b => b.getNvoxel m)).sum := by
  have hcount : ¬ (((s.blocks.countP (fun b => b.statisticsUpdateNeeded) : Nat) : Int) = 0) := by
    obtain ⟨b, hb, hflag⟩ := hd
    have : 0 < s.blocks.countP (fun b => b.statisticsUpdateNeeded) :=
      List.countP_pos_iff.2 ⟨b, hb, hflag⟩
    omega
  have hupd : s.update =
      { blocks := s.blocks.map (fun b => b.update), statisticsUpdateNeeded := false,
        nMaterials := countMaterials (s.blocks.map (fun b => b.update)),
        material2n := (accumulateBlocks (s.blocks.map (fun b => b.update))
          { material2n := [], material2min := s.material2min,
            material2max := s.material2max }).material2n,
        material2min := (accumulateBlocks (s.blocks.map (fun b => b.update))
          { material2n := [], material2min := s.material2min,
            material2max := s.material2max }).material2min,
        material2max := (accumulateBlocks (s.blocks.map (fun b => b.update))
          { material2n := [], material2min := s.material2min,
            material2max := s.material2max }).material2max } := by
    unfold update
    rw [if_pos hs]
    simp only [updateBlocks_eq, hcount, if_false]
  rw [hupd] at hnd ⊢
  have hget : ∀ (t : SuperGeometryStatistics2D T), t.getNvoxel m = (t.material2n.find? m).getD 0 := by
    intro t
    unfold getNvoxel
    cases t.material2n.find? m <;> rfl
  rw [hget]
  simp only
  rw [accumulateBlocks_count _ hnd]
  simp [IntMap.find?]

end SuperGeometryStatistics2D
end olb

namespace olb
open Cuboid3D

/-- Claim C2 at the parent `exampleParent`, split `2 x 2 x 1`. -/
theorem divide_count_and_volume_witness :
    (0 : Int) ≤ exampleParent.nX ∧ (0 : Int) ≤ exampleParent.nY ∧ (0 : Int) ≤ exampleParent.nZ ∧
    (1 : Int) ≤ 2 ∧ (1 : Int) ≤ 1 ∧
    ∃ children : List (Cuboid3D ℚ),
      exampleParent.divide 2 2 1 [] = [] ++ children ∧
      (children.length : Int) = 2 * 2 * 1 ∧
      sizeSum (children.map getLatticeVolume) = exampleParent.getLatticeVolume ∧
      (exampleParent.nX * exampleParent.nY * exampleParent.nZ < 2 ^ 64 →
        (children.map getLatticeVolume).sum = exampleParent.getLatticeVolume) :=
  ⟨by decide, by decide, by decide, by decide, by decide,
    divide_count_and_volume exampleParent 2 2 1 [] (by decide) (by decide) (by decide)
      (by decide) (by decide) (by decide)⟩

/-- Claim C3 at the parent `exampleParent`, split `2 x 2 x 1`, for the child `(1, 1, 0)`. -/
theorem divide_children_layout_witness :
    (0 : Int) ≤ exampleParent.nX ∧ (0 : Int) ≤ exampleParent.nY ∧ (0 : Int) ≤ exampleParent.nZ ∧
    (1 : Int) ≤ 2 ∧ (1 : Int) ≤ 1 ∧
    (∃ ch, childAt (exampleParent.divide 2 2 1 []) ([] : List (Cuboid3D ℚ)).length 2 1 1 1 0
        = some ch ∧
      ch.delta = exampleParent.delta ∧
      ch.globPosX = exampleParent.globPosX
        + exampleParent.delta * (childOffset exampleParent.nX 2 1 : ℚ) ∧
      ch.globPosY = exampleParent.globPosY
        + exampleParent.delta * (childOffset exampleParent.nY 2 1 : ℚ) ∧
      ch.globPosZ = exampleParent.globPosZ
        + exampleParent.delta * (childOffset exampleParent.nZ 1 0 : ℚ) ∧
      ch.nX = childExtent exampleParent.nX 2 ((1 : Nat) : Int) ∧
      ch.nY = childExtent exampleParent.nY 2 ((1 : Nat) : Int) ∧
      ch.nZ = childExtent exampleParent.nZ 1 ((0 : Nat) : Int)) ∧
    AxisPartition exampleParent.nX 2 ∧ AxisPartition exampleParent.nY 2 ∧
    AxisPartition exampleParent.nZ 1 :=
  ⟨by decide, by decide, by decide, by decide, by decide,
    (divide_children_layout exampleParent 2 2 1 [] (by decide) (by decide) (by decide)
      (by decide) (by decide) (by decide)).1 1 1 0 (by decide) (by decide) (by decide),
    (divide_children_layout exampleParent 2 2 1 [] (by decide) (by decide) (by decide)
      (by decide) (by decide) (by decide)).2⟩

/-- Claim C6 at `exampleBar`, axis `0`, fractions `3/10, 1/3, 11/30`, truncating conversion. -/
theorem divideFractional_extent_sum_witness :
    ((0 : Int) = 0 ∨ (0 : Int) = 1 ∨ (0 : Int) = 2) ∧
    ([3 / 10, 1 / 3, 11 / 30] : List ℚ) ≠ [] ∧
    ∃ children : List (Cuboid3D ℚ),
      divideFractionalWith truncToInt exampleBar 0 [3 / 10, 1 / 3, 11 / 30] []
        = some ([] ++ children) ∧
      children.length = ([3 / 10, 1 / 3, 11 / 30] : List ℚ).length ∧
      (children.map (fun ch => ch.getExtent.get 0)).sum = exampleBar.getExtent.get 0 ∧
      children.map (fun ch => ch.getExtent.get 0)
        = ([3 / 10, 1 / 3, 11 / 30] : List ℚ).dropLast.map
            (fun f => truncToInt (f * ((exampleBar.getExtent.get 0 : Int) : ℚ)))
          ++ [exampleBar.getExtent.get 0
              - (([3 / 10, 1 / 3, 11 / 30] : List ℚ).dropLast.map
                  (fun f => truncToInt (f * ((exampleBar.getExtent.get 0 : Int) : ℚ)))).sum] :=
  ⟨Or.inl rfl, by simp,
    divideFractional_extent_sum truncToInt exampleBar 0 [3 / 10, 1 / 3, 11 / 30] []
      (Or.inl rfl) (by simp)⟩

/-- Claim C7 at `exampleParent` and the lattice coordinate `(3, -1, 7)`. -/
theorem getLatticeR_getPhysR_witness :
    (0 : ℚ) < exampleParent.delta ∧
    exampleParent.getLatticeR (exampleParent.getPhysR (3, -1, 7)) = (3, -1, 7) :=
  ⟨by norm_num [exampleParent, Cuboid3D.new],
    getLatticeR_getPhysR exampleParent (by norm_num [exampleParent, Cuboid3D.new]) (3, -1, 7)⟩

/-- Claim C8 at `exampleParent`, the point `(-3/4, 1, 0)` and overlap `1`. -/
theorem checkPoint_iff_lattice_witness :
    (0 : ℚ) < exampleParent.delta ∧
    (exampleParent.checkPoint (-3 / 4) 1 0 1 = true ↔
      (-(1 : Int) ≤ (exampleParent.getLatticeR (-3 / 4, 1, 0)).1 ∧
        (exampleParent.getLatticeR (-3 / 4, 1, 0)).1 ≤ exampleParent.nX + 1 - 1) ∧
      (-(1 : Int) ≤ (exampleParent.getLatticeR (-3 / 4, 1, 0)).2.1 ∧
        (exampleParent.getLatticeR (-3 / 4, 1, 0)).2.1 ≤ exampleParent.nY + 1 - 1) ∧
      (-(1 : Int) ≤ (exampleParent.getLatticeR (-3 / 4, 1, 0)).2.2 ∧
        (exampleParent.getLatticeR (-3 / 4, 1, 0)).2.2 ≤ exampleParent.nZ + 1 - 1)) :=
  ⟨by norm_num [exampleParent, Cuboid3D.new],
    (checkPoint_iff_lattice exampleParent (by norm_num [exampleParent, Cuboid3D.new])
      (-3 / 4) 1 0 1).1⟩

/-- The scenario of claim C5 for every count: the `75 x 50 x 1` domain divided
in `p ≥ 1` parts, with the strips as helper decomposition, gives exactly `p`
children whose lattice volumes add up to `3750`. -/
theorem divideP_exampleDomain_total (p : Int) (hp : 1 ≤ p) :
    ∃ children : List (Cuboid3D ℚ),
      exampleDomain.divideP stripHelper (symmetryRatio (T := ℚ)) (fun a b => decide (a < b)) p []
        = some children ∧
      (children.length : Int) = p ∧
      (children.map getLatticeVolume).sum = 3750 := by
  obtain ⟨s, hs, hI⟩ := divideSearch_spec (symmetryRatio (T := ℚ)) (fun a b => decide (a < b))
    exampleDomain p hp
  obtain ⟨children, hres, hlen, hsum, hnn⟩ :=
    divideRemainder_spec stripHelper stripHelper_tiles exampleDomain p s [] hp
      (by decide) (by decide) (by decide) hI
  refine ⟨children, ?_, hlen, ?_⟩
  · unfold divideP
    rw [if_pos (by omega), hs, Option.map_some', hres, List.nil_append]
  · rw [sum_volume_of_int exampleDomain children hsum hnn (by decide)]
    decide

end olb

namespace olb

namespace SuperGeometryStatistics2D
variable {T : Type} [LinearOrderedField T]

theorem update_status (s : SuperGeometryStatistics2D T) :
    s.update.statisticsUpdateNeeded = false := by
  unfold update
  by_cases h : s.statisticsUpdateNeeded = true
  · rw [if_pos h]
    by_cases h2 : (updateBlocks s.blocks).2 = 0
    · simp [h2]
    · simp [h2]
  · rw [if_neg h]
    simpa using h

/-- Claim C11.  Idempotence of `update()` in a serial run: after any call the
status is Clean (`getStatisticsStatus()` is false); a second call leaves the
whole state unchanged, that is every cached aggregate (counts, minimal and
maximal corners, number of materials) and every block statistics; and the
second call makes no block-level `update`. -/
theorem update_idempotent (s : SuperGeometryStatistics2D T) :
    s.update.getStatisticsStatus = false ∧
    s.update.update = s.update ∧
    s.update.update.blocks = s.update.blocks ∧
    blockUpdatesTriggered s.update = 0 := by
  have h := update_status s
  have h2 : s.update.update = s.update := by
    generalize s.update = t at h
    unfold update
    simp [h]
  refine ⟨h, h2, by rw [h2], ?_⟩
  unfold blockUpdatesTriggered
  simp [h]

end SuperGeometryStatistics2D

namespace Cuboid3D
variable {T : Type} [LinearOrderedField T]

/-- Claim C17.  `refine(factor)` throws `std::invalid_argument` if and only if
`factor < 1`; when it throws the cuboid is unchanged (origin, spacing, extents,
weight); and `refine(1)` returns and changes nothing. -/
theorem refine_throws_iff (c : Cuboid3D T) (factor : Int) :
    ((c.refine factor).1 = Thrown.invalid_argument ↔ factor < 1) ∧
    ((c.refine factor).1 = Thrown.invalid_argument → (c.refine factor).2 = c) ∧
    c.refine 1 = (Thrown.none, c) := by
  have h1 : (c.refine factor).1 = Thrown.invalid_argument ↔ factor < 1 := by
    unfold refine
    by_cases h : factor < 1
    · simp [h]
    · by_cases h2 : factor > 1 <;> simp [h, h2]
  refine ⟨h1, ?_, ?_⟩
  · intro h
    have hf := h1.1 h
    unfold refine
    simp [hf]
  · unfold refine
    simp

theorem getWeight_resize (c : Cuboid3D T) (iX iY iZ nX nY nZ : Int)
    (h : c.weight = sizeMax) :
    (c.resize iX iY iZ nX nY nZ).getWeight = (c.resize iX iY iZ nX nY nZ).getLatticeVolume := by
  unfold getWeight
  rw [if_pos (by simpa [resize] using h)]

theorem getWeight_new (x y z d : T) (nX nY nZ : Int) :
    (Cuboid3D.new x y z d nX nY nZ).getWeight
      = (Cuboid3D.new x y z d nX nY nZ).getLatticeVolume := by
  unfold getWeight
  rw [if_pos (show (Cuboid3D.new x y z d nX nY nZ).weight = sizeMax from rfl)]

end Cuboid3D

open Cuboid3D

/-- Claim C16, evaluation of the code at the failing input.  The cuboid
`exampleCube` comes from the constructor, so its weight is the lattice volume
`8`.  After `refine(2)`, which returns normally, `_weight` is
`size_t max * 8 = 2^64 - 8` and no longer the value `size_t` max, so
`getWeight()` returns `2^64 - 8` although the lattice volume is `64`. -/
theorem getWeight_after_refine_two :
    exampleCube.getWeight = 8 ∧ exampleCube.getLatticeVolume = 8 ∧
    (exampleCube.refine 2).1 = Thrown.none ∧
    (exampleCube.refine 2).2.getLatticeVolume = 64 ∧
    (exampleCube.refine 2).2.getWeight = 2 ^ 64 - 8 := by
  refine ⟨by decide, by decide, by decide, by decide, by decide⟩

end olb

namespace olb

namespace SuperGeometryStatistics2D
variable {T : Type} [LinearOrderedField T]

/-- Claim C18.  Missing-key queries on the super statistics: for a material id
that is absent from the three cached maps the const getters return the default
values, no `std::out_of_range` leaves them: `getNvoxel(m)` is `0`,
`getMinPhysR(m)` and `getMaxPhysR(m)` are `(0, 0)`, `getPhysRadius(m)` and
`getCenterPhysR(m)` are `(0, 0)`, and `getPhysExtend(m)` is the empty vector. -/
theorem getters_of_missing_key (s : SuperGeometryStatistics2D T) (m : Int)
    (hn : s.material2n.find? m = none) (hmin : s.material2min.find? m = none)
    (hmax : s.material2max.find? m = none) :
    s.getNvoxel m = 0 ∧ s.getMinPhysR m = [0, 0] ∧ s.getMaxPhysR m = [0, 0] ∧
    s.getPhysRadius m = [0, 0] ∧ s.getCenterPhysR m = [0, 0] ∧ s.getPhysExtend m = [] := by
  have h1 : s.getNvoxel m = 0 := by unfold getNvoxel; rw [hn]
  have h2 : s.getMinPhysR m = [0, 0] := by unfold getMinPhysR; rw [hmin]
  have h3 : s.getMaxPhysR m = [0, 0] := by unfold getMaxPhysR; rw [hmax]
  have h4 : s.getPhysRadius m = [0, 0] := by
    unfold getPhysRadius
    rw [h2, h3]
    simp [vecGet, List.range_succ]
  have h5 : s.getCenterPhysR m = [0, 0] := by
    unfold getCenterPhysR
    rw [h2, h4]
    simp [vecGet, List.range_succ]
  refine ⟨h1, h2, h3, h4, h5, ?_⟩
  unfold getPhysExtend
  rw [hmax, hmin]

end SuperGeometryStatistics2D

/-- Claim C18 at a freshly constructed statistics without blocks and material `3`. -/
theorem getters_of_missing_key_witness :
    (SuperGeometryStatistics2D.new ([] : List (BlockGeometryStatistics2D ℚ))).material2n.find? 3
      = none ∧
    (SuperGeometryStatistics2D.new ([] : List (BlockGeometryStatistics2D ℚ))).material2min.find? 3
      = none ∧
    (SuperGeometryStatistics2D.new ([] : List (BlockGeometryStatistics2D ℚ))).material2max.find? 3
      = none ∧
    (SuperGeometryStatistics2D.new ([] : List (BlockGeometryStatistics2D ℚ))).getNvoxel 3 = 0 ∧
    (SuperGeometryStatistics2D.new ([] : List (BlockGeometryStatistics2D ℚ))).getMinPhysR 3
      = [0, 0] ∧
    (SuperGeometryStatistics2D.new ([] : List (BlockGeometryStatistics2D ℚ))).getMaxPhysR 3
      = [0, 0] ∧
    (SuperGeometryStatistics2D.new ([] : List (BlockGeometryStatistics2D ℚ))).getPhysRadius 3
      = [0, 0] ∧
    (SuperGeometryStatistics2D.new ([] : List (BlockGeometryStatistics2D ℚ))).getCenterPhysR 3
      = [0, 0] ∧
    (SuperGeometryStatistics2D.new ([] : List (BlockGeometryStatistics2D ℚ))).getPhysExtend 3
      = [] :=
  ⟨rfl, rfl, rfl,
    SuperGeometryStatistics2D.getters_of_missing_key
      (SuperGeometryStatistics2D.new ([] : List (BlockGeometryStatistics2D ℚ))) 3 rfl rfl rfl⟩

namespace Cuboid3D
variable {T : Type} [LinearOrderedField T]

theorem childExtent_antitone (N n : Int) (hN : 0 ≤ N) (hn : 1 ≤ n) (i j : Int)
    (hi : 0 ≤ i) (hij : i ≤ j) (hj : j < n) :
    childExtent N n j ≤ childExtent N n i ∧ childExtent N n i ≤ childExtent N n j + 1 := by
  rw [childExtent_eq N n i hN hn hi (by omega), childExtent_eq N n j hN hn (by omega) hj]
  by_cases h1 : i < N % n <;> by_cases h2 : j < N % n <;> simp [h1, h2] <;> omega

/-- Claim C19.  Remainder distribution in `divide(nX, nY, nZ)`: on each axis,
with parent extent `N ≥ 0` split in `n ≥ 1` parts, the child with index `i` on
that axis has the extent `floor(N/n) + 1` if `i < N mod n` and `floor(N/n)`
otherwise; hence the extents are non-increasing in the index and two children
differ by at most one cell per axis. -/
theorem divide_remainder_distribution (c : Cuboid3D T) (nX nY nZ : Int)
    (out : List (Cuboid3D T))
    (hNX : 0 ≤ c.nX) (hNY : 0 ≤ c.nY) (hNZ : 0 ≤ c.nZ)
    (hnX : 1 ≤ nX) (hnY : 1 ≤ nY) (hnZ : 1 ≤ nZ) :
    (∀ iX iY iZ : Nat, (iX : Int) < nX → (iY : Int) < nY → (iZ : Int) < nZ →
      ∃ ch, childAt (c.divide nX nY nZ out) out.length nY nZ iX iY iZ = some ch ∧
        ch.nX = c.nX / nX + (if (iX : Int) < c.nX % nX then 1 else 0) ∧
        ch.nY = c.nY / nY + (if (iY : Int) < c.nY % nY then 1 else 0) ∧
        ch.nZ = c.nZ / nZ + (if (iZ : Int) < c.nZ % nZ then 1 else 0)) ∧
    (∀ iX iY iZ jX jY jZ : Nat, (jX : Int) < nX → (jY : Int) < nY → (jZ : Int) < nZ →
      iX ≤ jX → iY ≤ jY → iZ ≤ jZ →
      ∃ ci cj, childAt (c.divide nX nY nZ out) out.length nY nZ iX iY iZ = some ci ∧
        childAt (c.divide nX nY nZ out) out.length nY nZ jX jY jZ = some cj ∧
        cj.nX ≤ ci.nX ∧ ci.nX ≤ cj.nX + 1 ∧
        cj.nY ≤ ci.nY ∧ ci.nY ≤ cj.nY + 1 ∧
        cj.nZ ≤ ci.nZ ∧ ci.nZ ≤ cj.nZ + 1) := by
  constructor
  · intro iX iY iZ hX hY hZ
    refine ⟨_, childAt_divide c nX nY nZ out hnY hnZ iX iY iZ hX hY hZ, ?_, ?_, ?_⟩
    · exact childExtent_eq _ _ _ hNX hnX (by omega) hX
    · exact childExtent_eq _ _ _ hNY hnY (by omega) hY
    · exact childExtent_eq _ _ _ hNZ hnZ (by omega) hZ
  · intro iX iY iZ jX jY jZ hX hY hZ hiX hiY hiZ
    have aX := childExtent_antitone c.nX nX hNX hnX iX jX (by omega) (by omega) hX
    have aY := childExtent_antitone c.nY nY hNY hnY iY jY (by omega) (by omega) hY
    have aZ := childExtent_antitone c.nZ nZ hNZ hnZ iZ jZ (by omega) (by omega) hZ
    exact ⟨_, _,
      childAt_divide c nX nY nZ out hnY hnZ iX iY iZ (by omega) (by omega) (by omega),
      childAt_divide c nX nY nZ out hnY hnZ jX jY jZ hX hY hZ,
      aX.1, aX.2, aY.1, aY.2, aZ.1, aZ.2⟩

end Cuboid3D

open Cuboid3D

/-- Claim C19 at the parent `exampleParent`, split `2 x 2 x 1`, for the child `(1, 0, 0)`. -/
theorem divide_remainder_distribution_witness :
    (0 : Int) ≤ exampleParent.nX ∧ (0 : Int) ≤ exampleParent.nY ∧ (0 : Int) ≤ exampleParent.nZ ∧
    (1 : Int) ≤ 2 ∧ (1 : Int) ≤ 1 ∧
    (∃ ch, childAt (exampleParent.divide 2 2 1 []) ([] : List (Cuboid3D ℚ)).length 2 1 1 0 0
        = some ch ∧
      ch.nX = exampleParent.nX / 2 + (if ((1 : Nat) : Int) < exampleParent.nX % 2 then 1 else 0) ∧
      ch.nY = exampleParent.nY / 2 + (if ((0 : Nat) : Int) < exampleParent.nY % 2 then 1 else 0) ∧
      ch.nZ = exampleParent.nZ / 1 + (if ((0 : Nat) : Int) < exampleParent.nZ % 1 then 1 else 0)) :=
  ⟨by decide, by decide, by decide, by decide, by decide,
    (divide_remainder_distribution exampleParent 2 2 1 [] (by decide) (by decide) (by decide)
      (by decide) (by decide) (by decide)).1 1 0 0 (by decide) (by decide) (by decide)⟩

end olb

namespace olb
namespace SuperGeometryStatistics2D
variable {T : Type} [LinearOrderedField T]

theorem sumBlockNormals_of_no_voxel (blockNormal : BlockGeometryStatistics2D T → Int → List T)
    (blocks : List (BlockGeometryStatistics2D T)) (m : Int)
    (h : ∀ b ∈ blocks, b.getNvoxel m = 0) :
    sumBlockNormals blockNormal blocks m = [0, 0] := by
  unfold sumBlockNormals
  generalize ([0, 0] : List T) = acc
  induction blocks generalizing acc with
  | nil => rfl
  | cons b t ih =>
    rw [List.foldl_cons]
    have hb : b.getNvoxel m = 0 := h b (List.mem_cons_self _ _)
    have hstep : (List.range 2).foldl
        (fun v iDim =>
          if b.getNvoxel m ≠ 0 then
            v.set iDim (vecGet v iDim + vecGet (blockNormal b m) iDim * (b.getNvoxel m : T))
          else v) acc = acc := by
      simp [hb, List.range_succ]
    rw [hstep]
    exact ih (fun b1 hb1 => h b1 (List.mem_cons_of_mem _ hb1)) acc

theorem computeNormalTrace_of_no_voxel (sqrt : T → T) (hs0 : sqrt 0 = 0)
    (blockNormal : BlockGeometryStatistics2D T → Int → List T)
    (s : SuperGeometryStatistics2D T) (m : Int)
    (h : ∀ b ∈ s.blocks, b.getNvoxel m = 0) :
    computeNormalTrace sqrt blockNormal s m
      = { normal := [0, 0], dividedByCount := decide (s.getNvoxel m ≠ 0),
          dividedByNorm := false } := by
  unfold computeNormalTrace
  rw [sumBlockNormals_of_no_voxel blockNormal s.blocks m h]
  have h2 : (if s.getNvoxel m ≠ 0 then
        (List.range 2).foldl (fun v iDim => v.set iDim (vecGet v iDim / ((s.getNvoxel m : Int) : T)))
          ([0, 0] : List T)
      else [0, 0]) = [0, 0] := by
    by_cases hn : s.getNvoxel m = 0
    · simp [hn]
    · simp [hn, List.range_succ, vecGet]
  simp only [h2]
  simp [vecGet, hs0]

end SuperGeometryStatistics2D

open SuperGeometryStatistics2D

end olb

namespace olb
namespace SuperGeometryStatistics2D
variable {T : Type} [LinearOrderedField T]

theorem scanDiscreteNormal_eq_foldl (sqrt : T → T) (normal : List T) (maxNorm : T) :
    scanDiscreteNormal sqrt normal maxNorm
      = scanOffsets.foldl (fun st o => discreteNormalStep sqrt normal maxNorm st o.1 o.2)
          (0, [0, 0]) := rfl

theorem discreteNormalStep_skip (sqrt : T → T) (normal : List T) (maxNorm : T)
    (st : T × List Int) (o : Int × Int)
    (h : ¬ (Admissible sqrt maxNorm o ∧ cosine sqrt normal o ≥ st.1)) :
    discreteNormalStep sqrt normal maxNorm st o.1 o.2 = st := by
  unfold discreteNormalStep
  by_cases ha : Admissible sqrt maxNorm o
  · have hc : ¬ cosine sqrt normal o ≥ st.1 := fun hc => h ⟨ha, hc⟩
    have ha1 : sqrt ((o.1 * o.1 + o.2 * o.2 : Int) : T) > 0
        ∧ sqrt ((o.1 * o.1 + o.2 * o.2 : Int) : T) < maxNorm := ha
    simp only [ha1, and_self, if_true]
    have hc1 : ¬ ((o.1 : T) * vecGet normal 0 + (o.2 : T) * vecGet normal 1)
        / sqrt ((o.1 * o.1 + o.2 * o.2 : Int) : T) ≥ st.1 := hc
    rw [if_neg hc1]
  · have ha1 : ¬ (sqrt ((o.1 * o.1 + o.2 * o.2 : Int) : T) > 0
        ∧ sqrt ((o.1 * o.1 + o.2 * o.2 : Int) : T) < maxNorm) := ha
    rw [if_neg ha1]

theorem discreteNormalStep_take (sqrt : T → T) (normal : List T) (maxNorm : T)
    (st : T × List Int) (o : Int × Int) (hlen : st.2.length = 2)
    (ha : Admissible sqrt maxNorm o) (hc : cosine sqrt normal o ≥ st.1) :
    discreteNormalStep sqrt normal maxNorm st o.1 o.2 = (cosine sqrt normal o, [o.1, o.2]) := by
  unfold discreteNormalStep
  have ha1 : sqrt ((o.1 * o.1 + o.2 * o.2 : Int) : T) > 0
      ∧ sqrt ((o.1 * o.1 + o.2 * o.2 : Int) : T) < maxNorm := ha
  rw [if_pos ha1]
  have hc1 : ((o.1 : T) * vecGet normal 0 + (o.2 : T) * vecGet normal 1)
      / sqrt ((o.1 * o.1 + o.2 * o.2 : Int) : T) ≥ st.1 := hc
  simp only [hc1, if_true]
  obtain ⟨sa, d⟩ := st
  match d, hlen with
  | [a, b], _ => rfl

theorem scan_spec (sqrt : T → T) (normal : List T) (maxNorm : T) (L : List (Int × Int)) :
    ∀ (st : T × List Int), st.2.length = 2 →
      st.1 ≤ (L.foldl (fun st o => discreteNormalStep sqrt normal maxNorm st o.1 o.2) st).1 ∧
      (∀ o ∈ L, Admissible sqrt maxNorm o → cosine sqrt normal o
        ≤ (L.foldl (fun st o => discreteNormalStep sqrt normal maxNorm st o.1 o.2) st).1) ∧
      ((L.foldl (fun st o => discreteNormalStep sqrt normal maxNorm st o.1 o.2) st = st ∧
          ∀ o ∈ L, Admissible sqrt maxNorm o → cosine sqrt normal o < st.1) ∨
        ∃ (pre post : List (Int × Int)) (o : Int × Int), L = pre ++ o :: post ∧
          Admissible sqrt maxNorm o ∧
          L.foldl (fun st o => discreteNormalStep sqrt normal maxNorm st o.1 o.2) st
            = (cosine sqrt normal o, [o.1, o.2]) ∧
          ∀ o1 ∈ post, Admissible sqrt maxNorm o1 →
            cosine sqrt normal o1 < cosine sqrt normal o) := by
  induction L with
  | nil =>
    intro st _
    exact ⟨le_refl _, fun o ho => absurd ho (List.not_mem_nil _),
      Or.inl ⟨rfl, fun o ho => absurd ho (List.not_mem_nil _)⟩⟩
  | cons o t ih =>
    intro st hlen
    rw [List.foldl_cons]
    by_cases h : Admissible sqrt maxNorm o ∧ cosine sqrt normal o ≥ st.1
    · rw [discreteNormalStep_take sqrt normal maxNorm st o hlen h.1 h.2]
      obtain ⟨i1, i2, i3⟩ := ih (cosine sqrt normal o, [o.1, o.2]) rfl
      refine ⟨le_trans h.2 i1, ?_, ?_⟩
      · intro o1 ho1 ha1
        rcases List.mem_cons.1 ho1 with rfl | hmem
        · exact i1
        · exact i2 o1 hmem ha1
      · right
        rcases i3 with ⟨e, hall⟩ | ⟨pre, post, o2, hL, ha2, hres, hpost⟩
        · exact ⟨[], t, o, rfl, h.1, e, hall⟩
        · exact ⟨o :: pre, post, o2, by rw [hL]; rfl, ha2, hres, hpost⟩
    · rw [discreteNormalStep_skip sqrt normal maxNorm st o h]
      obtain ⟨i1, i2, i3⟩ := ih st hlen
      have ho : Admissible sqrt maxNorm o → cosine sqrt normal o < st.1 := by
        intro ha
        by_contra hc
        exact h ⟨ha, not_lt.1 hc⟩
      refine ⟨i1, ?_, ?_⟩
      · intro o1 ho1 ha1
        rcases List.mem_cons.1 ho1 with rfl | hmem
        · exact le_trans (le_of_lt (ho ha1)) i1
        · exact i2 o1 hmem ha1
      · rcases i3 with ⟨e, hall⟩ | ⟨pre, post, o2, hL, ha2, hres, hpost⟩
        · left
          refine ⟨e, ?_⟩
          intro o1 ho1 ha1
          rcases List.mem_cons.1 ho1 with rfl | hmem
          · exact ho ha1
          · exact hall o1 hmem ha1
        · right
          exact ⟨o :: pre, post, o2, by rw [hL]; rfl, ha2, hres, hpost⟩

theorem admissible_neg (sqrt : T → T) (maxNorm : T) (o : Int × Int)
    (h : Admissible sqrt maxNorm o) : Admissible sqrt maxNorm (-o.1, -o.2) := by
  unfold Admissible offsetNorm at h ⊢
  have e : (-o.1) * (-o.1) + (-o.2) * (-o.2) = o.1 * o.1 + o.2 * o.2 := by ring
  simp only [e]
  exact h

theorem cosine_neg (sqrt : T → T) (normal : List T) (o : Int × Int) :
    cosine sqrt normal (-o.1, -o.2) = -cosine sqrt normal o := by
  unfold cosine offsetNorm
  have e : (-o.1) * (-o.1) + (-o.2) * (-o.2) = o.1 * o.1 + o.2 * o.2 := by ring
  simp only [e]
  push_cast
  ring

theorem neg_mem_scanOffsets (o : Int × Int) (h : o ∈ scanOffsets) :
    (-o.1, -o.2) ∈ scanOffsets := by
  simp only [scanOffsets, List.mem_cons, List.mem_singleton, List.not_mem_nil, or_false] at h
  rcases h with rfl | rfl | rfl | rfl | rfl | rfl | rfl | rfl | rfl <;> decide

theorem scan_isLastMaximiser (sqrt : T → T) (normal : List T) (maxNorm : T)
    (hadm : ∃ o ∈ scanOffsets, Admissible sqrt maxNorm o) :
    IsLastMaximiser sqrt normal maxNorm (scanDiscreteNormal sqrt normal maxNorm).2 := by
  rw [scanDiscreteNormal_eq_foldl]
  obtain ⟨_, i2, i3⟩ := scan_spec sqrt normal maxNorm scanOffsets (0, [0, 0]) rfl
  rcases i3 with ⟨_, hall⟩ | ⟨pre, post, o, hL, ha, hres, hpost⟩
  · exfalso
    obtain ⟨o, ho, ha⟩ := hadm
    have h1 := hall o ho ha
    have h2 := hall (-o.1, -o.2) (neg_mem_scanOffsets o ho) (admissible_neg sqrt maxNorm o ha)
    rw [cosine_neg] at h2
    simp only at h1 h2
    linarith
  · refine ⟨pre, post, o, hL, by rw [hres], ha, ?_, hpost⟩
    intro o1 ho1 ha1
    have := i2 o1 ho1 ha1
    rw [hres] at this
    exact this

theorem scan_of_none_admissible (sqrt : T → T) (normal : List T) (maxNorm : T)
    (hnone : ∀ o ∈ scanOffsets, ¬ Admissible sqrt maxNorm o) :
    (scanDiscreteNormal sqrt normal maxNorm).2 = [0, 0] := by
  rw [scanDiscreteNormal_eq_foldl]
  obtain ⟨_, _, i3⟩ := scan_spec sqrt normal maxNorm scanOffsets (0, [0, 0]) rfl
  rcases i3 with ⟨e, _⟩ | ⟨pre, post, o, hL, ha, _, _⟩
  · rw [e]
  · exfalso
    exact hnone o (by rw [hL]; simp) ha

end SuperGeometryStatistics2D
end olb

namespace olb
namespace SuperGeometryStatistics2D
variable {T : Type} [LinearOrderedField T]

theorem offsetNorm_cases (sqrt : T → T) (o : Int × Int) (ho : o ∈ scanOffsets) :
    (o = (0, 0) ∧ offsetNorm sqrt o = sqrt 0) ∨
    (o ≠ (0, 0) ∧ (offsetNorm sqrt o = sqrt 1 ∨ offsetNorm sqrt o = sqrt 2)) := by
  simp only [scanOffsets, List.mem_cons, List.mem_singleton, List.not_mem_nil, or_false] at ho
  rcases ho with rfl | rfl | rfl | rfl | rfl | rfl | rfl | rfl | rfl
  · right; exact ⟨by decide, Or.inr (by simp only [offsetNorm]; norm_num)⟩
  · right; exact ⟨by decide, Or.inl (by simp only [offsetNorm]; norm_num)⟩
  · right; exact ⟨by decide, Or.inr (by simp only [offsetNorm]; norm_num)⟩
  · right; exact ⟨by decide, Or.inl (by simp only [offsetNorm]; norm_num)⟩
  · left; exact ⟨rfl, by simp only [offsetNorm]; norm_num⟩
  · right; exact ⟨by decide, Or.inl (by simp only [offsetNorm]; norm_num)⟩
  · right; exact ⟨by decide, Or.inr (by simp only [offsetNorm]; norm_num)⟩
  · right; exact ⟨by decide, Or.inl (by simp only [offsetNorm]; norm_num)⟩
  · right; exact ⟨by decide, Or.inr (by simp only [offsetNorm]; norm_num)⟩

theorem admissible_iff (sqrt : T → T) (hs0 : sqrt 0 = 0) (hs1 : sqrt 1 = 1) (hs2 : 1 < sqrt 2)
    (maxNorm : T) (o : Int × Int) (ho : o ∈ scanOffsets) :
    Admissible sqrt maxNorm o ↔ (o ≠ (0, 0) ∧ offsetNorm sqrt o < maxNorm) := by
  unfold Admissible
  rcases offsetNorm_cases sqrt o ho with ⟨h0, hn⟩ | ⟨h0, hn | hn⟩
  · rw [hn, hs0]
    constructor
    · intro h; exact absurd h.1 (lt_irrefl _)
    · intro h; exact absurd h0 h.1
  · rw [hn, hs1]
    constructor
    · intro h; exact ⟨h0, h.2⟩
    · intro h; exact ⟨zero_lt_one, h.2⟩
  · rw [hn]
    constructor
    · intro h; exact ⟨h0, h.2⟩
    · intro h; exact ⟨lt_trans zero_lt_one hs2, h.2⟩

theorem one_le_offsetNorm (sqrt : T → T) (hs1 : sqrt 1 = 1) (hs2 : 1 < sqrt 2)
    (o : Int × Int) (ho : o ∈ scanOffsets) (h0 : o ≠ (0, 0)) : 1 ≤ offsetNorm sqrt o := by
  rcases offsetNorm_cases sqrt o ho with ⟨h, _⟩ | ⟨_, hn | hn⟩
  · exact absurd h h0
  · rw [hn, hs1]
  · rw [hn]; exact le_of_lt hs2

/-- Claim C14.  `computeDiscreteNormal(material, maxNorm) const` over an ordered
field with a square root (`sqrt 0 = 0`, `sqrt 1 = 1`, `1 < sqrt 2`, as over the
reals): the result has two components in `{-1, 0, 1}`; if some offset of
`{-1,0,1}^2` other than `(0, 0)` has a norm below `maxNorm`, the result is such
an offset and its cosine with `computeNormal(material)` is maximal among these
offsets; if no offset is admissible, in particular if `maxNorm ≤ 1`, the result
is `(0, 0)`. -/
theorem computeDiscreteNormal_spec (sqrt : T → T)
    (hs0 : sqrt 0 = 0) (hs1 : sqrt 1 = 1) (hs2 : 1 < sqrt 2)
    (blockNormal : BlockGeometryStatistics2D T → Int → List T)
    (s : SuperGeometryStatistics2D T) (material : Int) (maxNorm : T) :
    (∃ a b : Int, computeDiscreteNormal sqrt blockNormal s material maxNorm = [a, b] ∧
      (a = -1 ∨ a = 0 ∨ a = 1) ∧ (b = -1 ∨ b = 0 ∨ b = 1)) ∧
    ((∃ o ∈ scanOffsets, o ≠ (0, 0) ∧ offsetNorm sqrt o < maxNorm) →
      ∃ o ∈ scanOffsets, o ≠ (0, 0) ∧ offsetNorm sqrt o < maxNorm ∧
        computeDiscreteNormal sqrt blockNormal s material maxNorm = [o.1, o.2] ∧
        ∀ o1 ∈ scanOffsets, o1 ≠ (0, 0) → offsetNorm sqrt o1 < maxNorm →
          cosine sqrt (computeNormal sqrt blockNormal s material) o1
            ≤ cosine sqrt (computeNormal sqrt blockNormal s material) o) ∧
    ((¬ ∃ o ∈ scanOffsets, o ≠ (0, 0) ∧ offsetNorm sqrt o < maxNorm) →
      computeDiscreteNormal sqrt blockNormal s material maxNorm = [0, 0]) ∧
    (maxNorm ≤ 1 → computeDiscreteNormal sqrt blockNormal s material maxNorm = [0, 0]) := by
  have hnone : (¬ ∃ o ∈ scanOffsets, o ≠ (0, 0) ∧ offsetNorm sqrt o < maxNorm) →
      computeDiscreteNormal sqrt blockNormal s material maxNorm = [0, 0] := by
    intro h
    apply scan_of_none_admissible
    intro o ho ha
    exact h ⟨o, ho, (admissible_iff sqrt hs0 hs1 hs2 maxNorm o ho).1 ha⟩
  have hsome : (∃ o ∈ scanOffsets, o ≠ (0, 0) ∧ offsetNorm sqrt o < maxNorm) →
      ∃ o ∈ scanOffsets, o ≠ (0, 0) ∧ offsetNorm sqrt o < maxNorm ∧
        computeDiscreteNormal sqrt blockNormal s material maxNorm = [o.1, o.2] ∧
        ∀ o1 ∈ scanOffsets, o1 ≠ (0, 0) → offsetNorm sqrt o1 < maxNorm →
          cosine sqrt (computeNormal sqrt blockNormal s material) o1
            ≤ cosine sqrt (computeNormal sqrt blockNormal s material) o := by
    rintro ⟨o, ho, h0, hlt⟩
    obtain ⟨pre, post, o2, hL, hd, ha, hmax, -⟩ :=
      scan_isLastMaximiser sqrt (computeNormal sqrt blockNormal s material) maxNorm
        ⟨o, ho, (admissible_iff sqrt hs0 hs1 hs2 maxNorm o ho).2 ⟨h0, hlt⟩⟩
    have ho2 : o2 ∈ scanOffsets := by rw [hL]; simp
    have ha2 := (admissible_iff sqrt hs0 hs1 hs2 maxNorm o2 ho2).1 ha
    refine ⟨o2, ho2, ha2.1, ha2.2, hd, ?_⟩
    intro o1 ho1 h01 hlt1
    exact hmax o1 ho1 ((admissible_iff sqrt hs0 hs1 hs2 maxNorm o1 ho1).2 ⟨h01, hlt1⟩)
  refine ⟨?_, hsome, hnone, ?_⟩
  · by_cases h : ∃ o ∈ scanOffsets, o ≠ (0, 0) ∧ offsetNorm sqrt o < maxNorm
    · obtain ⟨o, ho, _, _, hd, _⟩ := hsome h
      refine ⟨o.1, o.2, hd, ?_⟩
      simp only [scanOffsets, List.mem_cons, List.mem_singleton, List.not_mem_nil,
        or_false] at ho
      rcases ho with rfl | rfl | rfl | rfl | rfl | rfl | rfl | rfl | rfl <;> decide
    · exact ⟨0, 0, hnone h, by decide, by decide⟩
  · intro hm
    apply hnone
    rintro ⟨o, ho, h0, hlt⟩
    have := one_le_offsetNorm sqrt hs1 hs2 o ho h0
    exact absurd (lt_of_le_of_lt this hlt) (not_lt.2 hm)

/-- Claim C15 as amended.  Tie-break of `computeDiscreteNormal`: when some
offset is admissible, the result is the last offset in the scan order (`iX`
from `-1` to `1` in the outer loop, `iY` from `-1` to `1` in the inner loop)
among the admissible offsets that attain the maximal cosine with the
continuous normal. -/
theorem computeDiscreteNormal_last_of_ties (sqrt : T → T)
    (blockNormal : BlockGeometryStatistics2D T → Int → List T)
    (s : SuperGeometryStatistics2D T) (material : Int) (maxNorm : T)
    (hadm : ∃ o ∈ scanOffsets, Admissible sqrt maxNorm o) :
    IsLastMaximiser sqrt (computeNormal sqrt blockNormal s material) maxNorm
      (computeDiscreteNormal sqrt blockNormal s material maxNorm) :=
  scan_isLastMaximiser sqrt (computeNormal sqrt blockNormal s material) maxNorm hadm

end SuperGeometryStatistics2D
end olb

namespace olb
namespace SuperGeometryStatistics2D
variable {T : Type} [LinearOrderedField T]

theorem cosine_zero_normal (sqrt : T → T) (o : Int × Int) :
    cosine sqrt ([0, 0] : List T) o = 0 := by
  simp [cosine, vecGet]

theorem scan_zero_normal (sqrt : T → T) (hs1 : sqrt 1 = 1) (maxNorm : T)
    (h1 : 1 < maxNorm) (h2 : maxNorm ≤ sqrt 2) :
    scanDiscreteNormal sqrt ([0, 0] : List T) maxNorm = (0, [1, 0]) := by
  have hdiag : ∀ (st : T × List Int) (o : Int × Int), offsetNorm sqrt o = sqrt 2 →
      discreteNormalStep sqrt ([0, 0] : List T) maxNorm st o.1 o.2 = st := by
    intro st o hn
    apply discreteNormalStep_skip
    rintro ⟨⟨_, hlt⟩, _⟩
    rw [hn] at hlt
    exact absurd hlt (not_lt.2 h2)
  have haxis : ∀ (d : List Int) (o : Int × Int), d.length = 2 → offsetNorm sqrt o = sqrt 1 →
      discreteNormalStep sqrt ([0, 0] : List T) maxNorm (0, d) o.1 o.2 = (0, [o.1, o.2]) := by
    intro d o hd hn
    rw [discreteNormalStep_take sqrt _ maxNorm (0, d) o hd, cosine_zero_normal]
    · unfold Admissible
      rw [hn, hs1]
      exact ⟨zero_lt_one, h1⟩
    · rw [cosine_zero_normal]
  have hcenter : ∀ (st : T × List Int), sqrt 0 ≤ 0 →
      discreteNormalStep sqrt ([0, 0] : List T) maxNorm st 0 0 = st := by
    intro st h0
    apply discreteNormalStep_skip sqrt _ maxNorm st (0, 0)
    rintro ⟨⟨hpos, _⟩, _⟩
    have : offsetNorm sqrt ((0, 0) : Int × Int) = sqrt 0 := by
      simp only [offsetNorm]; norm_num
    rw [this] at hpos
    exact absurd hpos (not_lt.2 h0)
  have n2 : ∀ (o : Int × Int), o.1 * o.1 + o.2 * o.2 = 2 → offsetNorm sqrt o = sqrt 2 := by
    intro o h; simp only [offsetNorm, h]; norm_num
  have n1 : ∀ (o : Int × Int), o.1 * o.1 + o.2 * o.2 = 1 → offsetNorm sqrt o = sqrt 1 := by
    intro o h; simp only [offsetNorm, h]; norm_num
  by_cases h0 : sqrt 0 ≤ 0
  · rw [scanDiscreteNormal_eq_foldl]
    simp only [scanOffsets, List.foldl_cons, List.foldl_nil]
    have s1 := hdiag (0, [0, 0]) (-1, -1) (n2 _ (by decide))
    have s2 := haxis [0, 0] (-1, 0) rfl (n1 _ (by decide))
    have s3 := hdiag (0, [-1, 0]) (-1, 1) (n2 _ (by decide))
    have s4 := haxis [-1, 0] (0, -1) rfl (n1 _ (by decide))
    have s5 := hcenter (0, [0, -1]) h0
    have s6 := haxis [0, -1] (0, 1) rfl (n1 _ (by decide))
    have s7 := hdiag (0, [0, 1]) (1, -1) (n2 _ (by decide))
    have s8 := haxis [0, 1] (1, 0) rfl (n1 _ (by decide))
    have s9 := hdiag (0, [1, 0]) (1, 1) (n2 _ (by decide))
    simp only at s1 s2 s3 s4 s5 s6 s7 s8 s9
    rw [s1, s2, s3, s4, s5, s6, s7, s8, s9]
  · -- the centre is admissible only if `0 < sqrt 0 < maxNorm`; its cosine is `0` as well
    have hpos : 0 < sqrt 0 := not_le.1 h0
    rw [scanDiscreteNormal_eq_foldl]
    simp only [scanOffsets, List.foldl_cons, List.foldl_nil]
    have hc : ∀ d : List Int, d.length = 2 →
        (discreteNormalStep sqrt ([0, 0] : List T) maxNorm (0, d) 0 0).1 = 0 ∧
        (discreteNormalStep sqrt ([0, 0] : List T) maxNorm (0, d) 0 0).2.length = 2 := by
      intro d hd
      by_cases ha : Admissible sqrt maxNorm ((0, 0) : Int × Int)
      · have := discreteNormalStep_take sqrt ([0, 0] : List T) maxNorm (0, d) (0, 0) hd ha
          (by rw [cosine_zero_normal])
        simp only at this
        rw [this, cosine_zero_normal]
        exact ⟨rfl, rfl⟩
      · have := discreteNormalStep_skip sqrt ([0, 0] : List T) maxNorm (0, d) (0, 0)
          (fun h => ha h.1)
        simp only at this
        rw [this]
        exact ⟨rfl, hd⟩
    have s1 := hdiag (0, [0, 0]) (-1, -1) (n2 _ (by decide))
    have s2 := haxis [0, 0] (-1, 0) rfl (n1 _ (by decide))
    have s3 := hdiag (0, [-1, 0]) (-1, 1) (n2 _ (by decide))
    have s4 := haxis [-1, 0] (0, -1) rfl (n1 _ (by decide))
    simp only at s1 s2 s3 s4
    rw [s1, s2, s3, s4]
    obtain ⟨c1, c2⟩ := hc [0, -1] rfl
    generalize discreteNormalStep sqrt ([0, 0] : List T) maxNorm (0, [0, -1]) 0 0 = st5 at c1 c2
    obtain ⟨sa, d⟩ := st5
    simp only at c1 c2
    subst c1
    have s6 := haxis d (0, 1) c2 (n1 _ (by decide))
    have s7 := hdiag (0, [0, 1]) (1, -1) (n2 _ (by decide))
    have s8 := haxis [0, 1] (1, 0) rfl (n1 _ (by decide))
    have s9 := hdiag (0, [1, 0]) (1, 1) (n2 _ (by decide))
    simp only at s6 s7 s8 s9
    rw [s6, s7, s8, s9]

end SuperGeometryStatistics2D
end olb

namespace olb
namespace SuperGeometryStatistics2D
variable {T : Type} [LinearOrderedField T]

theorem computeNormal_zero_when_no_voxel (sqrt : T → T) (hs0 : sqrt 0 = 0)
    (blockNormal : BlockGeometryStatistics2D T → Int → List T)
    (s : SuperGeometryStatistics2D T) (m : Int)
    (h : ∀ b ∈ s.blocks, b.getNvoxel m = 0) :
    computeNormal sqrt blockNormal s m = [0, 0] := by
  unfold computeNormal
  rw [computeNormalTrace_of_no_voxel sqrt hs0 blockNormal s m h]

theorem mem_pre_of_scan_split (pre post : List (Int × Int))
    (hL : scanOffsets = pre ++ ((1, 0) : Int × Int) :: post) :
    ((-1, 0) : Int × Int) ∈ pre := by
  have hlen : pre.length + 1 + post.length = 9 := by
    have := congrArg List.length hL
    simp [scanOffsets] at this
    omega
  have hget : scanOffsets[pre.length]? = some ((1, 0) : Int × Int) := by
    rw [hL, List.getElem?_append_right (le_refl _)]; simp
  have htake : scanOffsets.take pre.length = pre := by
    rw [hL]; simp
  have hi : pre.length < 9 := by omega
  rw [← htake]
  generalize pre.length = i at hget hi
  interval_cases i <;> first | (exact absurd hget (by decide)) | decide

end SuperGeometryStatistics2D

open SuperGeometryStatistics2D

theorem sqrt_two_bounds : (1 : ℝ) < Real.sqrt 2 ∧ (11 / 10 : ℝ) ≤ Real.sqrt 2 := by
  constructor
  · rw [Real.lt_sqrt (by norm_num)]; norm_num
  · rw [Real.le_sqrt (by norm_num)] <;> norm_num

/-- Claim C14 over the reals, at a statistics without blocks, material `1` and
`maxNorm = 3/2`. -/
theorem computeDiscreteNormal_spec_witness :
    Real.sqrt 0 = 0 ∧ Real.sqrt 1 = 1 ∧ (1 : ℝ) < Real.sqrt 2 ∧
    (∃ a b : Int, computeDiscreteNormal Real.sqrt (fun _ _ => [0, 0])
        (SuperGeometryStatistics2D.new ([] : List (BlockGeometryStatistics2D ℝ))) 1 (3 / 2)
          = [a, b] ∧
      (a = -1 ∨ a = 0 ∨ a = 1) ∧ (b = -1 ∨ b = 0 ∨ b = 1)) :=
  ⟨Real.sqrt_zero, Real.sqrt_one, sqrt_two_bounds.1,
    (computeDiscreteNormal_spec Real.sqrt Real.sqrt_zero Real.sqrt_one sqrt_two_bounds.1
      (fun _ _ => [0, 0])
      (SuperGeometryStatistics2D.new ([] : List (BlockGeometryStatistics2D ℝ))) 1 (3 / 2)).1⟩

theorem admissible_axis_real : Admissible Real.sqrt (11 / 10 : ℝ) ((-1, 0) : Int × Int) := by
  unfold Admissible
  have : offsetNorm Real.sqrt ((-1, 0) : Int × Int) = 1 := by
    simp only [offsetNorm]; norm_num
  rw [this]
  constructor <;> norm_num

/-- Claim C15 as amended, over the reals, at a statistics without blocks,
material `1` and `maxNorm = 11/10`. -/
theorem computeDiscreteNormal_last_of_ties_witness :
    (∃ o ∈ scanOffsets, Admissible Real.sqrt (11 / 10 : ℝ) o) ∧
    IsLastMaximiser Real.sqrt
      (computeNormal Real.sqrt (fun _ _ => [0, 0])
        (SuperGeometryStatistics2D.new ([] : List (BlockGeometryStatistics2D ℝ))) 1)
      (11 / 10)
      (computeDiscreteNormal Real.sqrt (fun _ _ => [0, 0])
        (SuperGeometryStatistics2D.new ([] : List (BlockGeometryStatistics2D ℝ))) 1 (11 / 10)) :=
  ⟨⟨(-1, 0), by decide, admissible_axis_real⟩,
    computeDiscreteNormal_last_of_ties Real.sqrt (fun _ _ => [0, 0])
      (SuperGeometryStatistics2D.new ([] : List (BlockGeometryStatistics2D ℝ))) 1 (11 / 10)
      ⟨(-1, 0), by decide, admissible_axis_real⟩⟩

/-- Claim C15 as stated fails.  Over the reals, for a material without voxels
the continuous normal is `(0, 0)`, so with `maxNorm = 11/10` the four axis
offsets are admissible and all attain the maximal cosine `0`.  The first of
them in the scan order is `(-1, 0)`; `computeDiscreteNormal` returns `(1, 0)`,
the last one, which is not the first maximiser. -/
theorem computeDiscreteNormal_not_first_of_ties :
    computeNormal Real.sqrt (fun _ _ => [0, 0])
      (SuperGeometryStatistics2D.new ([] : List (BlockGeometryStatistics2D ℝ))) 1 = [0, 0] ∧
    computeDiscreteNormal Real.sqrt (fun _ _ => [0, 0])
      (SuperGeometryStatistics2D.new ([] : List (BlockGeometryStatistics2D ℝ))) 1 (11 / 10)
        = [1, 0] ∧
    ¬ IsFirstMaximiser Real.sqrt
      (computeNormal Real.sqrt (fun _ _ => [0, 0])
        (SuperGeometryStatistics2D.new ([] : List (BlockGeometryStatistics2D ℝ))) 1)
      (11 / 10)
      (computeDiscreteNormal Real.sqrt (fun _ _ => [0, 0])
        (SuperGeometryStatistics2D.new ([] : List (BlockGeometryStatistics2D ℝ))) 1 (11 / 10)) := by
  have hn : computeNormal Real.sqrt (fun _ _ => [0, 0])
      (SuperGeometryStatistics2D.new ([] : List (BlockGeometryStatistics2D ℝ))) 1 = [0, 0] :=
    computeNormal_zero_when_no_voxel Real.sqrt Real.sqrt_zero _ _ 1
      (fun _ hb => absurd hb (List.not_mem_nil _))
  have hd : computeDiscreteNormal Real.sqrt (fun _ _ => [0, 0])
      (SuperGeometryStatistics2D.new ([] : List (BlockGeometryStatistics2D ℝ))) 1 (11 / 10)
        = [1, 0] := by
    unfold computeDiscreteNormal
    rw [hn, scan_zero_normal Real.sqrt Real.sqrt_one (11 / 10) (by norm_num) sqrt_two_bounds.2]
  refine ⟨hn, hd, ?_⟩
  rw [hn, hd]
  rintro ⟨pre, post, o, hL, hdo, _, _, hpre⟩
  have ho : o = (1, 0) := by
    have h1 : (1 : Int) = o.1 := by injection hdo
    have h2 : (0 : Int) = o.2 := by
      injection hdo with _ ht
      injection ht
    exact Prod.ext h1.symm h2.symm
  subst ho
  have hmem := mem_pre_of_scan_split pre post hL
  have := hpre (-1, 0) hmem admissible_axis_real
  rw [cosine_zero_normal, cosine_zero_normal] at this
  exact lt_irrefl _ this

end olb

namespace olb
namespace Cuboid3D
variable {T : Type} [LinearOrderedField T] [FloorRing T]

theorem fractionalStep_eq (c : Cuboid3D T) (iD : Int) (hiD : iD = 0 ∨ iD = 1 ∨ iD = 2)
    (st : Vector3 T × List (Cuboid3D T)) (w : Int) :
    fractionalStep c iD st w
      = (⟨st.1.x + (if iD = 0 then (w : T) * c.delta else 0),
          st.1.y + (if iD = 1 then (w : T) * c.delta else 0),
          st.1.z + (if iD = 2 then (w : T) * c.delta else 0)⟩,
         st.2 ++ [{ globPosX := st.1.x, globPosY := st.1.y, globPosZ := st.1.z,
                    delta := c.delta,
                    nX := if iD = 0 then w else c.nX,
                    nY := if iD = 1 then w else c.nY,
                    nZ := if iD = 2 then w else c.nZ,
                    weight := sizeMax }]) := by
  rcases hiD with h | h | h <;> subst h <;>
    simp [fractionalStep, ofVectors, getExtent, Vector3.get, Vector3.ofFn]

theorem fractionalChildren_eq (c : Cuboid3D T) (iD : Int) (hiD : iD = 0 ∨ iD = 1 ∨ iD = 2)
    (widths : List Int) (out : List (Cuboid3D T)) :
    fractionalChildren c iD widths out = out ++ fractionalList c iD c.getOrigin widths := by
  unfold fractionalChildren
  generalize c.getOrigin = origin
  induction widths generalizing origin out with
  | nil => simp [fractionalList]
  | cons w t ih =>
    rw [List.foldl_cons, fractionalStep_eq c iD hiD]
    rw [ih]
    simp [fractionalList]

theorem fractionalList_length (c : Cuboid3D T) (iD : Int) (origin : Vector3 T)
    (ws : List Int) : (fractionalList c iD origin ws).length = ws.length := by
  induction ws generalizing origin with
  | nil => rfl
  | cons w t ih => simp [fractionalList, ih]

theorem fractionalList_extent (c : Cuboid3D T) (iD : Int) (hiD : iD = 0 ∨ iD = 1 ∨ iD = 2)
    (origin : Vector3 T) (ws : List Int) :
    (fractionalList c iD origin ws).map (fun ch => ch.getExtent.get iD) = ws := by
  induction ws generalizing origin with
  | nil => rfl
  | cons w t ih =>
    rw [fractionalList, List.map_cons, ih]
    congr 1
    rcases hiD with h | h | h <;> subst h <;> simp [getExtent, Vector3.get]

theorem fractionalList_members (c : Cuboid3D T) (iD : Int) (origin : Vector3 T)
    (ws : List Int) :
    ∀ ch ∈ fractionalList c iD origin ws,
      ch.delta = c.delta ∧
      (∀ j : Int, j ≠ iD → (j = 0 ∨ j = 1 ∨ j = 2) →
        ch.getExtent.get j = c.getExtent.get j) ∧
      (∀ j : Int, j ≠ iD → (j = 0 ∨ j = 1 ∨ j = 2) →
        ch.getOrigin.get j = origin.get j) := by
  induction ws generalizing origin with
  | nil => intro ch hch; exact absurd hch (List.not_mem_nil _)
  | cons w t ih =>
    intro ch hch
    rw [fractionalList] at hch
    rcases List.mem_cons.1 hch with rfl | hmem
    · refine ⟨rfl, ?_, ?_⟩
      · intro j hj hj3
        have hne : ¬ iD = j := fun h => hj h.symm
        rcases hj3 with h | h | h <;> subst h <;> simp [getExtent, Vector3.get, hne]
      · intro j _ _
        rfl
    · obtain ⟨h1, h2, h3⟩ := ih _ ch hmem
      refine ⟨h1, h2, ?_⟩
      intro j hj hj3
      rw [h3 j hj hj3]
      have hne : ¬ iD = j := fun h => hj h.symm
      rcases hj3 with h | h | h <;> subst h <;> simp [Vector3.get, hne]

theorem fractionalList_chain (c : Cuboid3D T) (iD : Int) (hiD : iD = 0 ∨ iD = 1 ∨ iD = 2)
    (origin : Vector3 T) (ws : List Int) :
    (∀ a, (fractionalList c iD origin ws)[0]? = some a → a.getOrigin = origin) ∧
    (∀ (k : Nat) (a b : Cuboid3D T),
      (fractionalList c iD origin ws)[k]? = some a →
      (fractionalList c iD origin ws)[k + 1]? = some b →
      b.getOrigin.get iD = a.getOrigin.get iD + (a.getExtent.get iD : T) * c.delta) := by
  induction ws generalizing origin with
  | nil =>
    constructor
    · intro a ha; simp [fractionalList] at ha
    · intro k a b ha; simp [fractionalList] at ha
  | cons w t ih =>
    obtain ⟨ih1, ih2⟩ := ih
      ⟨origin.x + (if iD = 0 then (w : T) * c.delta else 0),
       origin.y + (if iD = 1 then (w : T) * c.delta else 0),
       origin.z + (if iD = 2 then (w : T) * c.delta else 0)⟩
    constructor
    · intro a ha
      simp only [fractionalList, List.getElem?_cons_zero, Option.some.injEq] at ha
      subst ha
      rfl
    · intro k a b ha hb
      cases k with
      | zero =>
        simp only [fractionalList, List.getElem?_cons_zero, Option.some.injEq] at ha
        simp only [fractionalList, zero_add, List.getElem?_cons_succ] at hb
        have hb1 := ih1 b hb
        subst ha
        rw [hb1]
        rcases hiD with h | h | h <;> subst h <;> simp [getOrigin, getExtent, Vector3.get]
      | succ k =>
        simp only [fractionalList, List.getElem?_cons_succ] at ha hb
        exact ih2 k a b ha hb

theorem truncToInt_of_nonneg (x : T) (hx : 0 ≤ x) : truncToInt x = ⌊x⌋ := by
  unfold truncToInt
  rw [if_pos hx]

theorem sum_floor_le (fs : List T) (len : Int) (hL : 0 ≤ len) (hf : ∀ f ∈ fs, 0 ≤ f)
    (hsum : fs.sum ≤ 1) :
    (fs.map (fun f => ⌊f * (len : T)⌋)).sum ≤ len := by
  have hLT : (0 : T) ≤ (len : T) := by exact_mod_cast hL
  have h1 : (((fs.map (fun f => ⌊f * (len : T)⌋)).sum : Int) : T) ≤ fs.sum * (len : T) := by
    clear hsum
    induction fs with
    | nil => simp
    | cons f t ih =>
      simp only [List.map_cons, List.sum_cons]
      rw [Int.cast_add]
      have hfl := Int.floor_le (f * (len : T))
      have := ih (fun g hg => hf g (List.mem_cons_of_mem _ hg))
      rw [add_mul]
      linarith
  have h2 : fs.sum * (len : T) ≤ (len : T) := by
    have := mul_le_mul_of_nonneg_right hsum hLT
    linarith
  have h3 : (((fs.map (fun f => ⌊f * (len : T)⌋)).sum : Int) : T) ≤ (len : T) := le_trans h1 h2
  exact_mod_cast h3

end Cuboid3D
end olb

namespace olb
namespace Cuboid3D
variable {T : Type} [LinearOrderedField T] [FloorRing T]

theorem divideFractionalWith_concat (toInt : T → Int) (c : Cuboid3D T) (iD : Int)
    (hiD : iD = 0 ∨ iD = 1 ∨ iD = 2) (fs : List T) (fl : T) (out : List (Cuboid3D T)) :
    divideFractionalWith toInt c iD (fs ++ [fl]) out
      = some (out ++ fractionalList c iD c.getOrigin
          (fs.map (fun f => toInt (f * ((c.getExtent.get iD : Int) : T)))
            ++ [c.getExtent.get iD
                - (fs.map (fun f => toInt (f * ((c.getExtent.get iD : Int) : T)))).sum])) := by
  unfold divideFractionalWith
  simp only [dot_base c iD hiD, fractionWidthsLoop_eq]
  rw [List.map_append, List.map_cons, List.map_nil, addToBack_append]
  have hw : toInt (fl * ((c.getExtent.get iD : Int) : T))
      + (c.getExtent.get iD
          - (fs.map (fun f => toInt (f * ((c.getExtent.get iD : Int) : T)))
              ++ [toInt (fl * ((c.getExtent.get iD : Int) : T))]).sum)
      = c.getExtent.get iD
          - (fs.map (fun f => toInt (f * ((c.getExtent.get iD : Int) : T)))).sum := by
    simp only [List.sum_append, List.sum_cons, List.sum_nil]
    ring
  rw [hw]
  exact congrArg some (fractionalChildren_eq c iD hiD _ out)

theorem getExtent_get_nonneg (c : Cuboid3D T) (iD : Int)
    (hNX : 0 ≤ c.nX) (hNY : 0 ≤ c.nY) (hNZ : 0 ≤ c.nZ) : 0 ≤ c.getExtent.get iD := by
  unfold Vector3.get getExtent
  split
  · exact hNX
  · split
    · exact hNY
    · exact hNZ

/-- Claim C20.  `divideFractional(iD, fractions, out)` over exact arithmetic, for
a parent with extents `≥ 0`, an axis `iD` in `{0, 1, 2}` and a non-empty list of
non-negative fractions whose sum is at most `1`: one child per fraction is
appended, in order; every child but the last has the extent `floor(f_i*L)`
along axis `iD`, the last one has an extent `≥ floor(f_last*L)`, and every
child extent along `iD` is `≥ 0`; every child keeps the spacing and, on the two
other axes, the extents and the origin coordinates of the parent; the first
child starts at the origin of the parent and every next child starts where the
previous one ends along axis `iD`. -/
theorem divideFractional_children (c : Cuboid3D T) (iD : Int) (fractions : List T)
    (out : List (Cuboid3D T)) (hiD : iD = 0 ∨ iD = 1 ∨ iD = 2) (hne : fractions ≠ [])
    (hNX : 0 ≤ c.nX) (hNY : 0 ≤ c.nY) (hNZ : 0 ≤ c.nZ)
    (hf : ∀ f ∈ fractions, 0 ≤ f) (hsum : fractions.sum ≤ 1) :
    ∃ children : List (Cuboid3D T),
      divideFractional c iD fractions out = some (out ++ children) ∧
      children.length = fractions.length ∧
      children.dropLast.map (fun ch => ch.getExtent.get iD)
        = fractions.dropLast.map (fun f => ⌊f * ((c.getExtent.get iD : Int) : T)⌋) ∧
      (∃ (lastChild : Cuboid3D T) (fLast : T),
        children.getLast? = some lastChild ∧ fractions.getLast? = some fLast ∧
        ⌊fLast * ((c.getExtent.get iD : Int) : T)⌋ ≤ lastChild.getExtent.get iD) ∧
      (∀ ch ∈ children, 0 ≤ ch.getExtent.get iD ∧ ch.delta = c.delta ∧
        (∀ j : Int, j ≠ iD → (j = 0 ∨ j = 1 ∨ j = 2) →
          ch.getExtent.get j = c.getExtent.get j ∧ ch.getOrigin.get j = c.getOrigin.get j)) ∧
      (∀ a, children[0]? = some a → a.getOrigin = c.getOrigin) ∧
      (∀ (k : Nat) (a b : Cuboid3D T), children[k]? = some a → children[k + 1]? = some b →
        b.getOrigin.get iD = a.getOrigin.get iD + (a.getExtent.get iD : T) * c.delta) := by
  obtain ⟨fs, fl, rfl⟩ : ∃ fs fl, fractions = fs ++ [fl] :=
    ⟨fractions.dropLast, fractions.getLast hne, (List.dropLast_append_getLast hne).symm⟩
  have hL : 0 ≤ c.getExtent.get iD := getExtent_get_nonneg c iD hNX hNY hNZ
  have hLT : (0 : T) ≤ ((c.getExtent.get iD : Int) : T) := by exact_mod_cast hL
  have hfs : ∀ f ∈ fs, 0 ≤ f := fun f hfm => hf f (List.mem_append_left _ hfm)
  have hfl : 0 ≤ fl := hf fl (by simp)
  have hfront : fs.map (fun f => truncToInt (f * ((c.getExtent.get iD : Int) : T)))
      = fs.map (fun f => ⌊f * ((c.getExtent.get iD : Int) : T)⌋) := by
    apply List.map_congr_left
    intro f hfm
    exact truncToInt_of_nonneg _ (mul_nonneg (hfs f hfm) hLT)
  have hfloors := sum_floor_le (fs ++ [fl]) (c.getExtent.get iD) hL hf hsum
  simp only [List.map_append, List.map_cons, List.map_nil, List.sum_append, List.sum_cons,
    List.sum_nil, add_zero] at hfloors
  have hfl0 : 0 ≤ ⌊fl * ((c.getExtent.get iD : Int) : T)⌋ :=
    Int.floor_nonneg.2 (mul_nonneg hfl hLT)
  have hext := fractionalList_extent c iD hiD c.getOrigin
    (fs.map (fun f => ⌊f * ((c.getExtent.get iD : Int) : T)⌋)
      ++ [c.getExtent.get iD - (fs.map (fun f => ⌊f * ((c.getExtent.get iD : Int) : T)⌋)).sum])
  refine ⟨fractionalList c iD c.getOrigin
    (fs.map (fun f => ⌊f * ((c.getExtent.get iD : Int) : T)⌋)
      ++ [c.getExtent.get iD - (fs.map (fun f => ⌊f * ((c.getExtent.get iD : Int) : T)⌋)).sum]),
    ?_, ?_, ?_, ?_, ?_, ?_, ?_⟩
  · unfold divideFractional
    rw [divideFractionalWith_concat truncToInt c iD hiD, hfront]
  · rw [fractionalList_length]; simp
  · rw [List.map_dropLast, hext, List.dropLast_concat, List.dropLast_concat]
  · have hlast := congrArg List.getLast? hext
    rw [List.getLast?_map, List.getLast?_concat] at hlast
    cases hg : (fractionalList c iD c.getOrigin
      (fs.map (fun f => ⌊f * ((c.getExtent.get iD : Int) : T)⌋)
        ++ [c.getExtent.get iD
            - (fs.map (fun f => ⌊f * ((c.getExtent.get iD : Int) : T)⌋)).sum])).getLast? with
    | none => rw [hg] at hlast; simp at hlast
    | some lastChild =>
      rw [hg] at hlast
      simp only [Option.map_some', Option.some.injEq] at hlast
      refine ⟨lastChild, fl, rfl, List.getLast?_concat _, ?_⟩
      rw [hlast]
      omega
  · intro ch hch
    obtain ⟨m1, m2, m3⟩ := fractionalList_members c iD c.getOrigin _ ch hch
    refine ⟨?_, m1, fun j hj hj3 => ⟨m2 j hj hj3, m3 j hj hj3⟩⟩
    have hmem : ch.getExtent.get iD ∈
        (fs.map (fun f => ⌊f * ((c.getExtent.get iD : Int) : T)⌋)
          ++ [c.getExtent.get iD
              - (fs.map (fun f => ⌊f * ((c.getExtent.get iD : Int) : T)⌋)).sum]) := by
      rw [← hext]
      exact List.mem_map_of_mem _ hch
    rcases List.mem_append.1 hmem with h | h
    · obtain ⟨f, hfm, hfe⟩ := List.mem_map.1 h
      rw [← hfe]
      exact Int.floor_nonneg.2 (mul_nonneg (hfs f hfm) hLT)
    · rw [List.mem_singleton] at h
      rw [h]
      omega
  · exact (fractionalList_chain c iD hiD c.getOrigin _).1
  · exact (fractionalList_chain c iD hiD c.getOrigin _).2

end Cuboid3D

open Cuboid3D

/-- Claim C20 at `exampleBar`, axis `0` and the fractions `3/10, 1/3, 11/30`. -/
theorem divideFractional_children_witness :
    ((0 : Int) = 0 ∨ (0 : Int) = 1 ∨ (0 : Int) = 2) ∧
    ([3 / 10, 1 / 3, 11 / 30] : List ℚ) ≠ [] ∧
    0 ≤ exampleBar.nX ∧ 0 ≤ exampleBar.nY ∧ 0 ≤ exampleBar.nZ ∧
    (∀ f ∈ ([3 / 10, 1 / 3, 11 / 30] : List ℚ), 0 ≤ f) ∧
    ([3 / 10, 1 / 3, 11 / 30] : List ℚ).sum ≤ 1 ∧
    ∃ children : List (Cuboid3D ℚ),
      divideFractional exampleBar 0 [3 / 10, 1 / 3, 11 / 30] [] = some ([] ++ children) ∧
      children.length = ([3 / 10, 1 / 3, 11 / 30] : List ℚ).length :=
  have h1 : ∀ f ∈ ([3 / 10, 1 / 3, 11 / 30] : List ℚ), 0 ≤ f := by
    intro f hf
    simp only [List.mem_cons, List.mem_singleton, List.not_mem_nil, or_false] at hf
    rcases hf with rfl | rfl | rfl <;> norm_num
  have h2 : ([3 / 10, 1 / 3, 11 / 30] : List ℚ).sum ≤ 1 := by norm_num
  ⟨Or.inl rfl, by simp, by decide, by decide, by decide, h1, h2,
    (divideFractional_children exampleBar 0 [3 / 10, 1 / 3, 11 / 30] [] (Or.inl rfl) (by simp)
      (by decide) (by decide) (by decide) h1 h2).imp (fun _ h => ⟨h.1, h.2.1⟩)⟩

end olb

namespace olb
namespace SuperGeometryStatistics2D
variable {T : Type} [LinearOrderedField T]

theorem slot_accumulateEntry_ne (b : BlockGeometryStatistics2D T) (st : Caches T)
    (k n m : Int) (hne : k ≠ m) :
    slot (accumulateEntry b st (k, n)) m = slot st m := by
  have hmk : ¬ m = k := fun h => hne h.symm
  unfold accumulateEntry slot
  by_cases h0 : n = 0
  · simp [h0]
  · by_cases hc : st.material2n.count k = 0
    · simp [h0, hc, IntMap.find?_insert, hmk]
    · simp [h0, hc, IntMap.find?_insert, hmk]

theorem slot_accumulateEntry_self (b : BlockGeometryStatistics2D T) (st : Caches T)
    (m c : Int) (hc : c ≠ 0) :
    slot (accumulateEntry b st (m, c)) m
      = if st.material2n.find? m = none then
          (some c, some (b.getMinPhysR m), some (b.getMaxPhysR m))
        else
          (some ((st.material2n.find? m).getD 0 + c),
            some (lowerMin ((st.material2min.find? m).getD []) (b.getMinPhysR m)),
            some (raiseMax ((st.material2max.find? m).getD []) (b.getMaxPhysR m))) := by
  unfold accumulateEntry slot
  by_cases hn : st.material2n.find? m = none
  · have hcount := (IntMap.count_eq_zero_iff st.material2n m).2 hn
    simp [hc, hcount, hn, IntMap.find?_insert]
  · have hcount : ¬ st.material2n.count m = 0 :=
      fun h => hn ((IntMap.count_eq_zero_iff st.material2n m).1 h)
    simp [hc, hcount, hn, IntMap.find?_insert]

theorem slot_accumulateEntry_congr (b : BlockGeometryStatistics2D T) (st1 st2 : Caches T)
    (m c : Int) (h : slot st1 m = slot st2 m) :
    slot (accumulateEntry b st1 (m, c)) m = slot (accumulateEntry b st2 (m, c)) m := by
  by_cases hc : c = 0
  · subst hc
    simpa [accumulateEntry] using h
  · rw [slot_accumulateEntry_self b st1 m c hc, slot_accumulateEntry_self b st2 m c hc]
    unfold slot at h
    simp only [Prod.mk.injEq] at h
    rw [h.1, h.2.1, h.2.2]

theorem slot_entries (b : BlockGeometryStatistics2D T) (m : Int) (es : IntMap Int)
    (hnd : (es.map Prod.fst).Nodup) (st : Caches T) :
    slot (es.foldl (accumulateEntry b) st) m
      = slot (accumulateEntry b st (m, (IntMap.find? es m).getD 0)) m := by
  induction es generalizing st with
  | nil => simp [IntMap.find?, accumulateEntry]
  | cons e t ih =>
    obtain ⟨k, n⟩ := e
    rw [List.map_cons, List.nodup_cons] at hnd
    rw [List.foldl_cons, ih hnd.2]
    by_cases hk : m = k
    · subst hk
      have hnone : IntMap.find? t m = none := by
        cases hf : IntMap.find? t m with
        | none => rfl
        | some v =>
          exfalso
          apply hnd.1
          clear ih hnd
          induction t with
          | nil => simp [IntMap.find?] at hf
          | cons e2 t2 ih2 =>
            obtain ⟨k2, v2⟩ := e2
            unfold IntMap.find? at hf
            by_cases h2 : m = k2
            · simp [h2]
            · rw [if_neg h2] at hf
              simp [ih2 hf]
      rw [hnone]
      simp [IntMap.find?, accumulateEntry]
    · have hkm : k ≠ m := fun h => hk h.symm
      have hfind : IntMap.find? ((k, n) :: t) m = IntMap.find? t m := by
        simp [IntMap.find?, hk]
      rw [hfind]
      exact slot_accumulateEntry_congr b _ _ m _ (slot_accumulateEntry_ne b st k n m hkm)

theorem lowerMin_pair (a b : T) (v : List T) :
    lowerMin [a, b] v = [min a (vecGet v 0), min b (vecGet v 1)] := by
  have hr : List.range 2 = [0, 1] := rfl
  unfold lowerMin
  rw [hr]
  simp only [List.foldl_cons, List.foldl_nil]
  generalize vecGet v 0 = x
  generalize vecGet v 1 = y
  rcases le_or_lt a x with h0 | h0 <;> rcases le_or_lt b y with h1 | h1
  · simp [vecGet, not_lt.2 h0, not_lt.2 h1, min_eq_left h0, min_eq_left h1]
  · simp [vecGet, not_lt.2 h0, h1, min_eq_left h0, min_eq_right h1.le]
  · simp [vecGet, h0, not_lt.2 h1, min_eq_right h0.le, min_eq_left h1]
  · simp [vecGet, h0, h1, min_eq_right h0.le, min_eq_right h1.le]

theorem raiseMax_pair (a b : T) (v : List T) :
    raiseMax [a, b] v = [max a (vecGet v 0), max b (vecGet v 1)] := by
  have hr : List.range 2 = [0, 1] := rfl
  unfold raiseMax
  rw [hr]
  simp only [List.foldl_cons, List.foldl_nil]
  generalize vecGet v 0 = x
  generalize vecGet v 1 = y
  rcases le_or_lt x a with h0 | h0 <;> rcases le_or_lt y b with h1 | h1
  · simp [vecGet, not_lt.2 h0, not_lt.2 h1, max_eq_left h0, max_eq_left h1]
  · simp [vecGet, not_lt.2 h0, h1, max_eq_left h0, max_eq_right h1.le]
  · simp [vecGet, h0, not_lt.2 h1, max_eq_right h0.le, max_eq_left h1]
  · simp [vecGet, h0, h1, max_eq_right h0.le, max_eq_right h1.le]

theorem lowerMin_spec (cur v : List T) (hcur : cur.length = 2) :
    (lowerMin cur v).length = 2 ∧
    ∀ i : Nat, i < 2 → vecGet (lowerMin cur v) i = min (vecGet cur i) (vecGet v i) := by
  match cur, hcur with
  | [a, b], _ =>
    rw [lowerMin_pair]
    refine ⟨rfl, ?_⟩
    intro i hi
    interval_cases i <;> simp [vecGet]

theorem raiseMax_spec (cur v : List T) (hcur : cur.length = 2) :
    (raiseMax cur v).length = 2 ∧
    ∀ i : Nat, i < 2 → vecGet (raiseMax cur v) i = max (vecGet cur i) (vecGet v i) := by
  match cur, hcur with
  | [a, b], _ =>
    rw [raiseMax_pair]
    refine ⟨rfl, ?_⟩
    intro i hi
    interval_cases i <;> simp [vecGet]

end SuperGeometryStatistics2D
end olb

namespace olb
namespace SuperGeometryStatistics2D
variable {T : Type} [LinearOrderedField T]

theorem accumulateBlocks_bounds (m : Int) (i : Nat) (hi : i < 2)
    (blocks : List (BlockGeometryStatistics2D T))
    (hnd : ∀ b ∈ blocks, (b.material2n.map Prod.fst).Nodup)
    (hlen : ∀ b ∈ blocks, (b.getMinPhysR m).length = 2 ∧ (b.getMaxPhysR m).length = 2)
    (seen : List (BlockGeometryStatistics2D T)) (st : Caches T)
    (hn : st.material2n.find? m = none ↔ ∀ b ∈ seen, b.getNvoxel m = 0)
    (hb : (∃ b ∈ seen, b.getNvoxel m ≠ 0) →
      ∃ vmin vmax, st.material2min.find? m = some vmin ∧ st.material2max.find? m = some vmax ∧
        vmin.length = 2 ∧ vmax.length = 2 ∧
        (∀ b ∈ seen, b.getNvoxel m ≠ 0 →
          vecGet vmin i ≤ vecGet (b.getMinPhysR m) i ∧
          vecGet (b.getMaxPhysR m) i ≤ vecGet vmax i) ∧
        (∃ b ∈ seen, b.getNvoxel m ≠ 0 ∧ vecGet vmin i = vecGet (b.getMinPhysR m) i) ∧
        (∃ b ∈ seen, b.getNvoxel m ≠ 0 ∧ vecGet vmax i = vecGet (b.getMaxPhysR m) i)) :
    ((accumulateBlocks blocks st).material2n.find? m = none
        ↔ ∀ b ∈ seen ++ blocks, b.getNvoxel m = 0) ∧
    ((∃ b ∈ seen ++ blocks, b.getNvoxel m ≠ 0) →
      ∃ vmin vmax, (accumulateBlocks blocks st).material2min.find? m = some vmin ∧
        (accumulateBlocks blocks st).material2max.find? m = some vmax ∧
        vmin.length = 2 ∧ vmax.length = 2 ∧
        (∀ b ∈ seen ++ blocks, b.getNvoxel m ≠ 0 →
          vecGet vmin i ≤ vecGet (b.getMinPhysR m) i ∧
          vecGet (b.getMaxPhysR m) i ≤ vecGet vmax i) ∧
        (∃ b ∈ seen ++ blocks, b.getNvoxel m ≠ 0 ∧
          vecGet vmin i = vecGet (b.getMinPhysR m) i) ∧
        (∃ b ∈ seen ++ blocks, b.getNvoxel m ≠ 0 ∧
          vecGet vmax i = vecGet (b.getMaxPhysR m) i)) := by
  induction blocks generalizing seen st with
  | nil =>
    simp only [List.append_nil]
    exact ⟨hn, hb⟩
  | cons b t ih =>
    have happ : seen ++ b :: t = (seen ++ [b]) ++ t := by simp
    have hacc : accumulateBlocks (b :: t) st
        = accumulateBlocks t (b.getMaterial2n.foldl (accumulateEntry b) st) := rfl
    rw [happ, hacc]
    have hslot := slot_entries b m b.getMaterial2n (hnd b (List.mem_cons_self _ _)) st
    have hcdef : (IntMap.find? b.getMaterial2n m).getD 0 = b.getNvoxel m := rfl
    rw [hcdef] at hslot
    have hlb := hlen b (List.mem_cons_self _ _)
    apply ih (fun b1 hb1 => hnd b1 (List.mem_cons_of_mem _ hb1))
      (fun b1 hb1 => hlen b1 (List.mem_cons_of_mem _ hb1))
    · -- the count entry
      by_cases hc : b.getNvoxel m = 0
      · have hsame : slot (b.getMaterial2n.foldl (accumulateEntry b) st) m = slot st m := by
          rw [hslot, hc]; simp [accumulateEntry]
        have h1 := congrArg Prod.fst hsame
        simp only [slot] at h1
        rw [h1, hn]
        constructor
        · intro h b1 hb1
          rcases List.mem_append.1 hb1 with h2 | h2
          · exact h b1 h2
          · rw [List.mem_singleton] at h2; rw [h2]; exact hc
        · intro h b1 hb1
          exact h b1 (List.mem_append_left _ hb1)
      · rw [slot_accumulateEntry_self b st m _ hc] at hslot
        have h1 := congrArg Prod.fst hslot
        simp only [slot] at h1
        constructor
        · intro h
          rw [h] at h1
          split at h1 <;> simp at h1
        · intro h
          exact absurd (h b (by simp)) hc
    · -- the bounds
      intro hex
      by_cases hc : b.getNvoxel m = 0
      · have hsame : slot (b.getMaterial2n.foldl (accumulateEntry b) st) m = slot st m := by
          rw [hslot, hc]; simp [accumulateEntry]
        have h2 := congrArg (fun p => p.2.1) hsame
        have h3 := congrArg (fun p => p.2.2) hsame
        simp only [slot] at h2 h3
        rw [h2, h3]
        have hex1 : ∃ b1 ∈ seen, b1.getNvoxel m ≠ 0 := by
          obtain ⟨b1, hb1, hb1c⟩ := hex
          rcases List.mem_append.1 hb1 with h | h
          · exact ⟨b1, h, hb1c⟩
          · rw [List.mem_singleton] at h; rw [h] at hb1c; exact absurd hc hb1c
        obtain ⟨vmin, vmax, e1, e2, l1, l2, hall, hmin, hmax⟩ := hb hex1
        refine ⟨vmin, vmax, e1, e2, l1, l2, ?_, ?_, ?_⟩
        · intro b1 hb1 hb1c
          rcases List.mem_append.1 hb1 with h | h
          · exact hall b1 h hb1c
          · rw [List.mem_singleton] at h; rw [h] at hb1c; exact absurd hc hb1c
        · obtain ⟨b1, hb1, hb1c, hb1e⟩ := hmin
          exact ⟨b1, List.mem_append_left _ hb1, hb1c, hb1e⟩
        · obtain ⟨b1, hb1, hb1c, hb1e⟩ := hmax
          exact ⟨b1, List.mem_append_left _ hb1, hb1c, hb1e⟩
      · rw [slot_accumulateEntry_self b st m _ hc] at hslot
        have h2 := congrArg (fun p => p.2.1) hslot
        have h3 := congrArg (fun p => p.2.2) hslot
        simp only [slot] at h2 h3
        by_cases hnone : st.material2n.find? m = none
        · rw [if_pos hnone] at h2 h3
          simp only at h2 h3
          have hseen := hn.1 hnone
          refine ⟨b.getMinPhysR m, b.getMaxPhysR m, h2, h3, hlb.1, hlb.2, ?_, ?_, ?_⟩
          · intro b1 hb1 hb1c
            rcases List.mem_append.1 hb1 with h | h
            · exact absurd (hseen b1 h) hb1c
            · rw [List.mem_singleton] at h; rw [h]; exact ⟨le_refl _, le_refl _⟩
          · exact ⟨b, by simp, hc, rfl⟩
          · exact ⟨b, by simp, hc, rfl⟩
        · rw [if_neg hnone] at h2 h3
          simp only at h2 h3
          have hex1 : ∃ b1 ∈ seen, b1.getNvoxel m ≠ 0 := by
            by_contra hcon
            push_neg at hcon
            exact hnone (hn.2 hcon)
          obtain ⟨vmin, vmax, e1, e2, l1, l2, hall, hmin, hmax⟩ := hb hex1
          rw [e1] at h2
          rw [e2] at h3
          simp only [Option.getD_some] at h2 h3
          have hlo := lowerMin_spec vmin (b.getMinPhysR m) l1
          have hra := raiseMax_spec vmax (b.getMaxPhysR m) l2
          refine ⟨_, _, h2, h3, hlo.1, hra.1, ?_, ?_, ?_⟩
          · intro b1 hb1 hb1c
            rw [hlo.2 i hi, hra.2 i hi]
            rcases List.mem_append.1 hb1 with h | h
            · exact ⟨le_trans (min_le_left _ _) (hall b1 h hb1c).1,
                le_trans (hall b1 h hb1c).2 (le_max_left _ _)⟩
            · rw [List.mem_singleton] at h; rw [h]
              exact ⟨min_le_right _ _, le_max_right _ _⟩
          · rw [hlo.2 i hi]
            rcases le_total (vecGet vmin i) (vecGet (b.getMinPhysR m) i) with h | h
            · obtain ⟨b1, hb1, hb1c, hb1e⟩ := hmin
              exact ⟨b1, List.mem_append_left _ hb1, hb1c, by rw [min_eq_left h, hb1e]⟩
            · exact ⟨b, by simp, hc, min_eq_right h⟩
          · rw [hra.2 i hi]
            rcases le_total (vecGet (b.getMaxPhysR m) i) (vecGet vmax i) with h | h
            · obtain ⟨b1, hb1, hb1c, hb1e⟩ := hmax
              exact ⟨b1, List.mem_append_left _ hb1, hb1c, by rw [max_eq_left h, hb1e]⟩
            · exact ⟨b, by simp, hc, max_eq_right h⟩

end SuperGeometryStatistics2D
end olb

namespace olb
namespace SuperGeometryStatistics2D
variable {T : Type} [LinearOrderedField T]

theorem update_of_flagged (s : SuperGeometryStatistics2D T)
    (hs : s.statisticsUpdateNeeded = true)
    (hd : ∃ b ∈ s.blocks, b.statisticsUpdateNeeded = true) :
    s.update =
      { blocks := s.blocks.map (fun b => b.update), statisticsUpdateNeeded := false,
        nMaterials := countMaterials (s.blocks.map (fun b => b.update)),
        material2n := (accumulateBlocks (s.blocks.map (fun b => b.update))
          { material2n := [], material2min := s.material2min,
            material2max := s.material2max }).material2n,
        material2min := (accumulateBlocks (s.blocks.map (fun b => b.update))
          { material2n := [], material2min := s.material2min,
            material2max := s.material2max }).material2min,
        material2max := (accumulateBlocks (s.blocks.map (fun b => b.update))
          { material2n := [], material2min := s.material2min,
            material2max := s.material2max }).material2max } := by
  have hcount : ¬ (((s.blocks.countP (fun b => b.statisticsUpdateNeeded) : Nat) : Int) = 0) := by
    obtain ⟨b, hb, hflag⟩ := hd
    have : 0 < s.blocks.countP (fun b => b.statisticsUpdateNeeded) :=
      List.countP_pos_iff.2 ⟨b, hb, hflag⟩
    omega
  unfold update
  rw [if_pos hs]
  simp only [updateBlocks_eq, hcount, if_false]

theorem block_update_status (b : BlockGeometryStatistics2D T) :
    b.update.getStatisticsStatus = false := by
  unfold BlockGeometryStatistics2D.update BlockGeometryStatistics2D.getStatisticsStatus
  by_cases h : b.statisticsUpdateNeeded = true
  · simp [h]
  · rw [if_neg h]
    simpa using h

/-- Claim C12, amended.  Dirty propagation in `update()` is gated by the
super-level flag `_statisticsUpdateNeeded`.  When the flag is clear, `update()`
changes nothing, whatever the flags of the blocks are.  When the flag is set
and the statistics of some local block is Dirty at the call: every block
statistics is refreshed and Clean afterwards, the super statistics is Clean,
the super-level count of every material is the sum of the block counts, and
for every material with voxels in some block the cached minimal (maximal)
corner is, in each of the two dimensions, the least (greatest) of the corners
of the blocks that hold voxels of it.  The maps of a block have distinct keys
and the corners of the blocks have two components. -/
theorem update_propagates_dirty_block (s : SuperGeometryStatistics2D T) :
    (s.getStatisticsStatus = false → s.update = s) ∧
    (s.getStatisticsStatus = true →
      (∃ b ∈ s.blocks, b.getStatisticsStatus = true) →
      (∀ b ∈ s.update.blocks, (b.material2n.map Prod.fst).Nodup) →
      (∀ b ∈ s.update.blocks, ∀ m : Int,
        (b.getMinPhysR m).length = 2 ∧ (b.getMaxPhysR m).length = 2) →
      s.update.blocks = s.blocks.map (fun b => b.update) ∧
      (∀ b ∈ s.update.blocks, b.getStatisticsStatus = false) ∧
      s.update.getStatisticsStatus = false ∧
      (∀ m : Int, s.update.getNvoxel m = (s.update.blocks.map (fun b => b.getNvoxel m)).sum) ∧
      (∀ m : Int, (∃ b ∈ s.update.blocks, b.getNvoxel m ≠ 0) → ∀ i : Nat, i < 2 →
        (∀ b ∈ s.update.blocks, b.getNvoxel m ≠ 0 →
          vecGet (s.update.getMinPhysR m) i ≤ vecGet (b.getMinPhysR m) i ∧
          vecGet (b.getMaxPhysR m) i ≤ vecGet (s.update.getMaxPhysR m) i) ∧
        (∃ b ∈ s.update.blocks, b.getNvoxel m ≠ 0 ∧
          vecGet (s.update.getMinPhysR m) i = vecGet (b.getMinPhysR m) i) ∧
        (∃ b ∈ s.update.blocks, b.getNvoxel m ≠ 0 ∧
          vecGet (s.update.getMaxPhysR m) i = vecGet (b.getMaxPhysR m) i))) := by
  constructor
  · intro hclear
    have hflag : s.statisticsUpdateNeeded = false := hclear
    unfold update
    rw [hflag]
    rfl
  intro hs hd hnd hlen
  have hupd := update_of_flagged s hs hd
  rw [hupd] at hnd hlen ⊢
  simp only at hnd hlen ⊢
  refine ⟨trivial, ?_, rfl, ?_, ?_⟩
  · intro b hb
    obtain ⟨b0, _, rfl⟩ := List.mem_map.1 hb
    exact block_update_status b0
  · intro m
    have hget : ∀ (t : SuperGeometryStatistics2D T),
        t.getNvoxel m = (t.material2n.find? m).getD 0 := by
      intro t
      unfold getNvoxel
      cases t.material2n.find? m <;> rfl
    rw [hget]
    simp only
    rw [accumulateBlocks_count _ hnd]
    simp [IntMap.find?]
  · intro m hex i hi
    have hinv := accumulateBlocks_bounds m i hi (s.blocks.map (fun b => b.update)) hnd
      (fun b hb => hlen b hb m) []
      { material2n := [], material2min := s.material2min, material2max := s.material2max }
      (by simp [IntMap.find?]) (by simp)
    simp only [List.nil_append] at hinv
    obtain ⟨vmin, vmax, e1, e2, _, _, hall, hmin, hmax⟩ := hinv.2 hex
    have hgmin : ∀ (t : SuperGeometryStatistics2D T),
        t.material2min.find? m = some vmin → t.getMinPhysR m = vmin := by
      intro t ht
      unfold getMinPhysR
      rw [ht]
    have hgmax : ∀ (t : SuperGeometryStatistics2D T),
        t.material2max.find? m = some vmax → t.getMaxPhysR m = vmax := by
      intro t ht
      unfold getMaxPhysR
      rw [ht]
    rw [hgmin _ e1, hgmax _ e2]
    exact ⟨hall, hmin, hmax⟩

end SuperGeometryStatistics2D

open SuperGeometryStatistics2D

/-- Claim C12, amended, at two inputs.  With the flag clear (`exampleUnflagged`,
whose block is Dirty) `update()` changes nothing.  With the flag set, at the
super statistics of `exampleBlock` and `exampleBlockB` right after its
construction, the count of material `1` is `8`, the sum of the block counts, and
its corners are `(0, 0)` and `(7, 0)`. -/
theorem update_propagates_dirty_block_witness :
    (exampleUnflagged.getStatisticsStatus = false ∧ exampleUnflagged.update = exampleUnflagged) ∧
    (SuperGeometryStatistics2D.new [exampleBlock, exampleBlockB]).getStatisticsStatus = true ∧
    (∃ b ∈ (SuperGeometryStatistics2D.new [exampleBlock, exampleBlockB]).blocks,
      b.getStatisticsStatus = true) ∧
    (SuperGeometryStatistics2D.new [exampleBlock, exampleBlockB]).update.getNvoxel 1 = 8 ∧
    (SuperGeometryStatistics2D.new [exampleBlock, exampleBlockB]).update.getMinPhysR 1 = [0, 0] ∧
    (SuperGeometryStatistics2D.new [exampleBlock, exampleBlockB]).update.getMaxPhysR 1 = [7, 0] ∧
    ((SuperGeometryStatistics2D.new [exampleBlock, exampleBlockB]).update.blocks.map
      (fun b => b.getNvoxel 1)).sum = 8 ∧
    (SuperGeometryStatistics2D.new [exampleBlock, exampleBlockB]).update.getNvoxel 1
      = ((SuperGeometryStatistics2D.new [exampleBlock, exampleBlockB]).update.blocks.map
          (fun b => b.getNvoxel 1)).sum :=
  have hd : ∃ b ∈ (SuperGeometryStatistics2D.new [exampleBlock, exampleBlockB]).blocks,
      b.getStatisticsStatus = true := ⟨exampleBlock, by simp [SuperGeometryStatistics2D.new], rfl⟩
  have hnd : ∀ b ∈ (SuperGeometryStatistics2D.new [exampleBlock, exampleBlockB]).update.blocks,
      (b.material2n.map Prod.fst).Nodup := by decide
  have hlen : ∀ b ∈ (SuperGeometryStatistics2D.new [exampleBlock, exampleBlockB]).update.blocks,
      ∀ m : Int, (b.getMinPhysR m).length = 2 ∧ (b.getMaxPhysR m).length = 2 := by
    intro b hb m
    have hb2 : b = exampleBlock.update ∨ b = exampleBlockB.update := by
      have : (SuperGeometryStatistics2D.new [exampleBlock, exampleBlockB]).update.blocks
          = [exampleBlock.update, exampleBlockB.update] := rfl
      rw [this] at hb
      simpa using hb
    rcases hb2 with rfl | rfl
    · by_cases h : m = 1
      · subst h; decide
      · simp [BlockGeometryStatistics2D.getMinPhysR, BlockGeometryStatistics2D.getMaxPhysR,
          BlockGeometryStatistics2D.update, exampleBlock, IntMap.find?, h]
    · by_cases h : m = 1
      · subst h; decide
      · simp [BlockGeometryStatistics2D.getMinPhysR, BlockGeometryStatistics2D.getMaxPhysR,
          BlockGeometryStatistics2D.update, exampleBlockB, IntMap.find?, h]
  ⟨⟨rfl, (update_propagates_dirty_block exampleUnflagged).1 rfl⟩,
    rfl, hd, by decide, by decide, by decide, by decide,
    ((update_propagates_dirty_block
      (SuperGeometryStatistics2D.new [exampleBlock, exampleBlockB])).2 rfl hd hnd hlen).2.2.2.1 1⟩

/-- Claim C12 as stated fails at `exampleUnflagged`: the block is Dirty and the
super-level flag is clear; `update()` changes nothing, the block stays Dirty
and the super-level count of material `1` stays `0` while a scan of the block
finds `5` voxels of it. -/
theorem update_skips_dirty_block_when_flag_clear :
    (∃ b ∈ exampleUnflagged.blocks, b.getStatisticsStatus = true) ∧
    exampleUnflagged.getStatisticsStatus = false ∧
    exampleUnflagged.update.blocks = exampleUnflagged.blocks ∧
    (∀ b ∈ exampleUnflagged.update.blocks, b.getStatisticsStatus = true) ∧
    (∀ b ∈ exampleUnflagged.update.blocks, b.getNvoxel 1 = 0) ∧
    exampleUnflagged.update.getNvoxel 1 = 0 ∧
    (exampleUnflagged.blocks.map (fun b => b.update.getNvoxel 1)).sum = 5 ∧
    (SuperGeometryStatistics2D.new exampleUnflagged.blocks).update.getNvoxel 1 = 5 := by
  refine ⟨⟨exampleBlock, by simp [exampleUnflagged], rfl⟩, rfl, rfl, ?_, ?_, ?_, ?_, ?_⟩ <;> decide

end olb

namespace olb
namespace Cuboid3D
variable {T : Type}

theorem getBlock_dataPtr (c : Cuboid3D T) (sizeOf : CuboidField → Nat) (iBlock sizeBlock : Nat) :
    (c.getBlock sizeOf iBlock sizeBlock).dataPtr
      = [CuboidField.globPosX, CuboidField.globPosY, CuboidField.globPosZ, CuboidField.delta,
          CuboidField.nX, CuboidField.nY, CuboidField.nZ, CuboidField.weight][iBlock]? := by
  by_cases h : iBlock < 8
  · interval_cases iBlock <;> simp [getBlock, registerVar]
  · have h8 : 8 ≤ iBlock := Nat.le_of_not_lt h
    have hnone : [CuboidField.globPosX, CuboidField.globPosY, CuboidField.globPosZ,
        CuboidField.delta, CuboidField.nX, CuboidField.nY, CuboidField.nZ,
        CuboidField.weight][iBlock]? = none := by
      apply List.getElem?_eq_none
      simpa using h8
    rw [hnone]
    have e0 : ¬ iBlock = 0 := by omega
    have e1 : ¬ iBlock = 1 := by omega
    have e2 : ¬ iBlock = 2 := by omega
    have e3 : ¬ iBlock = 3 := by omega
    have e4 : ¬ iBlock = 4 := by omega
    have e5 : ¬ iBlock = 5 := by omega
    have e6 : ¬ iBlock = 6 := by omega
    have e7 : ¬ iBlock = 7 := by omega
    simp [getBlock, registerVar, e0, e1, e2, e3, e4, e5, e6, e7]

/-- Claim C21, evaluation of the code.  `getBlock(i, size, mode)` serves the
eight members origin x, origin y, origin z, delta, nX, nY, nZ, weight in this
order for `i = 0 .. 7` and returns the null pointer for every `i >= 8`, while
`getNblock()` is `9`: the index `8` is below `getNblock()` and `getBlock(8, ...)`
is null. -/
theorem getBlock_serves_eight_of_nine (c : Cuboid3D T) (sizeOf : CuboidField → Nat)
    (sizeBlock : Nat) :
    c.getNblock = 9 ∧
    (List.range 8).map (fun i => (c.getBlock sizeOf i sizeBlock).dataPtr)
      = [some CuboidField.globPosX, some CuboidField.globPosY, some CuboidField.globPosZ,
          some CuboidField.delta, some CuboidField.nX, some CuboidField.nY,
          some CuboidField.nZ, some CuboidField.weight] ∧
    (∀ i : Nat, (c.getBlock sizeOf i sizeBlock).dataPtr ≠ none ↔ i < 8) ∧
    8 < c.getNblock ∧ (c.getBlock sizeOf 8 sizeBlock).dataPtr = none := by
  refine ⟨rfl, ?_, ?_, (by simp [getNblock]), ?_⟩
  · simp [List.range_succ, getBlock_dataPtr]
  · intro i
    rw [getBlock_dataPtr]
    constructor
    · intro h
      by_contra hlt
      apply h
      apply List.getElem?_eq_none
      simpa using hlt
    · intro h hnone
      rw [List.getElem?_eq_none_iff] at hnone
      simp at hnone
      omega
  · rw [getBlock_dataPtr]
    rfl

end Cuboid3D
end olb

namespace olb

theorem wrapInt_of_inRange (i : Int) (h : -(2 ^ 31) ≤ i ∧ i < 2 ^ 31) : wrapInt i = i := by
  unfold wrapInt
  have h1 : (i + 2 ^ 31) % 2 ^ 32 = i + 2 ^ 31 :=
    Int.emod_eq_of_lt (by omega) (by omega)
  rw [h1]
  ring

namespace Cuboid3D
variable {T : Type} [LinearOrderedField T] [FloorRing T]

theorem refine_of_gt_one (c : Cuboid3D T) (factor : Int) (hf : 1 < factor) :
    c.refine factor =
      (Thrown.none,
        { c with delta := c.delta / (factor : T),
                 nX := c.nX * factor, nY := c.nY * factor, nZ := c.nZ * factor,
                 weight := sizeMul c.weight (toSizeT (factor * factor * factor)) }) := by
  unfold refine
  rw [if_neg (by omega), if_pos (by omega)]

theorem getPhysVolume_of_inRange (c : Cuboid3D T)
    (h1 : InIntRange (c.nY * c.nX)) (h2 : InIntRange (c.nY * c.nX * c.nZ)) :
    c.getPhysVolume = ((c.nY * c.nX * c.nZ : Int) : T) * c.delta * c.delta * c.delta := by
  unfold getPhysVolume intMul
  rw [wrapInt_of_inRange _ h1, wrapInt_of_inRange _ h2]

/-- The part of claim C23 that holds: `refine(factor)` with `factor > 1` over
exact arithmetic returns, keeps the origin, divides the spacing by `factor`,
multiplies every extent by `factor` and the lattice volume by `factor^3` (as an
integer, and as the `size_t` value of `getLatticeVolume()` modulo `2^64`), and
`getPhysR(factor*x)` after the call is `getPhysR(x)` before the call;
`getPhysVolume()` is unchanged when its `int` products stay in the range of
`int` before and after the call. -/
theorem refine_scaling_within_int (c : Cuboid3D T) (factor : Int) (hf : 1 < factor) :
    (c.refine factor).1 = Thrown.none ∧
    (c.refine factor).2.getOrigin = c.getOrigin ∧
    (c.refine factor).2.delta = c.delta / (factor : T) ∧
    (c.refine factor).2.getExtent = ⟨c.nX * factor, c.nY * factor, c.nZ * factor⟩ ∧
    latticeVolumeInt (c.refine factor).2 = factor ^ 3 * latticeVolumeInt c ∧
    (c.refine factor).2.getLatticeVolume = sizeMul (toSizeT (factor ^ 3)) c.getLatticeVolume ∧
    (∀ x y z : Int,
      (c.refine factor).2.getPhysR (factor * x, factor * y, factor * z)
        = c.getPhysR (x, y, z)) ∧
    (InIntRange (c.nY * c.nX) → InIntRange (c.nY * c.nX * c.nZ) →
      InIntRange (c.nY * factor * (c.nX * factor)) →
      InIntRange (c.nY * factor * (c.nX * factor) * (c.nZ * factor)) →
      (c.refine factor).2.getPhysVolume = c.getPhysVolume) := by
  have hfT : (factor : T) ≠ 0 := by
    have : (0 : T) < (factor : T) := by exact_mod_cast (by omega : (0 : Int) < factor)
    exact ne_of_gt this
  have hvol : latticeVolumeInt (c.refine factor).2 = factor ^ 3 * latticeVolumeInt c := by
    rw [refine_of_gt_one c factor hf]
    simp only [latticeVolumeInt]
    ring
  rw [getLatticeVolume_eq_int, getLatticeVolume_eq_int, hvol, sizeMul_toSizeT]
  rw [refine_of_gt_one c factor hf]
  refine ⟨rfl, rfl, rfl, rfl, rfl, rfl, ?_, ?_⟩
  · intro x y z
    simp only [getPhysR]
    push_cast
    refine Prod.ext ?_ (Prod.ext ?_ ?_) <;> simp only <;> field_simp <;> ring
  · intro h1 h2 h3 h4
    rw [getPhysVolume_of_inRange c h1 h2, getPhysVolume_of_inRange _ h3 h4]
    simp only
    push_cast
    field_simp
    ring

end Cuboid3D

open Cuboid3D

/-- Claim C23, evaluation of the code.  The cuboid `exampleLarge` has
`700 x 700 x 700` nodes and spacing `1`, its physical volume is `343000000`.
`refine(2)` returns and gives `1400` nodes per axis with spacing `1/2`; the
lattice volume `2744000000` is `8` times the former one.  In `getPhysVolume()`
the `int` product `1400*1400*1400` leaves the range of `int`, its 32 bit value
is `-1550967296`, and the physical volume after the call is `-193870912`
instead of `343000000`. -/
theorem refine_two_changes_physVolume :
    exampleLarge.getPhysVolume = 343000000 ∧
    exampleLarge.getLatticeVolume = 343000000 ∧
    (exampleLarge.refine 2).1 = Thrown.none ∧
    (exampleLarge.refine 2).2.getExtent = ⟨1400, 1400, 1400⟩ ∧
    (exampleLarge.refine 2).2.delta = 1 / 2 ∧
    (exampleLarge.refine 2).2.getLatticeVolume = 2744000000 ∧
    ¬ InIntRange (1400 * 1400 * 1400) ∧
    intMul (intMul 1400 1400) 1400 = -1550967296 ∧
    (exampleLarge.refine 2).2.getPhysVolume = -193870912 ∧
    (exampleLarge.refine 2).2.getPhysVolume ≠ exampleLarge.getPhysVolume := by
  have hw : intMul (intMul 1400 1400) 1400 = -1550967296 := by decide
  have hw0 : intMul (intMul 700 700) 700 = 343000000 := by decide
  have h0 : exampleLarge.getPhysVolume = 343000000 := by
    simp only [getPhysVolume, exampleLarge, Cuboid3D.new, hw0]
    norm_num
  have hr := refine_of_gt_one exampleLarge 2 (by decide)
  have h1 : (exampleLarge.refine 2).2.getPhysVolume = -193870912 := by
    rw [hr]
    simp only [getPhysVolume, exampleLarge, Cuboid3D.new]
    rw [show (700 : Int) * 2 = 1400 by norm_num, hw]
    norm_num
  refine ⟨h0, by decide, by decide, ?_, ?_, ?_, ?_, hw, h1, ?_⟩
  · rw [hr]; rfl
  · rw [hr]
    simp only [exampleLarge, Cuboid3D.new]
    norm_num
  · rw [hr]; decide
  · unfold InIntRange; norm_num
  · rw [h0, h1]; norm_num

end olb

namespace olb
namespace Cuboid3D
variable {T : Type} [LinearOrderedField T] [FloorRing T]

theorem checkPoint_true_iff (c : Cuboid3D T) (hδ : 0 < c.delta) (x y z : T) (overlap : Int) :
    c.checkPoint x y z overlap = true ↔
      (-overlap ≤ ⌊(x - c.globPosX) / c.delta + 1 / 2⌋ ∧
        ⌊(x - c.globPosX) / c.delta + 1 / 2⌋ ≤ c.nX + overlap - 1) ∧
      (-overlap ≤ ⌊(y - c.globPosY) / c.delta + 1 / 2⌋ ∧
        ⌊(y - c.globPosY) / c.delta + 1 / 2⌋ ≤ c.nY + overlap - 1) ∧
      (-overlap ≤ ⌊(z - c.globPosZ) / c.delta + 1 / 2⌋ ∧
        ⌊(z - c.globPosZ) / c.delta + 1 / 2⌋ ≤ c.nZ + overlap - 1) := by
  simp only [checkPoint, Bool.and_eq_true, decide_eq_true_eq, and_assoc]
  rw [lower_test_iff c.globPosX c.delta x hδ overlap, upper_test_iff c.globPosX c.delta x hδ,
    lower_test_iff c.globPosY c.delta y hδ overlap, upper_test_iff c.globPosY c.delta y hδ,
    lower_test_iff c.globPosZ c.delta z hδ overlap, upper_test_iff c.globPosZ c.delta z hδ]

theorem floor_shift_origin (g δ x : T) (hδ : 0 < δ) (o : Int) :
    ⌊(x - (g - (o : T) * δ)) / δ + 1 / 2⌋ = ⌊(x - g) / δ + 1 / 2⌋ + o := by
  have hne : δ ≠ 0 := ne_of_gt hδ
  have h : (x - (g - (o : T) * δ)) / δ + 1 / 2 = ((x - g) / δ + 1 / 2) + (o : T) := by
    field_simp
    ring
  rw [h, Int.floor_add_int]

theorem checkPoint_inflated (c : Cuboid3D T) (hδ : 0 < c.delta) (x y z : T) (overlap : Int) :
    (Cuboid3D.new (c.globPosX - (overlap : T) * c.delta) (c.globPosY - (overlap : T) * c.delta)
      (c.globPosZ - (overlap : T) * c.delta) c.delta
      (c.nX + overlap * 2) (c.nY + overlap * 2) (c.nZ + overlap * 2)).checkPoint x y z 0
      = c.checkPoint x y z overlap := by
  have h1 := checkPoint_true_iff
    (Cuboid3D.new (c.globPosX - (overlap : T) * c.delta) (c.globPosY - (overlap : T) * c.delta)
      (c.globPosZ - (overlap : T) * c.delta) c.delta
      (c.nX + overlap * 2) (c.nY + overlap * 2) (c.nZ + overlap * 2)) hδ x y z 0
  rw [Bool.eq_iff_iff, h1, checkPoint_true_iff c hδ]
  simp only [Cuboid3D.new, floor_shift_origin _ _ _ hδ]
  constructor <;> intro h <;> omega

/-- Claim C26.  `checkPoint(x, y, z, locX, locY, locZ, overlap)` over exact
arithmetic with `delta > 0`, for every overlap: the returned value is that of
`checkPoint(x, y, z, overlap)`; when it is true the outputs are
`getLatticeR(p) + (overlap, overlap, overlap)` and lie in
`0 .. n_i + 2*overlap - 1`; when it is false `locX, locY, locZ` keep their
values. -/
theorem checkPointLoc_spec (c : Cuboid3D T) (hδ : 0 < c.delta) (x y z : T)
    (loc : Int × Int × Int) (overlap : Int) :
    (c.checkPointLoc x y z loc overlap).1 = c.checkPoint x y z overlap ∧
    (c.checkPoint x y z overlap = true →
      (c.checkPointLoc x y z loc overlap).2
        = ((c.getLatticeR (x, y, z)).1 + overlap, (c.getLatticeR (x, y, z)).2.1 + overlap,
            (c.getLatticeR (x, y, z)).2.2 + overlap) ∧
      (0 ≤ (c.checkPointLoc x y z loc overlap).2.1 ∧
        (c.checkPointLoc x y z loc overlap).2.1 ≤ c.nX + 2 * overlap - 1) ∧
      (0 ≤ (c.checkPointLoc x y z loc overlap).2.2.1 ∧
        (c.checkPointLoc x y z loc overlap).2.2.1 ≤ c.nY + 2 * overlap - 1) ∧
      (0 ≤ (c.checkPointLoc x y z loc overlap).2.2.2 ∧
        (c.checkPointLoc x y z loc overlap).2.2.2 ≤ c.nZ + 2 * overlap - 1)) ∧
    (c.checkPoint x y z overlap = false → (c.checkPointLoc x y z loc overlap).2 = loc) := by
  have hval : c.checkPointLoc x y z loc overlap =
      if c.checkPoint x y z overlap = true then
        (true, ((c.getLatticeR (x, y, z)).1 + overlap, (c.getLatticeR (x, y, z)).2.1 + overlap,
            (c.getLatticeR (x, y, z)).2.2 + overlap))
      else (false, loc) := by
    unfold checkPointLoc
    by_cases ho : overlap = 0
    · subst ho
      simp only [ne_eq, not_true_eq_false, if_false, checkPointLocZero, getLatticeR, add_zero]
      by_cases hc : c.checkPoint x y z 0 = true
      · simp [hc]
      · simp [hc]
    · rw [if_pos ho]
      unfold checkPointLocZero
      rw [checkPoint_inflated c hδ]
      by_cases hc : c.checkPoint x y z overlap = true
      · rw [hc]
        simp only [Bool.not_true, Bool.false_eq_true, if_false, if_true, Cuboid3D.new,
          getLatticeR, floor_shift_origin _ _ _ hδ]
      · simp [hc]
  rw [hval]
  by_cases hc : c.checkPoint x y z overlap = true
  · rw [if_pos hc]
    refine ⟨hc.symm, fun _ => ⟨rfl, ?_⟩, fun h => ?_⟩
    · have h := (checkPoint_true_iff c hδ x y z overlap).1 hc
      simp only [getLatticeR]
      omega
    · rw [hc] at h
      exact absurd h (by decide)
  · rw [if_neg hc]
    refine ⟨?_, fun h => absurd h hc, fun _ => rfl⟩
    cases hv : c.checkPoint x y z overlap
    · rfl
    · exact absurd hv hc

end Cuboid3D

open Cuboid3D

theorem getLatticeR_exampleParent :
    exampleParent.getLatticeR (-3 / 4, 1, 0) = (-1, 2, 0) := by
  simp only [getLatticeR, exampleParent, Cuboid3D.new]
  refine Prod.ext ?_ (Prod.ext ?_ ?_) <;> simp only <;> rw [Int.floor_eq_iff] <;>
    constructor <;> norm_num

theorem checkPoint_exampleParent : exampleParent.checkPoint (-3 / 4) 1 0 2 = true := by
  simp only [checkPoint, exampleParent, Cuboid3D.new, Bool.and_eq_true, decide_eq_true_eq]
  norm_num

/-- Claim C26 at `exampleParent` (spacing `1/2`, `5 x 3 x 4` nodes), the point
`(-3/4, 1, 0)` and overlap `2`: the point lies in the inflated cuboid and its
local coordinates are `(1, 4, 2)`. -/
theorem checkPointLoc_spec_witness :
    (0 : ℚ) < exampleParent.delta ∧
    (exampleParent.checkPointLoc (-3 / 4) 1 0 (7, 7, 7) 2).1 = true ∧
    (exampleParent.checkPointLoc (-3 / 4) 1 0 (7, 7, 7) 2).2 = (1, 4, 2) :=
  ⟨by norm_num [exampleParent, Cuboid3D.new],
    ((checkPointLoc_spec exampleParent (by norm_num [exampleParent, Cuboid3D.new])
      (-3 / 4) 1 0 (7, 7, 7) 2).1).trans checkPoint_exampleParent,
    (((checkPointLoc_spec exampleParent (by norm_num [exampleParent, Cuboid3D.new])
      (-3 / 4) 1 0 (7, 7, 7) 2).2.1 checkPoint_exampleParent).1).trans
        (by rw [getLatticeR_exampleParent]; rfl)⟩

end olb

namespace olb
namespace SuperGeometryStatistics2D
variable {T : Type}

theorem getNvoxelTotal_eq (s : SuperGeometryStatistics2D T) :
    s.getNvoxelTotal
      = ((s.material2n.filter (fun e => decide (e.1 ≠ 0))).map Prod.snd).sum := by
  unfold getNvoxelTotal
  have h : ∀ (es : IntMap Int) (a : Int),
      es.foldl (fun total material => if material.1 ≠ 0 then total + material.2 else total) a
        = a + ((es.filter (fun e => decide (e.1 ≠ 0))).map Prod.snd).sum := by
    intro es
    induction es with
    | nil => intro a; simp
    | cons e t ih =>
      intro a
      rw [List.foldl_cons, ih]
      by_cases he : e.1 = 0
      · simp [he]
      · simp [he, add_assoc]
  rw [h]
  simp

theorem sum_map_ite_eq_filter (f : Int → Int) (p : Int → Bool) (ms : List Int) :
    (ms.map (fun m => if p m = true then f m else 0)).sum = ((ms.filter p).map f).sum := by
  induction ms with
  | nil => rfl
  | cons m t ih =>
    by_cases h : p m = true
    · simp [h, ih, List.filter_cons]
    · simp [h, ih, List.filter_cons]

theorem sum_single_key (ms : List Int) (hms : ms.Nodup) (k v : Int) (hk : k ∈ ms) :
    (ms.map (fun m => if m = k then v else 0)).sum = v := by
  induction ms with
  | nil => simp at hk
  | cons m t ih =>
    rw [List.nodup_cons] at hms
    rw [List.map_cons, List.sum_cons]
    by_cases hmk : m = k
    · subst hmk
      have hz : (t.map (fun m1 => if m1 = m then v else 0)).sum = 0 := by
        apply List.sum_eq_zero
        intro x hx
        obtain ⟨m1, hm1, rfl⟩ := List.mem_map.1 hx
        have : m1 ≠ m := fun h => hms.1 (h ▸ hm1)
        simp [this]
      simp [hz]
    · have hkt : k ∈ t := by
        rcases List.mem_cons.1 hk with h | h
        · exact absurd h.symm hmk
        · exact h
      simp [hmk, ih hms.2 hkt]

theorem sum_find_over_keys (es : IntMap Int) (hnd : (es.map Prod.fst).Nodup)
    (ms : List Int) (hms : ms.Nodup) (hkeys : ∀ k ∈ es.map Prod.fst, k ∈ ms) :
    (ms.map (fun m => if m ≠ 0 then (IntMap.find? es m).getD 0 else 0)).sum
      = ((es.filter (fun e => decide (e.1 ≠ 0))).map Prod.snd).sum := by
  induction es with
  | nil => simp [IntMap.find?]
  | cons e t ih =>
    obtain ⟨k, v⟩ := e
    rw [List.map_cons, List.nodup_cons] at hnd
    have hkm : k ∈ ms := hkeys k (by simp)
    have hsplit : ∀ m : Int,
        (if m ≠ 0 then (IntMap.find? ((k, v) :: t) m).getD 0 else 0)
          = (if m ≠ 0 then (IntMap.find? t m).getD 0 else 0)
            + (if m = k then (if k ≠ 0 then v else 0) else 0) := by
      intro m
      by_cases hmk : m = k
      · subst hmk
        have hnone : IntMap.find? t m = none := by
          rw [← IntMap.count_eq_zero_iff]
          unfold IntMap.count
          cases hf : IntMap.find? t m with
          | none => simp
          | some w =>
            exfalso
            apply hnd.1
            clear ih hnd hkeys
            induction t with
            | nil => simp [IntMap.find?] at hf
            | cons e2 t2 ih2 =>
              obtain ⟨k2, v2⟩ := e2
              unfold IntMap.find? at hf
              by_cases h2 : m = k2
              · simp [h2]
              · rw [if_neg h2] at hf
                simp [ih2 hf]
        by_cases h0 : m = 0
        · simp [h0]
        · simp [h0, hnone, IntMap.find?]
      · by_cases h0 : m = 0
        · subst h0
          rw [if_neg hmk]
          simp
        · simp [h0, hmk, IntMap.find?]
    have hmap : ms.map (fun m => if m ≠ 0 then (IntMap.find? ((k, v) :: t) m).getD 0 else 0)
        = ms.map (fun m => (if m ≠ 0 then (IntMap.find? t m).getD 0 else 0)
            + (if m = k then (if k ≠ 0 then v else 0) else 0)) :=
      List.map_congr_left (fun m _ => hsplit m)
    rw [hmap, List.sum_map_add, ih hnd.2 (fun k1 hk1 => hkeys k1 (by simp [hk1])),
      sum_single_key ms hms k _ hkm]
    by_cases hk0 : k = 0
    · simp [hk0]
    · simp [hk0, add_comm]

/-- Claim C28.  `getNvoxel() const` without argument returns the sum of the cached
counts of all materials except material `0`: for every list `ms` of distinct
material ids that contains all keys of `_material2n`, it equals the sum of
`getNvoxel(m)` over the `m` in `ms` with `m != 0`.  The keys of the map are
distinct. -/
theorem getNvoxelTotal_spec (s : SuperGeometryStatistics2D T)
    (hnd : (s.material2n.map Prod.fst).Nodup)
    (ms : List Int) (hms : ms.Nodup) (hkeys : ∀ k ∈ s.material2n.map Prod.fst, k ∈ ms) :
    s.getNvoxelTotal = ((ms.filter (fun m => decide (m ≠ 0))).map (fun m => s.getNvoxel m)).sum := by
  rw [getNvoxelTotal_eq, ← sum_find_over_keys s.material2n hnd ms hms hkeys]
  have hget : ∀ m : Int, s.getNvoxel m = (IntMap.find? s.material2n m).getD 0 := by
    intro m
    unfold getNvoxel
    cases IntMap.find? s.material2n m <;> rfl
  rw [← sum_map_ite_eq_filter (fun m => s.getNvoxel m) (fun m => decide (m ≠ 0)) ms]
  apply congrArg List.sum
  apply List.map_congr_left
  intro m _
  by_cases h0 : m = 0
  · simp [h0]
  · simp [h0, hget]

end SuperGeometryStatistics2D

open SuperGeometryStatistics2D

/-- Claim C28 at the cache `exampleCounts` with the counts `7, 5, 3` of the
materials `0, 1, 2`, summed over the ids `0 .. 3`: the total is `8`. -/
theorem getNvoxelTotal_spec_witness :
    (exampleCounts.material2n.map Prod.fst).Nodup ∧ ([0, 1, 2, 3] : List Int).Nodup ∧
    (∀ k ∈ exampleCounts.material2n.map Prod.fst, k ∈ ([0, 1, 2, 3] : List Int)) ∧
    exampleCounts.getNvoxelTotal
      = ((([0, 1, 2, 3] : List Int).filter (fun m => decide (m ≠ 0))).map
          (fun m => exampleCounts.getNvoxel m)).sum ∧
    exampleCounts.getNvoxelTotal = 8 :=
  ⟨by decide, by decide, by decide,
    getNvoxelTotal_spec exampleCounts (by decide) [0, 1, 2, 3] (by decide) (by decide),
    by decide⟩

/-- Claim C27, evaluation of the code.  For `exampleBlock` a first `update()`
caches the count `5` and the corners `(0, 0)`, `(4, 0)` of material `1`.  After
the voxels got the material `2` and the flags were raised (`exampleRetagged`), a
second `update()` leaves no count of material `1`, `getNvoxel(1)` is `0`, and the
corner maps still hold material `1`: `getMaxPhysR(1)` returns `(4, 0)`; the key
sets of the count map and of the corner maps differ. -/
theorem update_keeps_stale_bounds :
    (SuperGeometryStatistics2D.new [exampleBlock]).update.getNvoxel 1 = 5 ∧
    (SuperGeometryStatistics2D.new [exampleBlock]).update.getMaxPhysR 1 = [4, 0] ∧
    exampleRetagged.update.getStatisticsStatus = false ∧
    exampleRetagged.update.getNvoxel 1 = 0 ∧
    exampleRetagged.update.getNvoxel 2 = 5 ∧
    exampleRetagged.update.getMaxPhysR 1 = [4, 0] ∧
    exampleRetagged.update.material2n.map Prod.fst = [2] ∧
    exampleRetagged.update.material2min.map Prod.fst = [1, 2] ∧
    exampleRetagged.update.material2max.map Prod.fst = [1, 2] := by
  refine ⟨?_, ?_, ?_, ?_, ?_, ?_, ?_, ?_, ?_⟩ <;> decide

end olb

namespace olb
namespace SuperVTMwriter2D

/-- Claim C29, evaluation of the code.  `write(iT)` never leaves by the
`throw std::runtime_error` of its else-branch, whatever the functor list is;
when no functor has been added it sends the text
`Error: Did you add a Functor ?` to `clout` and returns normally, with no
other effect: no functor communicates and nothing is written to a PVD, VTM or
VTI file. -/
theorem write_without_functor (w : Writer) (rank iT : Int) :
    (write w rank iT).1 = Outcome.returned ∧
    (w.pointerVec = [] →
      write w rank iT = (Outcome.returned, [Action.clout "Error: Did you add a Functor ?"]) ∧
      ∀ a ∈ (write w rank iT).2, a.isFileOutput = false) := by
  constructor
  · unfold write
    cases hp : w.pointerVec with
    | nil => simp
    | cons f t => simp
  · intro h
    have hw : write w rank iT
        = (Outcome.returned, [Action.clout "Error: Did you add a Functor ?"]) := by
      unfold write
      simp [h]
    rw [hw]
    refine ⟨rfl, ?_⟩
    intro a ha
    simp only [List.mem_singleton] at ha
    rw [ha]
    rfl

end SuperVTMwriter2D

open SuperVTMwriter2D

/-- Claim C29 at a writer without functors, rank `0` and `iT = 3`: the call
returns normally, it does not throw, and its only effect is the text on `clout`. -/
theorem write_without_functor_witness :
    exampleEmptyWriter.pointerVec = [] ∧
    (write exampleEmptyWriter 0 3).1 = Outcome.returned ∧
    (write exampleEmptyWriter 0 3).1 ≠ Outcome.runtime_error ∧
    write exampleEmptyWriter 0 3
      = (Outcome.returned, [Action.clout "Error: Did you add a Functor ?"]) :=
  ⟨rfl, (write_without_functor exampleEmptyWriter 0 3).1, by decide,
    ((write_without_functor exampleEmptyWriter 0 3).2 rfl).1⟩

namespace Cuboid3D
variable {T : Type}

theorem countP_inner_upto (N : Nat) :
    ∀ m : Nat, 1 ≤ m → m ≤ N →
      (List.range m).countP (fun i => decide (i ≠ 0 ∧ i ≠ N)) = m - 1 := by
  intro m
  induction m with
  | zero => intro h; omega
  | succ k ih =>
    intro _ hk
    rw [List.range_succ, List.countP_append]
    by_cases hk0 : k = 0
    · subst hk0
      simp
    · rw [ih (by omega) (by omega)]
      have hq : decide (k ≠ 0 ∧ k ≠ N) = true := by
        simp only [decide_eq_true_eq]
        exact ⟨hk0, by omega⟩
      simp only [List.countP_cons, List.countP_nil, hq, if_true]
      omega

theorem countP_inner (n : Nat) (hn : 2 ≤ n) :
    (List.range n).countP (fun i => decide (i ≠ 0 ∧ i ≠ n - 1)) = n - 2 := by
  obtain ⟨N, rfl⟩ : ∃ N, n = N + 1 := ⟨n - 1, by omega⟩
  rw [List.range_succ, List.countP_append, Nat.add_sub_cancel,
    countP_inner_upto N N (by omega) (le_refl _)]
  simp

theorem surfaceNodeCount_eq (nX nY nZ : Int) (hX : 2 ≤ nX) (hY : 2 ≤ nY) (hZ : 2 ≤ nZ) :
    (surfaceNodeCount nX nY nZ : Int) = nX * nY * nZ - (nX - 2) * (nY - 2) * (nZ - 2) := by
  obtain ⟨a, rfl⟩ : ∃ a : Nat, nX = (a : Int) := ⟨nX.toNat, (Int.toNat_of_nonneg (by omega)).symm⟩
  obtain ⟨b, rfl⟩ : ∃ b : Nat, nY = (b : Int) := ⟨nY.toNat, (Int.toNat_of_nonneg (by omega)).symm⟩
  obtain ⟨d, rfl⟩ : ∃ d : Nat, nZ = (d : Int) := ⟨nZ.toNat, (Int.toNat_of_nonneg (by omega)).symm⟩
  have ha : 2 ≤ a := by omega
  have hb : 2 ≤ b := by omega
  have hd : 2 ≤ d := by omega
  unfold surfaceNodeCount
  simp only [Int.toNat_ofNat]
  have hlen := List.length_eq_countP_add_countP
    (fun p : Nat × Nat × Nat => decide (p.1 = 0 ∨ (p.1 : Int) = (a : Int) - 1 ∨ p.2.1 = 0
      ∨ (p.2.1 : Int) = (b : Int) - 1 ∨ p.2.2 = 0 ∨ (p.2.2 : Int) = (d : Int) - 1))
    ((List.range a).flatMap (fun i => (List.range b).flatMap (fun j =>
      (List.range d).map (fun k => (i, j, k)))))
  have htotal := countP_product (fun _ => true) (fun _ => true) (fun _ => true)
    (fun _ : Nat × Nat × Nat => true) (fun i j k => (i, j, k)) (fun _ _ _ => rfl)
    (List.range a) (List.range b) (List.range d)
  have hinner := countP_product
    (fun i => decide (i ≠ 0 ∧ i ≠ a - 1)) (fun j => decide (j ≠ 0 ∧ j ≠ b - 1))
    (fun k => decide (k ≠ 0 ∧ k ≠ d - 1))
    (fun p : Nat × Nat × Nat => decide (¬ (decide (p.1 = 0 ∨ (p.1 : Int) = (a : Int) - 1
      ∨ p.2.1 = 0 ∨ (p.2.1 : Int) = (b : Int) - 1 ∨ p.2.2 = 0
      ∨ (p.2.2 : Int) = (d : Int) - 1)) = true))
    (fun i j k => (i, j, k))
    (by
      intro i j k
      rw [Bool.eq_iff_iff]
      simp only [Bool.and_eq_true, decide_eq_true_eq, not_or]
      constructor
      · rintro ⟨h1, h2, h3, h4, h5, h6⟩
        exact ⟨⟨h1, by omega⟩, ⟨h3, by omega⟩, ⟨h5, by omega⟩⟩
      · rintro ⟨⟨h1, h2⟩, ⟨h3, h4⟩, ⟨h5, h6⟩⟩
        exact ⟨h1, by omega, h3, by omega, h5, by omega⟩)
    (List.range a) (List.range b) (List.range d)
  rw [countP_inner a ha, countP_inner b hb, countP_inner d hd] at hinner
  simp only [List.countP_true, List.length_range] at htotal
  rw [hinner, htotal] at hlen
  obtain ⟨a2, rfl⟩ : ∃ a2, a = a2 + 2 := ⟨a - 2, by omega⟩
  obtain ⟨b2, rfl⟩ : ∃ b2, b = b2 + 2 := ⟨b - 2, by omega⟩
  obtain ⟨d2, rfl⟩ : ∃ d2, d = d2 + 2 := ⟨d - 2, by omega⟩
  simp only [Nat.add_sub_cancel] at hlen
  have hcast := congrArg (fun n : Nat => (n : Int)) hlen
  simp only at hcast
  push_cast at hcast ⊢
  linarith

/-- Claim C30, evaluation of the code.  For all extents `nX, nY, nZ >= 2` the
number of lattice nodes on the surface of the cuboid is
`nX*nY*nZ - (nX-2)*(nY-2)*(nZ-2)`, and `getLatticePerimeter()` is two less than
this number. -/
theorem getLatticePerimeter_two_short (c : Cuboid3D T)
    (hX : 2 ≤ c.nX) (hY : 2 ≤ c.nY) (hZ : 2 ≤ c.nZ) :
    (surfaceNodeCount c.nX c.nY c.nZ : Int)
      = c.nX * c.nY * c.nZ - (c.nX - 2) * (c.nY - 2) * (c.nZ - 2) ∧
    c.getLatticePerimeter = (surfaceNodeCount c.nX c.nY c.nZ : Int) - 2 := by
  have h := surfaceNodeCount_eq c.nX c.nY c.nZ hX hY hZ
  refine ⟨h, ?_⟩
  rw [h]
  unfold getLatticePerimeter
  ring

end Cuboid3D

open Cuboid3D

/-- Claim C30 at the `2 x 2 x 2` cuboid `exampleCube`: it has `8` surface nodes
and `getLatticePerimeter()` returns `6`. -/
theorem getLatticePerimeter_two_short_witness :
    (2 : Int) ≤ exampleCube.nX ∧ (2 : Int) ≤ exampleCube.nY ∧ (2 : Int) ≤ exampleCube.nZ ∧
    surfaceNodeCount exampleCube.nX exampleCube.nY exampleCube.nZ = 8 ∧
    exampleCube.getLatticePerimeter = 6 ∧
    exampleCube.getLatticePerimeter
      = (surfaceNodeCount exampleCube.nX exampleCube.nY exampleCube.nZ : Int) - 2 :=
  ⟨by decide, by decide, by decide, by decide, by decide,
    (getLatticePerimeter_two_short exampleCube (by decide) (by decide) (by decide)).2⟩

end olb

namespace olb
namespace SuperGeometryStatistics2D
variable {T : Type}

theorem zipWith_bcast {α β γ δ : Type} (f : α → γ → δ) (g : α → β) (c : γ) (l : List α) :
    List.zipWith f l ((l.map g).map (fun _ => c)) = l.map (fun s => f s c) := by
  induction l with
  | nil => rfl
  | cons a t ih =>
    rw [List.map_cons, List.map_cons, List.zipWith_cons_cons, ih, List.map_cons]

theorem zipWith_zip_bcast {α β γ δ ε : Type} (f : α × β → γ → δ) (u : α → β) (g : β → ε)
    (c : γ) (l : List α) :
    List.zipWith f (List.zip l (l.map u)) (((l.map u).map g).map (fun _ => c))
      = l.map (fun s => f (s, u s) c) := by
  induction l with
  | nil => rfl
  | cons a t ih =>
    rw [List.map_cons, List.map_cons, List.map_cons, List.zip_cons_cons,
      List.zipWith_cons_cons, ih, List.map_cons]

theorem flag_sum_pos_iff (ranks : List (SuperGeometryStatistics2D T)) :
    0 ≤ (ranks.map (fun s => if s.statisticsUpdateNeeded then (1 : Int) else 0)).sum ∧
    ((ranks.map (fun s => if s.statisticsUpdateNeeded then (1 : Int) else 0)).sum > 0
      ↔ ranks.any (fun s => s.statisticsUpdateNeeded) = true) := by
  induction ranks with
  | nil => simp
  | cons s t ih =>
    rw [List.map_cons, List.sum_cons, List.any_cons]
    by_cases hs : s.statisticsUpdateNeeded = true
    · simp only [hs, if_true, Bool.true_or]
      constructor
      · omega
      · constructor
        · intro _; trivial
        · intro _; omega
    · have hs2 : s.statisticsUpdateNeeded = false := by
        cases h : s.statisticsUpdateNeeded
        · rfl
        · exact absurd h hs
      simp only [hs2, Bool.false_eq_true, if_false, Bool.false_or, zero_add]
      exact ih

theorem unionFlags_eq (ranks : List (SuperGeometryStatistics2D T)) :
    unionFlags ranks
      = ranks.map (fun s =>
          { s with statisticsUpdateNeeded := ranks.any (fun s => s.statisticsUpdateNeeded) }) := by
  unfold unionFlags reduceAndBcastSum
  rw [zipWith_bcast]
  apply List.map_congr_left
  intro s hs
  by_cases hF : ranks.any (fun s => s.statisticsUpdateNeeded) = true
  · rw [if_pos ((flag_sum_pos_iff ranks).2.2 hF), hF]
  · rw [if_neg (fun h => hF ((flag_sum_pos_iff ranks).2.1 h))]
    have hF2 : ranks.any (fun s => s.statisticsUpdateNeeded) = false := by
      cases h : ranks.any (fun s => s.statisticsUpdateNeeded)
      · rfl
      · exact absurd h hF
    rw [hF2]
    have hsf : s.statisticsUpdateNeeded = false := by
      rw [List.any_eq_false] at hF2
      simpa using hF2 s hs
    cases s
    simp only at hsf
    simp [hsf]

theorem blocks_clean_after_updateBlocks [LinearOrderedField T]
    (blocks : List (BlockGeometryStatistics2D T)) :
    ∀ b ∈ (updateBlocks blocks).1, b.getStatisticsStatus = false := by
  rw [updateBlocks_eq]
  intro b hb
  obtain ⟨b0, _, rfl⟩ := List.mem_map.1 hb
  exact block_update_status b0

/-- Claim C22.  The MPI build of `update` on the ranks of a communicator that all
call `update`: after the first collective the flag of every rank is the logical
OR of the flags of all ranks before the call, and nothing else has changed; so
the collective inside the branch is entered by all ranks or by none and
completes, all ranks reach the reductions of the counts or none does, and when
the ranks reach them the flag of some rank was set before the call and every
block statistics of every rank is Clean. -/
theorem unionFlags_then_reduce [LinearOrderedField T]
    (ranks : List (SuperGeometryStatistics2D T)) :
    unionFlags ranks
      = ranks.map (fun s =>
          { s with statisticsUpdateNeeded := ranks.any (fun s => s.statisticsUpdateNeeded) }) ∧
    (∀ s ∈ unionFlags ranks,
      s.statisticsUpdateNeeded = ranks.any (fun s => s.statisticsUpdateNeeded)) ∧
    ∃ out : List (RankProgress T), updateMpiHead ranks = some out ∧
      out.length = ranks.length ∧
      ((∀ p ∈ out, p.reachesReduction = true) ∨ (∀ p ∈ out, p.reachesReduction = false)) ∧
      ((∃ p ∈ out, p.reachesReduction = true) →
        ranks.any (fun s => s.statisticsUpdateNeeded) = true ∧
        ∀ q ∈ out, ∀ b ∈ q.stats.blocks, b.getStatisticsStatus = false) := by
  have hU := unionFlags_eq ranks
  have hflag : ∀ s ∈ unionFlags ranks,
      s.statisticsUpdateNeeded = ranks.any (fun s => s.statisticsUpdateNeeded) := by
    rw [hU]
    intro s hs
    obtain ⟨s0, _, rfl⟩ := List.mem_map.1 hs
    rfl
  refine ⟨hU, hflag, ?_⟩
  unfold updateMpiHead
  simp only
  by_cases hF : ranks.any (fun s => s.statisticsUpdateNeeded) = true
  · -- every rank enters the branch
    have hne : ranks ≠ [] := by
      intro h
      rw [h] at hF
      simp at hF
    have hall : (unionFlags ranks).all (fun s => s.statisticsUpdateNeeded) = true := by
      rw [List.all_eq_true]
      intro s hs
      rw [hflag s hs, hF]
    have hnot : ¬ (unionFlags ranks).all (fun s => !s.statisticsUpdateNeeded) = true := by
      rw [List.all_eq_true]
      intro h
      obtain ⟨s0, t, hst⟩ := List.exists_cons_of_ne_nil hne
      obtain ⟨s1, hmem⟩ : ∃ s1, s1 ∈ unionFlags ranks := by
        rw [hU]
        exact ⟨_, List.mem_map.2 ⟨s0, by rw [hst]; simp, rfl⟩⟩
      have := h s1 hmem
      rw [hflag s1 hmem, hF] at this
      simp at this
    rw [if_neg hnot, if_pos hall]
    unfold reduceAndBcastSum
    rw [zipWith_zip_bcast]
    refine ⟨_, rfl, ?_, ?_, ?_⟩
    · rw [List.length_map, hU, List.length_map]
    · by_cases hG : (((unionFlags ranks).map (fun s => updateBlocks s.blocks)).map
          (fun r => r.2)).sum = 0
      · right
        intro p hp
        obtain ⟨s, _, rfl⟩ := List.mem_map.1 hp
        rw [if_pos hG]
      · left
        intro p hp
        obtain ⟨s, _, rfl⟩ := List.mem_map.1 hp
        rw [if_neg hG]
    · intro _
      refine ⟨hF, ?_⟩
      intro q hq b hb
      obtain ⟨s, _, rfl⟩ := List.mem_map.1 hq
      by_cases hG : (((unionFlags ranks).map (fun s => updateBlocks s.blocks)).map
          (fun r => r.2)).sum = 0
      · rw [if_pos hG] at hb
        exact blocks_clean_after_updateBlocks s.blocks b hb
      · rw [if_neg hG] at hb
        exact blocks_clean_after_updateBlocks s.blocks b hb
  · -- no rank enters the branch
    have hF2 : ranks.any (fun s => s.statisticsUpdateNeeded) = false := by
      cases h : ranks.any (fun s => s.statisticsUpdateNeeded)
      · rfl
      · exact absurd h hF
    have hall : (unionFlags ranks).all (fun s => !s.statisticsUpdateNeeded) = true := by
      rw [List.all_eq_true]
      intro s hs
      rw [hflag s hs, hF2]
      rfl
    rw [if_pos hall]
    refine ⟨_, rfl, ?_, Or.inr ?_, ?_⟩
    · rw [List.length_map, hU, List.length_map]
    · intro p hp
      obtain ⟨s, _, rfl⟩ := List.mem_map.1 hp
      rfl
    · rintro ⟨p, hp, hpr⟩
      obtain ⟨s, _, rfl⟩ := List.mem_map.1 hp
      simp at hpr

end SuperGeometryStatistics2D
end olb

namespace olb
namespace Cuboid3D
variable {T : Type} [LinearOrderedField T] [FloorRing T]

theorem forLoop_low (pos δ g0 : T) (m : Int) (hg : g0 ≤ pos + (m : T) * δ) :
    ∀ (fuel : Nat) (i : Int), 0 ≤ i → i ≤ m → m - i < fuel →
      (∀ j : Int, 0 ≤ j → j < i → pos + (j : T) * δ < g0) →
      ∃ k : Int,
        forLoop fuel (fun i => decide (pos + (i : T) * δ < g0)) (fun i _ => some (i + 1)) i i
          = some k ∧
        k ≤ m ∧ 0 ≤ k ∧ g0 ≤ pos + (k : T) * δ ∧
        ∀ j : Int, 0 ≤ j → j < k → pos + (j : T) * δ < g0 := by
  intro fuel
  induction fuel with
  | zero => intro i _ _ h; omega
  | succ f ih =>
    intro i hi0 him hfuel hbelow
    unfold forLoop
    by_cases hc : pos + (i : T) * δ < g0
    · have hne : i ≠ m := by
        intro h
        rw [h] at hc
        exact absurd hg (not_le.2 hc)
      have hlt : i + 1 ≤ m := by omega
      simp only [hc, decide_True, if_true, Option.bind_eq_bind, Option.some_bind]
      apply ih (i + 1) (by omega) hlt (by omega)
      intro j hj0 hj
      by_cases hji : j = i
      · rw [hji]; exact hc
      · exact hbelow j hj0 (by omega)
    · simp only [hc, decide_False, Bool.false_eq_true, if_false]
      exact ⟨i, rfl, him, hi0, not_lt.1 hc, hbelow⟩

theorem forLoopDown_high (pos δ g1 : T) (m last : Int) (hg : pos + (m : T) * δ ≤ g1) :
    ∀ (fuel : Nat) (i : Int), m ≤ i → i ≤ last → i - m < fuel →
      (∀ j : Int, i < j → j ≤ last → pos + (j : T) * δ > g1) →
      ∃ k : Int,
        forLoopDown fuel (fun i => decide (pos + (i : T) * δ > g1)) (fun i _ => some (i - 1)) i i
          = some k ∧
        m ≤ k ∧ k ≤ last ∧ pos + (k : T) * δ ≤ g1 ∧
        ∀ j : Int, k < j → j ≤ last → pos + (j : T) * δ > g1 := by
  intro fuel
  induction fuel with
  | zero => intro i _ _ h; omega
  | succ f ih =>
    intro i hmi hil hfuel habove
    unfold forLoopDown
    by_cases hc : pos + (i : T) * δ > g1
    · have hne : i ≠ m := by
        intro h
        rw [h] at hc
        exact absurd hg (not_le.2 hc)
      simp only [hc, decide_True, if_true, Option.bind_eq_bind, Option.some_bind]
      apply ih (i - 1) (by omega) (by omega) (by omega)
      intro j hj hjl
      by_cases hji : j = i
      · rw [hji]; exact hc
      · exact habove j (by omega) hjl
    · simp only [hc, decide_False, Bool.false_eq_true, if_false]
      exact ⟨i, rfl, hmi, hil, not_lt.1 hc, habove⟩

theorem axis_search (pos δ g0 g1 : T) (n : Int) (hδ : 0 < δ)
    (hmeet : min (pos + ((n + 0 - 1 : Int) : T) * δ) g1 ≥ max (pos - ((0 : Int) : T) * δ) g0)
    (fuel : Nat) (hfuel : n ≤ fuel) :
    ∃ k0 k1 : Int, searchLow fuel pos δ g0 = some k0 ∧ searchHigh fuel pos δ g1 n = some k1 ∧
      AxisRange pos δ g0 g1 n k0 k1 := by
  have h1 : pos - ((0 : Int) : T) * δ ≤ pos + ((n + 0 - 1 : Int) : T) * δ :=
    le_trans (le_max_left _ _) (le_trans hmeet (min_le_left _ _))
  have h2 : g0 ≤ pos + ((n + 0 - 1 : Int) : T) * δ :=
    le_trans (le_max_right _ _) (le_trans hmeet (min_le_left _ _))
  have h3 : pos - ((0 : Int) : T) * δ ≤ g1 :=
    le_trans (le_max_left _ _) (le_trans hmeet (min_le_right _ _))
  rw [show n + 0 - 1 = n - 1 by ring] at h1 h2
  simp only [Int.cast_zero, zero_mul, sub_zero] at h1 h3
  have hn : 0 ≤ n - 1 := by
    have : (0 : T) ≤ ((n - 1 : Int) : T) * δ := by linarith
    have h5 : (0 : T) ≤ ((n - 1 : Int) : T) := by
      by_contra hneg
      have := mul_neg_of_neg_of_pos (not_le.1 hneg) hδ
      linarith
    exact_mod_cast h5
  obtain ⟨k0, e0, a1, a2, a3, a4⟩ :=
    forLoop_low pos δ g0 (n - 1) h2 fuel 0 (le_refl _) hn (by omega) (fun j hj0 hj => by omega)
  have h30 : pos + ((0 : Int) : T) * δ ≤ g1 := by
    simp only [Int.cast_zero, zero_mul, add_zero]
    exact h3
  obtain ⟨k1, e1, b1, b2, b3, b4⟩ :=
    forLoopDown_high pos δ g1 0 (n - 1) h30 fuel (n - 1) hn (le_refl _) (by omega)
      (fun j hj hjl => by omega)
  refine ⟨k0, k1, e0, e1, ⟨a2, a1⟩, ⟨b1, b2⟩, ⟨a2, a3, ?_⟩, ⟨b2, b3, ?_⟩⟩
  · intro i hi0 hgi
    by_contra hlt
    exact absurd hgi (not_le.2 (a4 i hi0 (by omega)))
  · intro i hil hgi
    by_contra hlt
    exact absurd hgi (not_le.2 (b4 i (by omega) hil))

theorem checkIntersLocZero_spec (c : Cuboid3D T) (hδ : 0 < c.delta)
    (x0 x1 y0 y1 z0 z1 : T) (fuel : Nat)
    (hfuel : c.nX ≤ fuel ∧ c.nY ≤ fuel ∧ c.nZ ≤ fuel) :
    ∃ r : IntersLoc, checkIntersLocZero fuel c x0 x1 y0 y1 z0 z1 = some r ∧
      r.result = c.checkInters x0 x1 y0 y1 z0 z1 0 ∧
      (r.result = false →
        r = { result := false, locX0 := 1, locX1 := 0, locY0 := 1, locY1 := 0,
              locZ0 := 1, locZ1 := 0 }) ∧
      (r.result = true →
        AxisRange c.globPosX c.delta x0 x1 c.nX r.locX0 r.locX1 ∧
        AxisRange c.globPosY c.delta y0 y1 c.nY r.locY0 r.locY1 ∧
        AxisRange c.globPosZ c.delta z0 z1 c.nZ r.locZ0 r.locZ1) := by
  unfold checkIntersLocZero
  by_cases hc : c.checkInters x0 x1 y0 y1 z0 z1 0 = true
  · have hc2 := hc
    simp only [checkInters, Bool.and_eq_true, decide_eq_true_eq] at hc2
    obtain ⟨⟨hx, hy⟩, hz⟩ := hc2
    obtain ⟨a0, a1, ea0, ea1, hA⟩ := axis_search c.globPosX c.delta x0 x1 c.nX hδ hx fuel hfuel.1
    obtain ⟨b0, b1, eb0, eb1, hB⟩ := axis_search c.globPosY c.delta y0 y1 c.nY hδ hy fuel hfuel.2.1
    obtain ⟨d0, d1, ed0, ed1, hD⟩ := axis_search c.globPosZ c.delta z0 z1 c.nZ hδ hz fuel hfuel.2.2
    rw [hc, ea0, ea1, eb0, eb1, ed0, ed1]
    simp only [Bool.not_true, Bool.false_eq_true, if_false, Option.some_bind]
    exact ⟨_, rfl, rfl, fun h => absurd h (by simp), fun _ => ⟨hA, hB, hD⟩⟩
  · have hc2 : c.checkInters x0 x1 y0 y1 z0 z1 0 = false := by
      cases h : c.checkInters x0 x1 y0 y1 z0 z1 0
      · rfl
      · exact absurd h hc
    rw [hc2]
    simp only [Bool.not_false, if_true]
    exact ⟨_, rfl, rfl, fun _ => rfl, fun h => absurd h (by simp)⟩

theorem checkInters_inflated (c : Cuboid3D T) (x0 x1 y0 y1 z0 z1 : T) (overlap : Int) :
    (Cuboid3D.new (c.globPosX - (overlap : T) * c.delta) (c.globPosY - (overlap : T) * c.delta)
      (c.globPosZ - (overlap : T) * c.delta) c.delta
      (c.nX + overlap * 2) (c.nY + overlap * 2) (c.nZ + overlap * 2)).checkInters
        x0 x1 y0 y1 z0 z1 0
      = c.checkInters x0 x1 y0 y1 z0 z1 overlap := by
  have hlo : ∀ g : T, g - (overlap : T) * c.delta - ((0 : Int) : T) * c.delta
      = g - (overlap : T) * c.delta := by
    intro g; simp
  have hhi : ∀ (g : T) (n : Int),
      g - (overlap : T) * c.delta + ((n + overlap * 2 + 0 - 1 : Int) : T) * c.delta
        = g + ((n + overlap - 1 : Int) : T) * c.delta := by
    intro g n; push_cast; ring
  simp only [checkInters, Cuboid3D.new, hlo, hhi]

theorem checkIntersLoc_core (c : Cuboid3D T) (hδ : 0 < c.delta)
    (x0 x1 y0 y1 z0 z1 : T) (overlap : Int) (fuel : Nat)
    (hfuel : c.nX + 2 * overlap ≤ fuel ∧ c.nY + 2 * overlap ≤ fuel ∧ c.nZ + 2 * overlap ≤ fuel) :
    ∃ r : IntersLoc, c.checkIntersLoc fuel x0 x1 y0 y1 z0 z1 overlap = some r ∧
      r.result = c.checkInters x0 x1 y0 y1 z0 z1 overlap ∧
      (r.result = false →
        r = { result := false, locX0 := 1, locX1 := 0, locY0 := 1, locY1 := 0,
              locZ0 := 1, locZ1 := 0 }) ∧
      (r.result = true →
        AxisRange (c.globPosX - (overlap : T) * c.delta) c.delta x0 x1 (c.nX + 2 * overlap)
          r.locX0 r.locX1 ∧
        AxisRange (c.globPosY - (overlap : T) * c.delta) c.delta y0 y1 (c.nY + 2 * overlap)
          r.locY0 r.locY1 ∧
        AxisRange (c.globPosZ - (overlap : T) * c.delta) c.delta z0 z1 (c.nZ + 2 * overlap)
          r.locZ0 r.locZ1) := by
  unfold checkIntersLoc
  by_cases ho : overlap = 0
  · subst ho
    simp only [ne_eq, not_true_eq_false, if_false, Int.cast_zero, zero_mul, sub_zero,
      mul_zero, add_zero] at hfuel ⊢
    exact checkIntersLocZero_spec c hδ x0 x1 y0 y1 z0 z1 fuel hfuel
  · rw [if_pos ho]
    have h := checkIntersLocZero_spec
      (Cuboid3D.new (c.globPosX - (overlap : T) * c.delta) (c.globPosY - (overlap : T) * c.delta)
        (c.globPosZ - (overlap : T) * c.delta) c.delta
        (c.nX + overlap * 2) (c.nY + overlap * 2) (c.nZ + overlap * 2))
      hδ x0 x1 y0 y1 z0 z1 fuel
      (by simp only [Cuboid3D.new]; omega)
    rw [checkInters_inflated] at h
    obtain ⟨r, e, h1, h2, h3⟩ := h
    refine ⟨r, e, h1, h2, fun ht => ?_⟩
    have h4 := h3 ht
    simp only [Cuboid3D.new, mul_comm overlap 2] at h4
    exact h4

theorem nodeAt_mono (pos δ : T) (hδ : 0 < δ) (i j : Int) (h : i ≤ j) :
    nodeAt pos δ i ≤ nodeAt pos δ j := by
  unfold nodeAt
  have : (i : T) ≤ (j : T) := by exact_mod_cast h
  have := mul_le_mul_of_nonneg_right this hδ.le
  linarith

theorem axisRange_nonempty_iff (pos δ g0 g1 : T) (hδ : 0 < δ) (n loc0 loc1 : Int)
    (h : AxisRange pos δ g0 g1 n loc0 loc1) :
    loc0 ≤ loc1 ↔ HasNodeIn pos δ g0 g1 (n - 1) := by
  obtain ⟨⟨a1, a2⟩, ⟨b1, b2⟩, ⟨l1, l2, l3⟩, ⟨u1, u2, u3⟩⟩ := h
  constructor
  · intro hle
    exact ⟨loc0, a1, a2, l2, le_trans (nodeAt_mono pos δ hδ loc0 loc1 hle) u2⟩
  · rintro ⟨i, hi0, hil, hg0, hg1⟩
    exact le_trans (l3 i hi0 hg0) (u3 i hil hg1)

end Cuboid3D
end olb

namespace olb
namespace Cuboid3D
variable {T : Type} [LinearOrderedField T] [FloorRing T]

/-- Claim C25.  `checkInters` with local-index outputs over exact arithmetic with
`delta > 0`: with fuel for `n + 2*overlap` evaluations of a loop condition per
axis the six loops finish; the returned value is that of
`checkInters(x0, x1, y0, y1, z0, z1, overlap)`; and whenever it is true, on
each axis `loc0` and `loc1` lie in `0 .. n + 2*overlap - 1`, `loc0` is the least
index `i >= 0` whose node `(origin - overlap*delta) + i*delta` is `>= g0` and
`loc1` is the greatest index `i <= n + 2*overlap - 1` whose node is `<= g1`. -/
theorem checkIntersLoc_spec (c : Cuboid3D T) (hδ : 0 < c.delta)
    (x0 x1 y0 y1 z0 z1 : T) (overlap : Int) (fuel : Nat)
    (hfuel : c.nX + 2 * overlap ≤ fuel ∧ c.nY + 2 * overlap ≤ fuel ∧ c.nZ + 2 * overlap ≤ fuel) :
    ∃ r : IntersLoc, c.checkIntersLoc fuel x0 x1 y0 y1 z0 z1 overlap = some r ∧
      r.result = c.checkInters x0 x1 y0 y1 z0 z1 overlap ∧
      (r.result = true →
        AxisRange (c.globPosX - (overlap : T) * c.delta) c.delta x0 x1 (c.nX + 2 * overlap)
          r.locX0 r.locX1 ∧
        AxisRange (c.globPosY - (overlap : T) * c.delta) c.delta y0 y1 (c.nY + 2 * overlap)
          r.locY0 r.locY1 ∧
        AxisRange (c.globPosZ - (overlap : T) * c.delta) c.delta z0 z1 (c.nZ + 2 * overlap)
          r.locZ0 r.locZ1) := by
  obtain ⟨r, e, h1, _, h3⟩ := checkIntersLoc_core c hδ x0 x1 y0 y1 z0 z1 overlap fuel hfuel
  exact ⟨r, e, h1, h3⟩

/-- Claim C24 as amended.  `checkInters` with local-index outputs, `delta > 0`:
when it returns false it reports `loc0 = 1, loc1 = 0` on all three axes; hence
when the reported range is non-empty on every axis it has returned true; and
when it returns true, the reported range of an axis is non-empty if and only
if some node of this axis of the cuboid inflated by `overlap` lies in the query
interval `[g0, g1]`. -/
theorem checkIntersLoc_nonempty_iff_node (c : Cuboid3D T) (hδ : 0 < c.delta)
    (x0 x1 y0 y1 z0 z1 : T) (overlap : Int) (fuel : Nat)
    (hfuel : c.nX + 2 * overlap ≤ fuel ∧ c.nY + 2 * overlap ≤ fuel ∧ c.nZ + 2 * overlap ≤ fuel) :
    ∃ r : IntersLoc, c.checkIntersLoc fuel x0 x1 y0 y1 z0 z1 overlap = some r ∧
      (r.result = false →
        r.locX0 = 1 ∧ r.locX1 = 0 ∧ r.locY0 = 1 ∧ r.locY1 = 0 ∧ r.locZ0 = 1 ∧ r.locZ1 = 0) ∧
      (r.locX0 ≤ r.locX1 ∧ r.locY0 ≤ r.locY1 ∧ r.locZ0 ≤ r.locZ1 → r.result = true) ∧
      (r.result = true →
        (r.locX0 ≤ r.locX1 ↔
          HasNodeIn (c.globPosX - (overlap : T) * c.delta) c.delta x0 x1
            (c.nX + 2 * overlap - 1)) ∧
        (r.locY0 ≤ r.locY1 ↔
          HasNodeIn (c.globPosY - (overlap : T) * c.delta) c.delta y0 y1
            (c.nY + 2 * overlap - 1)) ∧
        (r.locZ0 ≤ r.locZ1 ↔
          HasNodeIn (c.globPosZ - (overlap : T) * c.delta) c.delta z0 z1
            (c.nZ + 2 * overlap - 1))) := by
  obtain ⟨r, e, _, h2, h3⟩ := checkIntersLoc_core c hδ x0 x1 y0 y1 z0 z1 overlap fuel hfuel
  have hfalse : r.result = false →
      r.locX0 = 1 ∧ r.locX1 = 0 ∧ r.locY0 = 1 ∧ r.locY1 = 0 ∧ r.locZ0 = 1 ∧ r.locZ1 = 0 := by
    intro hf
    rw [h2 hf]
    exact ⟨rfl, rfl, rfl, rfl, rfl, rfl⟩
  refine ⟨r, e, hfalse, ?_, ?_⟩
  · intro hne
    cases hr : r.result
    · have := hfalse hr
      omega
    · rfl
  · intro ht
    obtain ⟨hX, hY, hZ⟩ := h3 ht
    exact ⟨axisRange_nonempty_iff _ _ _ _ hδ _ _ _ hX, axisRange_nonempty_iff _ _ _ _ hδ _ _ _ hY,
      axisRange_nonempty_iff _ _ _ _ hδ _ _ _ hZ⟩

end Cuboid3D

open Cuboid3D

theorem exampleTriple_delta_pos : (0 : ℚ) < exampleTriple.delta := by
  norm_num [exampleTriple, Cuboid3D.new]

/-- Claim C25 at `exampleTriple` (origin `0`, spacing `1`, `3 x 3 x 3` nodes),
overlap `1` and fuel `5`: the call returns, with the value of `checkInters`
without outputs. -/
theorem checkIntersLoc_spec_witness :
    (0 : ℚ) < exampleTriple.delta ∧
    (exampleTriple.nX + 2 * 1 ≤ ((5 : Nat) : Int) ∧ exampleTriple.nY + 2 * 1 ≤ ((5 : Nat) : Int) ∧
      exampleTriple.nZ + 2 * 1 ≤ ((5 : Nat) : Int)) ∧
    ∃ r : IntersLoc,
      exampleTriple.checkIntersLoc 5 (-1 / 2) (3 / 2) 0 2 0 2 1 = some r ∧
      r.result = exampleTriple.checkInters (-1 / 2) (3 / 2) 0 2 0 2 1 :=
  ⟨exampleTriple_delta_pos, by decide,
    (checkIntersLoc_spec exampleTriple exampleTriple_delta_pos (-1 / 2) (3 / 2) 0 2 0 2 1 5
      (by decide)).imp (fun _ h => ⟨h.1, h.2.1⟩)⟩

/-- Claim C24 as amended, at `exampleTriple`, the query `[3/10, 7/10]` on the x
axis and `[0, 2]` on the two other axes, overlap `0` and fuel `3`. -/
theorem checkIntersLoc_nonempty_iff_node_witness :
    (0 : ℚ) < exampleTriple.delta ∧
    (exampleTriple.nX + 2 * 0 ≤ ((3 : Nat) : Int) ∧ exampleTriple.nY + 2 * 0 ≤ ((3 : Nat) : Int) ∧
      exampleTriple.nZ + 2 * 0 ≤ ((3 : Nat) : Int)) ∧
    ∃ r : IntersLoc,
      exampleTriple.checkIntersLoc 3 (3 / 10) (7 / 10) 0 2 0 2 0 = some r ∧
      (r.locX0 ≤ r.locX1 ∧ r.locY0 ≤ r.locY1 ∧ r.locZ0 ≤ r.locZ1 → r.result = true) :=
  ⟨exampleTriple_delta_pos, by decide,
    (checkIntersLoc_nonempty_iff_node exampleTriple exampleTriple_delta_pos
      (3 / 10) (7 / 10) 0 2 0 2 0 3 (by decide)).imp (fun _ h => ⟨h.1, h.2.2.1⟩)⟩

/-- Claim C24 as stated fails.  For `exampleTriple` (origin `0`, spacing `1`,
three nodes per axis) and the query interval `[3/10, 7/10]` on the x axis, which
lies between the nodes `0` and `1`, `checkInters` returns true and reports the
empty range `locX0 = 1`, `locX1 = 0`. -/
theorem checkIntersLoc_true_with_empty_range :
    exampleTriple.checkIntersLoc 3 (3 / 10) (7 / 10) 0 2 0 2 0
      = some { result := true, locX0 := 1, locX1 := 0, locY0 := 0, locY1 := 2,
               locZ0 := 0, locZ1 := 2 } ∧
    ∃ r : IntersLoc, exampleTriple.checkIntersLoc 3 (3 / 10) (7 / 10) 0 2 0 2 0 = some r ∧
      r.result = true ∧ ¬ (r.locX0 ≤ r.locX1) := by
  have h : exampleTriple.checkIntersLoc 3 (3 / 10) (7 / 10) 0 2 0 2 0
      = some { result := true, locX0 := 1, locX1 := 0, locY0 := 0, locY1 := 2,
               locZ0 := 0, locZ1 := 2 } := by
    simp only [checkIntersLoc, checkIntersLocZero, checkInters, searchLow, searchHigh, forLoop,
      forLoopDown, exampleTriple, Cuboid3D.new]
    norm_num
  exact ⟨h, _, h, rfl, by decide⟩

end olb
